import Mathlib

/-!
# sick_tim: the TiM551 telegram parser

A shallow embedding of `SickTim5512050001Parser::parse_datagram`
(`src/sick_tim/src/sick_tim551_2050001_parser.cpp`) and theorems about it.

Conventions of the embedding.

* A C string is a `List Char` without its terminating NUL; a token is a C string.
* `float` and `double` values are IEEE 754 binary32 and binary64 values: a
  rational that the format holds, or one of the special values (`FVal`).
  Every arithmetic operation and every conversion is rounded to nearest, ties
  to even, in the type that C++ gives it (`FVal.to_float`, `FVal.to_double`);
  an operation on `float` operands is rounded once to `float`, a product and
  a sum are not fused.  The two zeros are one value: nothing the parser
  computes depends on the sign of a zero.  `M_PI` is the exact rational value
  of the `double` constant.
* A local without initial value that `sscanf` leaves unassigned (`tmp`,
  `range`, `intensity`) holds whatever the stack holds at that moment: the
  argument `stack` of the parser gives that value, `stack i` for the read
  after `sscanf` failed on `fields[i]`.
* A conversion of a `double` to an integer type that cannot hold the value has
  the result of the x86-64 conversion instruction.
* Behaviours of the C++ code that are not a `return` are results of their
  own (`Fault`): a read of `fields[i]` past the end of the vector, the
  `std::length_error` thrown by `std::vector::resize`, and a loop that has not
  finished within the fuel.
* The logger is modelled by the list of warnings a successful call issued.
-/

namespace sick_tim

/-! ## Numeric values -/
/-- Values of `float` and `double` expressions: a rational, or one of the IEEE specials. -/
inductive FVal where
  | fin (q : ℚ)
  | pinf
  | ninf
  | nan
  deriving DecidableEq

namespace FVal

/-- IEEE negation. -/
def neg : FVal → FVal
  | fin a => fin (-a)
  | pinf => ninf
  | ninf => pinf
  | nan => nan

/-- IEEE addition, before rounding. -/
def add : FVal → FVal → FVal
  | fin a, fin b => fin (a + b)
  | nan, _ => nan
  | _, nan => nan
  | pinf, ninf => nan
  | ninf, pinf => nan
  | pinf, _ => pinf
  | _, pinf => pinf
  | ninf, _ => ninf
  | _, ninf => ninf

/-- IEEE subtraction, before rounding. -/
def sub (x y : FVal) : FVal := add x (neg y)

/-- Sign of a value as an infinity: used for products and quotients with an infinite operand. -/
def signInf (neg : Bool) : FVal := if neg then ninf else pinf

/-- IEEE multiplication, before rounding. -/
def mul : FVal → FVal → FVal
  | fin a, fin b => fin (a * b)
  | nan, _ => nan
  | _, nan => nan
  | fin a, pinf => if a = 0 then nan else signInf (decide (a < 0))
  | fin a, ninf => if a = 0 then nan else signInf (decide (0 < a))
  | pinf, fin b => if b = 0 then nan else signInf (decide (b < 0))
  | ninf, fin b => if b = 0 then nan else signInf (decide (0 < b))
  | pinf, pinf => pinf
  | ninf, ninf => pinf
  | pinf, ninf => ninf
  | ninf, pinf => ninf

/-- IEEE division, before rounding.  A zero divisor is taken as `+0`: the
divisors of the parser that can be zero are products of an unsigned integer
and a positive constant. -/
def div : FVal → FVal → FVal
  | fin a, fin b =>
    if b = 0 then (if a = 0 then nan else signInf (decide (a < 0))) else fin (a / b)
  | nan, _ => nan
  | _, nan => nan
  | fin _, pinf => fin 0
  | fin _, ninf => fin 0
  | pinf, fin b => signInf (decide (b < 0))
  | ninf, fin b => signInf (decide (0 ≤ b))
  | pinf, pinf => nan
  | ninf, ninf => nan
  | pinf, ninf => nan
  | ninf, pinf => nan

/-- The C function `fabs`. -/
def fabs : FVal → FVal
  | fin a => fin |a|
  | pinf => pinf
  | ninf => pinf
  | nan => nan

/-- The comparison `x > y` of C: false when an operand is NaN. -/
def gt : FVal → FVal → Bool
  | fin a, fin b => decide (b < a)
  | nan, _ => false
  | _, nan => false
  | pinf, pinf => false
  | ninf, ninf => false
  | pinf, _ => true
  | _, ninf => true
  | _, _ => false

/-- The comparison `x >= y` of C: false when an operand is NaN. -/
def ge : FVal → FVal → Bool
  | fin a, fin b => decide (b ≤ a)
  | nan, _ => false
  | _, nan => false
  | pinf, _ => true
  | _, ninf => true
  | _, _ => false

/-- The comparison `x < y` of C: false when an operand is NaN. -/
def lt (x y : FVal) : Bool := gt y x

/-- The C function `floor` on a `double`. -/
def floor : FVal → FVal
  | fin a => fin ⌊a⌋
  | v => v

end FVal

/-! ## Rounding -/

/-- The loop of `nat_log2`: halve until the number is below 2. -/
def log2_loop : Nat → Nat → Nat
  | 0, _ => 0
  | fuel + 1, n => if 2 ≤ n then log2_loop fuel (n / 2) + 1 else 0

/-- The position of the leading bit of a natural number (0 for 0 and 1). -/
def nat_log2 (n : Nat) : Nat := log2_loop n n

/-- The power `2 ^ e` for an integer exponent. -/
def pow2 (e : Int) : ℚ :=
  if 0 ≤ e then ((2 ^ e.toNat : Nat) : ℚ) else 1 / ((2 ^ (-e).toNat : Nat) : ℚ)

/-- The binary exponent of a rational `x ≠ 0`: the `e` with `2 ^ e ≤ |x| < 2 ^ (e + 1)`. -/
def ilog2 (x : ℚ) : Int :=
  let e : Int := (nat_log2 x.num.natAbs : Int) - (nat_log2 x.den : Int)
  if pow2 e ≤ |x| then e else e - 1

/-- The integer nearest to a rational, the even one of the two when it is half way. -/
def round_half_even (t : ℚ) : Int :=
  if t - ⌊t⌋ < 1 / 2 then ⌊t⌋
  else if 1 / 2 < t - ⌊t⌋ then ⌊t⌋ + 1
  else if ⌊t⌋ % 2 = 0 then ⌊t⌋ else ⌊t⌋ + 1

/-- The unit in the last place of the binary format with `p` significant bits
and least exponent `emin`, at the rational `x`. -/
def ulp (p : Nat) (emin : Int) (x : ℚ) : ℚ :=
  pow2 (max (ilog2 x) emin - ((p : Int) - 1))

/-- Rounding to nearest, ties to even, of a rational to a multiple of the unit
in the last place: the rounding of IEEE 754 for an unbounded exponent range. -/
def round_raw (p : Nat) (emin : Int) (x : ℚ) : ℚ :=
  (round_half_even (x / ulp p emin x) : ℚ) * ulp p emin x

/-- IEEE 754 rounding to nearest, ties to even, of a rational to the binary
format with `p` significant bits and exponents from `emin` to `emax`:
subnormal below `2 ^ emin`, an infinity from `2 ^ (emax + 1)` on. -/
def round_to (p : Nat) (emin emax : Int) (x : ℚ) : FVal :=
  if pow2 (emax + 1) ≤ |round_raw p emin x| then (if x < 0 then FVal.ninf else FVal.pinf)
  else FVal.fin (round_raw p emin x)

namespace FVal

/-- Conversion to `float` (binary32). -/
def to_float : FVal → FVal
  | fin a => round_to 24 (-126) 127 a
  | v => v

/-- Conversion to `double` (binary64). -/
def to_double : FVal → FVal
  | fin a => round_to 53 (-1022) 1023 a
  | v => v

/-- The sum of two `float` values, a `float`. -/
def fadd (x y : FVal) : FVal := to_float (add x y)

/-- The difference of two `float` values, a `float`. -/
def fsub (x y : FVal) : FVal := to_float (sub x y)

/-- The product of two `float` values, a `float`. -/
def fmul (x y : FVal) : FVal := to_float (mul x y)

/-- The sum of two `double` values, a `double`. -/
def dadd (x y : FVal) : FVal := to_double (add x y)

/-- The difference of two `double` values, a `double`. -/
def dsub (x y : FVal) : FVal := to_double (sub x y)

/-- The product of two `double` values, a `double`. -/
def dmul (x y : FVal) : FVal := to_double (mul x y)

/-- The quotient of two `double` values, a `double`. -/
def ddiv (x y : FVal) : FVal := to_double (div x y)

/-- Truncation of a rational toward zero. -/
def trunc (a : ℚ) : Int := if a < 0 then -⌊-a⌋ else ⌊a⌋

/-- Conversion of a `double` to `int32_t`.  C++ leaves it undefined when the
truncated value is out of range; the x86-64 instruction `cvttsd2si` then gives
`-2^31`, also for an infinity and NaN. -/
def to_int32 : FVal → Int
  | fin a => if -2 ^ 31 ≤ trunc a ∧ trunc a < 2 ^ 31 then trunc a else -2 ^ 31
  | _ => -2 ^ 31

/-- Conversion of a `double` to `uint32_t`.  C++ leaves it undefined when the
truncated value is out of range; on x86-64 the 64 bit `cvttsd2si` is used and
its low 32 bits are kept. -/
def to_uint32 : FVal → Int
  | fin a => if -2 ^ 63 ≤ trunc a ∧ trunc a < 2 ^ 63 then trunc a % 2 ^ 32 else 0
  | _ => 0

end FVal

/-- The `float` nearest to a rational (for a rational in the range of the format). -/
def float_of (q : ℚ) : ℚ := round_raw 24 (-126) q

/-- The `double` nearest to a rational (for a rational in the range of the
format): the value that a decimal literal or parameter value denotes. -/
def double_of (q : ℚ) : ℚ := round_raw 53 (-1022) q

/-- The `double` constant `M_PI` of `math.h`, as the exact rational it denotes. -/
def M_PI : ℚ := 884279719003555 / 281474976710656

/-! ## The C library conversions used by the parser -/

/-- A token: one element of `fields`, a C string without its terminator. -/
abbrev Token := List Char

/-- The C function `isspace` in the "C" locale. -/
def isspace (c : Char) : Bool :=
  c.toNat = 32 || (9 ≤ c.toNat && c.toNat ≤ 13)

/-- Value of a hexadecimal digit. -/
def hexDigit (c : Char) : Option Nat :=
  if 48 ≤ c.toNat ∧ c.toNat ≤ 57 then some (c.toNat - 48)
  else if 97 ≤ c.toNat ∧ c.toNat ≤ 102 then some (c.toNat - 87)
  else if 65 ≤ c.toNat ∧ c.toNat ≤ 70 then some (c.toNat - 55)
  else none

/-- Value of a decimal digit. -/
def decDigit (c : Char) : Option Nat :=
  if 48 ≤ c.toNat ∧ c.toNat ≤ 57 then some (c.toNat - 48) else none

/-- The digit values of the longest run of digits a string starts with. -/
def takeDigits (dig : Char → Option Nat) : List Char → List Nat
  | [] => []
  | c :: cs =>
    match dig c with
    | some d => d :: takeDigits dig cs
    | none => []

/-- Value of a digit sequence, most significant digit first. -/
def digitsValue (base : Nat) (ds : List Nat) : Nat :=
  ds.foldl (fun acc d => acc * base + d) 0

/-- An optional sign: whether it is a minus, and the rest of the string. -/
def takeSign (s : List Char) : Bool × List Char :=
  match s with
  | [] => (false, [])
  | c :: cs => if c = '-' then (true, cs) else if c = '+' then (false, cs) else (false, c :: cs)

/-- The "0x" of a hexadecimal number: the `x` is consumed, the `0` counts as a digit. -/
def dropHexMark (s : List Char) : List Char :=
  match s with
  | c :: x :: cs => if c = '0' ∧ (x = 'x' ∨ x = 'X') then c :: cs else s
  | _ => s

/-- The `unsigned long` that the `%x` family of `sscanf` converts a string to
(white space, sign, "0x", digits; `strtoul` gives `ULONG_MAX` when the digits
overflow 64 bits, with or without a minus sign, and otherwise negates modulo
`2^64`), or `none` on a matching failure. -/
def scanHex (s : Token) : Option Nat :=
  let (minus, r) := takeSign (s.dropWhile isspace)
  let ds := takeDigits hexDigit (dropHexMark r)
  if ds = [] then none
  else
    let v := digitsValue 16 ds
    some (if 2 ^ 64 ≤ v then 2 ^ 64 - 1 else if minus then (2 ^ 64 - v) % 2 ^ 64 else v)

/-- The conversion `sscanf(s, "%hx", &u16)`: the value stored, if any. -/
def sscanf_hx (s : Token) : Option Nat :=
  (scanHex s).map (fun v => v % 2 ^ 16)

/-- The conversion `sscanf(s, "%x", &u32)`: the value stored, if any. -/
def sscanf_x (s : Token) : Option Nat :=
  (scanHex s).map (fun v => v % 2 ^ 32)

/-- A 32 bit pattern read as `int32_t`. -/
def toInt32 (u : Nat) : Int :=
  if u % 2 ^ 32 < 2 ^ 31 then (u % 2 ^ 32 : Nat) else ((u % 2 ^ 32 : Nat) : Int) - 2 ^ 32

/-- The conversion `sscanf(s, "%d", &i)`: the value stored, if any (`strtol`
saturates at `LONG_MIN` and `LONG_MAX`, the result is cut to 32 bits). -/
def sscanf_d (s : Token) : Option Int :=
  let (minus, r) := takeSign (s.dropWhile isspace)
  let ds := takeDigits decDigit r
  if ds = [] then none
  else
    let v := digitsValue 10 ds
    let l : Nat := if minus then (2 ^ 64 - min v (2 ^ 63)) % 2 ^ 64 else min v (2 ^ 63 - 1)
    some (toInt32 l)

/-- The C call `strtok_r(s, " ", &saveptr)`: the next token and the rest of
the string after it, or `none` when only delimiters are left. -/
def strtok_r (s : List Char) : Option (Token × List Char) :=
  match s.dropWhile (fun c => c == ' ') with
  | [] => none
  | c :: cs => some (c :: cs.takeWhile (fun d => d != ' '), (cs.dropWhile (fun d => d != ' ')).drop 1)

/-- The tokenizer loop of `parse_datagram`: `fields` after the `while`. -/
def tokenizeLoop (s : List Char) : List Token :=
  match h : strtok_r s with
  | none => []
  | some (tok, rest) => tok :: tokenizeLoop rest
termination_by s.length
decreasing_by
  unfold strtok_r at h
  split at h
  · simp at h
  · rename_i c cs heq
    simp only [Option.some.injEq, Prod.mk.injEq] at h
    have h1 : (c :: cs).length ≤ s.length := by
      rw [← heq]; exact (List.dropWhile_suffix _).length_le
    have h2 : (cs.dropWhile (fun d => d != ' ')).length ≤ cs.length :=
      (List.dropWhile_suffix _).length_le
    rw [← h.2]
    simp only [List.length_drop, List.length_cons] at *
    omega

/-- The tokenizer of `parse_datagram`: `datagram` is a C string, it ends at its first NUL. -/
def tokenize (datagram : List Char) : List Token :=
  tokenizeLoop (datagram.takeWhile (fun c => c != Char.ofNat 0))

/-! ## Messages, configuration and results -/

/-- Modelled from the spec: the time stamp of `builtin_interfaces::msg::Time`
(a message type that is not part of the sources). -/
structure Time where
  sec : Int
  nanosec : Int
  deriving DecidableEq

/-- Modelled from the spec: the header of `std_msgs::msg::Header` (a message
type that is not part of the sources). -/
structure Header where
  stamp : Time
  frame_id : String
  deriving DecidableEq

/-- Modelled from the spec: the parsed scan, `sensor_msgs::msg::LaserScan` (a
message type that is not part of the sources), with the fields the parser writes. -/
structure LaserScan where
  header : Header
  angle_min : FVal
  angle_max : FVal
  angle_increment : FVal
  time_increment : FVal
  scan_time : FVal
  range_min : FVal
  range_max : FVal
  ranges : List FVal
  intensities : List FVal
  deriving DecidableEq

/-- Modelled from the spec: the decode parameters, `SickTimConfig` of
`sick_tim_common.hpp` (a header that is not part of the sources), with the
fields the parser reads.  The `double` parameters are finite. -/
structure SickTimConfig where
  frame_id : String
  min_ang : ℚ
  max_ang : ℚ
  intensity : Bool
  time_offset : ℚ

/-- The data members of `SickTim5512050001Parser`, of type `float` and finite;
the clock is the argument `now` of `parse_datagram`. -/
structure SickTim5512050001Parser where
  override_range_min_ : ℚ
  override_range_max_ : ℚ
  override_time_increment_ : ℚ

/-- The six places where `parse_datagram` returns `ExitError`, under the names
the specification gives them. -/
inductive Reject where
  | MalformedTelegram
  | UnexpectedReservedByte
  | UnexpectedDataContentMarker
  | SampleCountOutOfRange
  | TruncatedTelegram
  | RssiSampleCountMismatch
  deriving DecidableEq

/-- Behaviours of `parse_datagram` that are not a return. -/
inductive Fault where
  /-- `fields[i]` was read with `i >= fields.size()`. -/
  | outOfBounds (i : Nat)
  /-- `std::vector::resize` was called with a negative `int`, it throws `std::length_error`. -/
  | lengthError
  /-- A `while` loop was still running when the fuel ran out. -/
  | outOfFuel
  deriving DecidableEq

/-- The warnings `parse_datagram` can issue without rejecting the telegram. -/
inductive Warning where
  | rssiMarkerMismatch
  | intensityWithoutRssi
  | negativeTimestamp
  | inconsistentTiming
  deriving DecidableEq

/-- Locals of a successful call, kept for the statements about them. -/
structure Trace where
  number_of_data : Nat
  rssi : Bool
  index_min : Nat
  index_max : Int
  start_time_adjusted : FVal
  warnings : List Warning
  deriving DecidableEq

/-- Result of `parse_datagram`: the return value with the scan message as the
call leaves it, or a fault. -/
inductive Outcome where
  | ExitError (r : Reject) (msg : LaserScan)
  | ExitSuccess (msg : LaserScan) (t : Trace)
  | fault (f : Fault)
  deriving DecidableEq

/-- The constant `HEADER_FIELDS` of `parse_datagram`. -/
def HEADER_FIELDS : Nat := 26

/-- The constant `MIN_FOOTER_FIELDS` of `parse_datagram`. -/
def MIN_FOOTER_FIELDS : Nat := 5

-- Equality of results with a fault is decidable.
deriving instance DecidableEq for Except

/-! ## The parser -/

/-- What the checks of `parse_datagram` before the first write to `msg`
(source lines 97 to 179) end with: a rejection, a fault, or the locals
`number_of_data` and `rssi` together with the warnings issued. -/
inductive Lengths where
  | reject (r : Reject)
  | fault (f : Fault)
  | ok (number_of_data : Nat) (rssi : Bool) (warnings : List Warning)
  deriving DecidableEq

/-- The RSSI checks of `parse_datagram`, source lines 145 to 179. -/
def check_rssi (fields : List Token) (stack : Nat → Nat) (number_of_data : Nat) : Lengths :=
  let count := fields.length
  let rssi_idx := HEADER_FIELDS + number_of_data
  match fields[rssi_idx]? with
  | none => .fault (.outOfBounds rssi_idx)
  | some fr =>
    let tmp := (sscanf_d fr).getD (toInt32 (stack rssi_idx))
    if tmp > 0 then
      match fields[rssi_idx + 6]? with
      | none => .fault (.outOfBounds (rssi_idx + 6))
      | some fn =>
        let number_of_rssi_data := (sscanf_hx fn).getD 0
        if number_of_rssi_data ≠ number_of_data then .reject .RssiSampleCountMismatch
        else if count < HEADER_FIELDS + number_of_data + 1 + 6
            + number_of_rssi_data + MIN_FOOTER_FIELDS then
          .reject .TruncatedTelegram
        else
          match fields[rssi_idx + 1]? with
          | none => .fault (.outOfBounds (rssi_idx + 1))
          | some fm =>
            .ok number_of_data true
              (if fm ≠ ['R', 'S', 'S', 'I', '1'] then [.rssiMarkerMismatch] else [])
    else .ok number_of_data false []

/-- The checks of the data length of `parse_datagram`, source lines 125 to 179. -/
def check_lengths (fields : List Token) (stack : Nat → Nat) : Lengths :=
  let count := fields.length
  match fields[25]? with
  | none => .fault (.outOfBounds 25)
  | some f25 =>
    let number_of_data := (sscanf_hx f25).getD 0
    if number_of_data < 1 ∨ number_of_data > 811 then .reject .SampleCountOutOfRange
    else if count < HEADER_FIELDS + number_of_data + 1 + MIN_FOOTER_FIELDS then
      .reject .TruncatedTelegram
    else check_rssi fields stack number_of_data

/-- Header validation and length decoding of `parse_datagram`, source lines 97 to 179. -/
def check_telegram (fields : List Token) (stack : Nat → Nat) : Lengths :=
  let count := fields.length
  if count < HEADER_FIELDS + 1 + MIN_FOOTER_FIELDS then .reject .MalformedTelegram
  else
    match fields[15]? with
    | none => .fault (.outOfBounds 15)
    | some f15 =>
      if f15 ≠ ['0'] then .reject .UnexpectedReservedByte
      else
        match fields[20]? with
        | none => .fault (.outOfBounds 20)
        | some f20 =>
          if f20 ≠ ['D', 'I', 'S', 'T', '1'] then .reject .UnexpectedDataContentMarker
          else check_lengths fields stack

/-- The loop `while (msg.angle_min + msg.angle_increment < config.min_ang)`:
the final `angle_min` and `index_min`, or `none` when the fuel runs out.  The
sum is a `float`, the comparison is made in `double`. -/
def trim_min (angle_increment : FVal) (min_ang : ℚ) : Nat → FVal → Nat → Option (FVal × Nat)
  | 0, _, _ => none
  | fuel + 1, angle_min, index_min =>
    if FVal.lt (FVal.fadd angle_min angle_increment) (.fin min_ang) then
      trim_min angle_increment min_ang fuel (FVal.fadd angle_min angle_increment) (index_min + 1)
    else some (angle_min, index_min)

/-- The loop `while (msg.angle_max - msg.angle_increment > config.max_ang)`:
the final `angle_max` and `index_max`, or `none` when the fuel runs out.  The
difference is a `float`, the comparison is made in `double`. -/
def trim_max (angle_increment : FVal) (max_ang : ℚ) : Nat → FVal → Int → Option (FVal × Int)
  | 0, _, _ => none
  | fuel + 1, angle_max, index_max =>
    if FVal.gt (FVal.fsub angle_max angle_increment) (.fin max_ang) then
      trim_max angle_increment max_ang fuel (FVal.fsub angle_max angle_increment) (index_max - 1)
    else some (angle_max, index_max)

/-- The value stored in `msg.ranges` for the 16 bit reading `range`: infinity
for 0, otherwise the `double` quotient `range / 1000.0` converted to `float`. -/
def range_value (range : Nat) : FVal :=
  if range = 0 then FVal.pinf
  else FVal.to_float (FVal.ddiv (.fin range) (.fin 1000))

/-- The loop over `j` that fills `msg.ranges`: `n` iterations from `j` on.
The local `range` has no initial value: when `sscanf` does not assign it, it
holds what the stack holds. -/
def read_ranges (fields : List Token) (stack : Nat → Nat) : Nat → Nat → Except Fault (List FVal)
  | 0, _ => .ok []
  | n + 1, j =>
    match fields[j + HEADER_FIELDS]? with
    | none => .error (.outOfBounds (j + HEADER_FIELDS))
    | some t =>
      let range := (sscanf_hx t).getD (stack (j + HEADER_FIELDS) % 2 ^ 16)
      match read_ranges fields stack n (j + 1) with
      | .error f => .error f
      | .ok rest => .ok (range_value range :: rest)

/-- The loop over `j` that fills `msg.intensities`: `n` iterations from `j`
on.  The local `intensity` has no initial value: when `sscanf` does not assign
it, it holds what the stack holds.  A 16 bit value converts to `float` as it is. -/
def read_intensities (fields : List Token) (stack : Nat → Nat) (offset : Nat) :
    Nat → Nat → Except Fault (List FVal)
  | 0, _ => .ok []
  | n + 1, j =>
    match fields[j + offset]? with
    | none => .error (.outOfBounds (j + offset))
    | some t =>
      let intensity := (sscanf_hx t).getD (stack (j + offset) % 2 ^ 16)
      match read_intensities fields stack offset n (j + 1) with
      | .error f => .error f
      | .ok rest => .ok (FVal.fin intensity :: rest)

/-- The header stamp for the local `start_time_adjusted`: `sec` is the
`double` `floor(start_time_adjusted)` converted to `int32_t`, `nanosec` the
`double` `(start_time_adjusted - floor(start_time_adjusted)) * 1e9` converted
to `uint32_t`. -/
def stamp_of (start_time_adjusted : FVal) : Time :=
  { sec := FVal.to_int32 (FVal.floor start_time_adjusted),
    nanosec := FVal.to_uint32
      (FVal.dmul (FVal.dsub start_time_adjusted (FVal.floor start_time_adjusted))
        (.fin 1000000000)) }

/-- The block `if (config.intensity)` of `parse_datagram`: the new value of
`msg.intensities` and the warnings issued. -/
def write_intensities (fields : List Token) (stack : Nat → Nat) (intensity rssi : Bool)
    (number_of_data n index_min : Nat) (old : List FVal) :
    Except Fault (List FVal × List Warning) :=
  if intensity then
    if rssi then
      match read_intensities fields stack (HEADER_FIELDS + number_of_data + 7) n index_min with
      | .error f => .error f
      | .ok is => .ok (is, [])
    else .ok (old, [.intensityWithoutRssi])
  else .ok (old, [])

/-- The block `if (start_time_adjusted >= 0.0)` of `parse_datagram`: the new
value of `msg.header.stamp` and the warnings issued. -/
def write_stamp (start_time_adjusted : FVal) (old : Time) : Time × List Warning :=
  if FVal.ge start_time_adjusted (.fin 0) then (stamp_of start_time_adjusted, [])
  else (old, [.negativeTimestamp])

/-- The consistency check at the end of `parse_datagram`: the warning it
issues.  The product is a `float`, the quotient a `double` that is stored in
the `float` `expected_time_increment`; the difference is a `float`, and
`0.00001` a `double`. -/
def check_timing (scan_time angle_increment time_increment : FVal) : List Warning :=
  let expected_time_increment := FVal.to_float
    (FVal.ddiv (FVal.fmul scan_time angle_increment) (FVal.dmul (.fin 2) (.fin M_PI)))
  if FVal.gt (FVal.fabs (FVal.fsub expected_time_increment time_increment))
      (FVal.to_double (.fin (1 / 100000))) then
    [.inconsistentTiming]
  else []

/-- The fields that the geometry decoding of `parse_datagram` (source lines
202 to 241) writes, all of type `float`. -/
structure Geometry where
  scan_time : FVal
  time_increment : FVal
  angle_min : FVal
  angle_increment : FVal
  angle_max : FVal
  deriving DecidableEq

/-- Geometry decoding of `parse_datagram`, source lines 202 to 241: the values
written to `msg.scan_time`, `msg.time_increment`, `msg.angle_min`,
`msg.angle_increment` and `msg.angle_max` before the angle loops.  The right
hand sides of lines 205, 211, 234 and 240 are `double` expressions, converted
to `float` by the assignment; line 241 is a `float` expression. -/
def decode_geometry (self : SickTim5512050001Parser) (fields : List Token)
    (number_of_data : Nat) : Except Fault Geometry :=
  match fields[16]? with
  | none => .error (.outOfBounds 16)
  | some f16 =>
    let scanning_freq := (sscanf_hx f16).getD 65535
    match fields[17]? with
    | none => .error (.outOfBounds 17)
    | some f17 =>
      let measurement_freq := (sscanf_hx f17).getD 65535
      match fields[23]? with
      | none => .error (.outOfBounds 23)
      | some f23 =>
        let starting_angle := toInt32 ((sscanf_x f23).getD (2 ^ 32 - 1))
        match fields[24]? with
        | none => .error (.outOfBounds 24)
        | some f24 =>
          let angular_step_width := (sscanf_hx f24).getD 65535
          let angle_min := FVal.to_float
            (FVal.dsub
              (FVal.dmul (FVal.ddiv (FVal.ddiv (.fin starting_angle) (.fin 10000)) (.fin 180))
                (.fin M_PI))
              (FVal.ddiv (.fin M_PI) (.fin 2)))
          let angle_increment := FVal.to_float
            (FVal.dmul (FVal.ddiv (FVal.ddiv (.fin angular_step_width) (.fin 10000)) (.fin 180))
              (.fin M_PI))
          .ok
            { scan_time :=
                FVal.to_float (FVal.ddiv (.fin 1) (FVal.ddiv (.fin scanning_freq) (.fin 100))),
              time_increment :=
                if self.override_time_increment_ > 0 then FVal.fin self.override_time_increment_
                else FVal.to_float
                  (FVal.ddiv (.fin 1) (FVal.dmul (.fin measurement_freq) (.fin 100))),
              angle_min := angle_min,
              angle_increment := angle_increment,
              angle_max := FVal.fadd angle_min
                (FVal.fmul (FVal.to_float (.fin (((number_of_data : Int) - 1 : Int) : ℚ))) angle_increment) }

/-- The local `start_time_adjusted` of `parse_datagram`, source lines 318 to
321, for the reading `now` of `start_time.seconds()`: the two products of an
`int` and the `float` `msg.time_increment` are `float` values, the difference
and the sums are `double` values. -/
def start_time (now : ℚ) (number_of_data index_min : Nat) (time_increment : FVal)
    (time_offset : ℚ) : FVal :=
  FVal.dadd
    (FVal.dadd
      (FVal.dsub (.fin now) (FVal.fmul (FVal.to_float (.fin number_of_data)) time_increment))
      (FVal.fmul (FVal.to_float (.fin index_min)) time_increment))
    (.fin time_offset)

/-- The part of `parse_datagram` that writes `msg`, source lines 181 to 343:
the message and the locals at `return ExitSuccess`, or a fault.
The counter `index_min` only counts up from 0 and is a natural number; the
`int` counters are not cut to 32 bits. -/
def read_scan (self : SickTim5512050001Parser) (fuel : Nat) (fields : List Token)
    (config : SickTimConfig) (now : ℚ) (stack : Nat → Nat) (msg : LaserScan)
    (number_of_data : Nat) (rssi : Bool) (warnings : List Warning) :
    Except Fault (LaserScan × Trace) :=
  match decode_geometry self fields number_of_data with
  | .error f => .error f
  | .ok g =>
    match trim_min g.angle_increment config.min_ang fuel g.angle_min 0 with
    | none => .error .outOfFuel
    | some lo =>
      match trim_max g.angle_increment config.max_ang fuel g.angle_max
          ((number_of_data : Int) - 1) with
      | none => .error .outOfFuel
      | some hi =>
        if hi.2 - lo.2 + 1 < 0 then .error .lengthError
        else
          match read_ranges fields stack (hi.2 - lo.2 + 1).toNat lo.2 with
          | .error f => .error f
          | .ok ranges =>
            match write_intensities fields stack config.intensity rssi number_of_data
                (hi.2 - lo.2 + 1).toNat lo.2 msg.intensities with
            | .error f => .error f
            | .ok iw =>
              .ok
                ({ header :=
                     { stamp := (write_stamp
                         (start_time now number_of_data lo.2 g.time_increment
                           config.time_offset) msg.header.stamp).1,
                       frame_id := config.frame_id },
                   angle_min := lo.1,
                   angle_max := hi.1,
                   angle_increment := g.angle_increment,
                   time_increment := g.time_increment,
                   scan_time := g.scan_time,
                   range_min := .fin self.override_range_min_,
                   range_max := .fin self.override_range_max_,
                   ranges := ranges,
                   intensities := iw.1 },
                 { number_of_data := number_of_data,
                   rssi := rssi,
                   index_min := lo.2,
                   index_max := hi.2,
                   start_time_adjusted :=
                     start_time now number_of_data lo.2 g.time_increment config.time_offset,
                   warnings := warnings ++ iw.2
                     ++ (write_stamp
                         (start_time now number_of_data lo.2 g.time_increment
                           config.time_offset) msg.header.stamp).2
                     ++ check_timing g.scan_time g.angle_increment g.time_increment })

/-- The body of `parse_datagram` after the tokenizer, on the vector `fields`. -/
def parse_fields (self : SickTim5512050001Parser) (fuel : Nat) (fields : List Token)
    (config : SickTimConfig) (now : ℚ) (stack : Nat → Nat) (msg : LaserScan) : Outcome :=
  match check_telegram fields stack with
  | .reject r => .ExitError r msg
  | .fault f => .fault f
  | .ok number_of_data rssi warnings =>
    match read_scan self fuel fields config now stack msg number_of_data rssi warnings with
    | .error f => .fault f
    | .ok r => .ExitSuccess r.1 r.2

/-- The function `SickTim5512050001Parser::parse_datagram`.  `datagram` is the
buffer as a C string, `now` the reading `start_time.seconds()` of `clock_`,
`stack` the contents of the locals without initial value, `msg` the scan
message the caller passes in; `fuel` bounds the iterations of each angle loop. -/
def parse_datagram (self : SickTim5512050001Parser) (fuel : Nat) (datagram : List Char)
    (config : SickTimConfig) (now : ℚ) (stack : Nat → Nat) (msg : LaserScan) : Outcome :=
  parse_fields self fuel (tokenize datagram) config now stack msg

/-! ## Building telegrams -/

/-- Whether a string can be a token of a telegram: not empty, without space and without NUL. -/
def is_token (t : Token) : Bool :=
  !t.isEmpty && t.all (fun c => c != ' ' && c != Char.ofNat 0)

/-- The telegram text of a token sequence: the tokens joined by single spaces. -/
def telegram_of : List Token → List Char
  | [] => []
  | [t] => t
  | t :: u :: ts => t ++ ' ' :: telegram_of (u :: ts)

/-- The character of a hexadecimal digit value, in upper case. -/
def hexChar (d : Nat) : Char :=
  Char.ofNat (if d < 10 then 48 + d else 55 + d)

/-- The hexadecimal token of a number, without leading zeros. -/
def hex_token (n : Nat) : Token :=
  if n = 0 then ['0'] else (Nat.digits 16 n).reverse.map hexChar

/-- The tokens of a telegram without RSSI block built from a start angle, an
angular step and samples: `pre` holds the tokens 0 to 22, then come the start
angle (as 32 bit two's complement), the step and the sample count in
hexadecimal, the samples in hexadecimal, the RSSI flag "0" and the trailer. -/
def build_fields (pre : List Token) (start : Int) (step : Nat) (samples : List Nat)
    (trailer : List Token) : List Token :=
  pre ++ [hex_token (start % 2 ^ 32).toNat, hex_token step, hex_token samples.length]
    ++ samples.map hex_token ++ [['0']] ++ trailer

/-! ## The values of the geometry -/

/-- The `float` that source line 234 assigns to `msg.angle_min` for the start
angle `starting_angle`, when no step of the computation leaves the range of
its format. -/
def angle_min_of (starting_angle : Int) : ℚ :=
  float_of (double_of
    (double_of (double_of (double_of ((starting_angle : ℚ) / 10000) / 180) * M_PI)
      - double_of (M_PI / 2)))

/-- The `float` that source line 240 assigns to `msg.angle_increment` for the
step `angular_step_width`, when no step of the computation leaves the range of
its format. -/
def angle_increment_of (angular_step_width : Nat) : ℚ :=
  float_of (double_of
    (double_of (double_of ((angular_step_width : ℚ) / 10000) / 180) * M_PI))

/-- The `float` that source line 241 assigns to `msg.angle_max`, when no step
of the computation leaves the range of its format. -/
def angle_max_of (angle_min angle_increment : ℚ) (number_of_data : Nat) : ℚ :=
  float_of (angle_min
    + float_of (float_of ((((number_of_data : Int) - 1 : Int) : ℚ)) * angle_increment))


/-! ## The angles of the angle loops -/

/-- The value of `msg.angle_min` after `k` runs of the body
`msg.angle_min += msg.angle_increment` of the first angle loop: `k` additions
in `float`. -/
def angle_min_after (angle_increment : FVal) : Nat → FVal → FVal
  | 0, angle_min => angle_min
  | k + 1, angle_min => angle_min_after angle_increment k (FVal.fadd angle_min angle_increment)

/-- The value of `msg.angle_max` after `k` runs of the body
`msg.angle_max -= msg.angle_increment` of the second angle loop: `k`
subtractions in `float`. -/
def angle_max_after (angle_increment : FVal) : Nat → FVal → FVal
  | 0, angle_max => angle_max
  | k + 1, angle_max => angle_max_after angle_increment k (FVal.fsub angle_max angle_increment)

/-! ## Sample data -/

/-- The parser as its constructor leaves it: the `float` members are
initialised with the `double` literals 0.05, 10.0 and -1.0. -/
def SickTim5512050001Parser.new : SickTim5512050001Parser :=
  { override_range_min_ := float_of (double_of (1 / 20)), override_range_max_ := 10,
    override_time_increment_ := -1 }

/-- A stack that holds 0 wherever a local without initial value is read. -/
def zero_stack : Nat → Nat := fun _ => 0

/-- A configuration with an angle window that holds every sample of the sample telegrams. -/
def sample_config : SickTimConfig :=
  { frame_id := "laser", min_ang := -3, max_ang := 3, intensity := true,
    time_offset := double_of (-1 / 1000) }

/-- An empty scan message. -/
def empty_scan : LaserScan :=
  { header := { stamp := { sec := 0, nanosec := 0 }, frame_id := "" },
    angle_min := .fin 0, angle_max := .fin 0, angle_increment := .fin 0,
    time_increment := .fin 0, scan_time := .fin 0, range_min := .fin 0, range_max := .fin 0,
    ranges := [], intensities := [] }

/-- The tokens of a telegram with three samples and without RSSI block (38 tokens). -/
def sample_tokens : List Token :=
  (["sRA", "LMDscandata", "1", "1", "B96518", "0", "0", "99", "9A", "13C8E59", "13C9CBE",
    "0", "0", "8", "0", "0", "5DC", "36", "0", "1", "DIST1", "3F800000", "00000000",
    "FFF92230", "2710", "3", "1F4", "0", "3E8", "0", "0", "1", "B", "not", "defined",
    "0", "0", "0"] : List String).map String.toList

/-- The tokens of a telegram with two samples and an RSSI block (42 tokens). -/
def sample_rssi_tokens : List Token :=
  (["sRA", "LMDscandata", "1", "1", "B96518", "0", "0", "99", "9A", "13C8E59", "13C9CBE",
    "0", "0", "8", "0", "0", "5DC", "36", "0", "1", "DIST1", "3F800000", "00000000",
    "FFF92230", "2710", "2", "1F4", "3E8", "1", "RSSI1", "3F800000", "00000000",
    "FFF92230", "2710", "2", "A0", "FF", "0", "0", "0", "0", "0"] : List String).map String.toList

/-- The sample telegram with RSSI block, cut after 41 tokens: one token short. -/
def truncated_rssi_tokens : List Token := sample_rssi_tokens.take 41

/-- The sample telegram without RSSI block, with the RSSI flag "-1". -/
def negative_flag_tokens : List Token := sample_tokens.set 29 ['-', '1']

/-- The sample telegram with RSSI block, with RSSI sample count 3 for two
range samples, cut after 36 tokens. -/
def mismatch_tokens : List Token := (sample_rssi_tokens.set 34 ['3']).take 36

/-- The locals of a successful call. -/
def Outcome.trace : Outcome → Option Trace
  | .ExitSuccess _ t => some t
  | _ => none

/-- The scan message of a successful call. -/
def Outcome.scan : Outcome → Option LaserScan
  | .ExitSuccess m _ => some m
  | _ => none

/-- The sample configuration with a lower angle bound that cuts off the first sample. -/
def narrow_config : SickTimConfig :=
  { frame_id := "laser", min_ang := double_of (-233 / 100), max_ang := 3, intensity := true,
    time_offset := double_of (-1 / 1000) }

/-- The scan that the sample telegram without RSSI block decodes to at time 1000. -/
def sample_scan : LaserScan :=
  { header := { stamp := { sec := 999, nanosec := 998444444 }, frame_id := "laser" },
    angle_min := .fin (-2470649 / 1048576),
    angle_max := .fin (-9736187 / 4194304),
    angle_increment := .fin (9370165 / 536870912),
    time_increment := .fin (12725829 / 68719476736),
    scan_time := .fin (8947849 / 134217728),
    range_min := .fin (13421773 / 268435456),
    range_max := .fin 10,
    ranges := [.fin (1 / 2), .pinf, .fin 1],
    intensities := [] }

/-- The locals at the end of the call that gives `sample_scan`. -/
def sample_trace : Trace :=
  { number_of_data := 3, rssi := false, index_min := 0, index_max := 2,
    start_time_adjusted := .fin (4398039669698257 / 4398046511104),
    warnings := [.intensityWithoutRssi] }

/-- The scan that the sample telegram with RSSI block decodes to at time 1000
under `narrow_config`. -/
def narrow_rssi_scan : LaserScan :=
  { header := { stamp := { sec := 999, nanosec := 998814814 }, frame_id := "laser" },
    angle_min := .fin (-613087 / 262144),
    angle_max := .fin (-613087 / 262144),
    angle_increment := .fin (9370165 / 536870912),
    time_increment := .fin (12725829 / 68719476736),
    scan_time := .fin (8947849 / 134217728),
    range_min := .fin (13421773 / 268435456),
    range_max := .fin 10,
    ranges := [.fin 1],
    intensities := [.fin 255] }

/-- The locals at the end of the call that gives `narrow_rssi_scan`. -/
def narrow_rssi_trace : Trace :=
  { number_of_data := 2, rssi := true, index_min := 1, index_max := 1,
    start_time_adjusted := .fin (4398041298604433 / 4398046511104),
    warnings := [] }

/-- The tokens 0 to 22 of the sample telegram. -/
def sample_pre : List Token := sample_tokens.take 23

/-- The trailer of the sample telegram: the 8 tokens after the RSSI flag. -/
def sample_trailer : List Token := sample_tokens.drop 30

/-- The sample configuration with a lower angle bound above the angles of all
three samples of the sample telegram. -/
def excluding_config : SickTimConfig :=
  { frame_id := "laser", min_ang := -9 / 4, max_ang := 3, intensity := true,
    time_offset := double_of (-1 / 1000) }

/-- A telegram of 32 tokens that declares one sample: the sample telegram with
token 25 set to "1", cut after 32 tokens (sample, flag "0", four more tokens). -/
def one_sample_tokens_32 : List Token := (sample_tokens.set 25 ['1']).take 32

/-- A telegram of 33 tokens that declares one sample: the sample telegram with
token 25 set to "1", cut after 33 tokens (sample, flag "0", five more tokens). -/
def one_sample_tokens_33 : List Token := (sample_tokens.set 25 ['1']).take 33

/-- The sample telegram cut after 31 tokens. -/
def short_tokens_31 : List Token := sample_tokens.take 31

/-- A result without its warnings: what the caller gets, apart from the log. -/
def Outcome.erase_warnings : Outcome → Outcome
  | .ExitSuccess m t => .ExitSuccess m { t with warnings := [] }
  | o => o

/-- The sample telegram without RSSI block, with the angular step width "0". -/
def zero_step_tokens : List Token := sample_tokens.set 24 ['0']

/-- The sample telegram without RSSI block with the RSSI flag "1", cut after
35 tokens: `26 + 3 + 1 + 5` tokens, the least the first length check lets pass. -/
def flag_without_block_tokens : List Token := (sample_tokens.set 29 ['1']).take 35

/-- The geometry that the header of the sample telegram with RSSI block decodes to. -/
def sample_rssi_geometry : Geometry :=
  { scan_time := .fin (8947849 / 134217728), time_increment := .fin (12725829 / 68719476736),
    angle_min := .fin (-2470649 / 1048576),
    angle_increment := .fin (9370165 / 536870912),
    angle_max := .fin (-613087 / 262144) }

/-- The sample configuration with a lower angle bound just above the angles
of both samples of the sample telegram with RSSI block. -/
def empty_window_config : SickTimConfig :=
  { frame_id := "laser", min_ang := double_of (-231 / 100), max_ang := 3, intensity := true,
    time_offset := double_of (-1 / 1000) }

/-- The tokenizer as the specification words it (section 4.1), for comparison
with `tokenize`: split the text on the space character and discard the empty pieces. -/
def spec_split_on_space (s : List Char) : List Token :=
  (s.splitOn ' ').filter (fun t => !t.isEmpty)

/-- The result of the checks without its warnings. -/
def Lengths.erase_warnings : Lengths → Lengths
  | .ok n rssi _ => .ok n rssi []
  | o => o

/-- The sample telegram with RSSI block, with "XYZ" in the place of the marker "RSSI1". -/
def wrong_marker_tokens : List Token := sample_rssi_tokens.set 29 ['X', 'Y', 'Z']


/-- The sample telegram without RSSI block, with the first sample "1": one millimetre. -/
def small_range_tokens : List Token := sample_tokens.set 26 ['1']

/-- The tokens of a telegram with the header and trailer of the sample
telegram and the four samples 500, 0, 1000 and 1 (39 tokens). -/
def four_sample_tokens : List Token :=
  (["sRA", "LMDscandata", "1", "1", "B96518", "0", "0", "99", "9A", "13C8E59", "13C9CBE",
    "0", "0", "8", "0", "0", "5DC", "36", "0", "1", "DIST1", "3F800000", "00000000",
    "FFF92230", "2710", "4", "1F4", "0", "3E8", "1", "0", "0", "1", "B", "not", "defined",
    "0", "0", "0"] : List String).map String.toList

/-- The tokens of a telegram with the header and trailer of the sample
telegram and the five samples 500, 0, 1000, 1 and 2 (40 tokens). -/
def five_sample_tokens : List Token :=
  (["sRA", "LMDscandata", "1", "1", "B96518", "0", "0", "99", "9A", "13C8E59", "13C9CBE",
    "0", "0", "8", "0", "0", "5DC", "36", "0", "1", "DIST1", "3F800000", "00000000",
    "FFF92230", "2710", "5", "1F4", "0", "3E8", "1", "2", "0", "0", "1", "B", "not",
    "defined", "0", "0", "0"] : List String).map String.toList

/-- A parser after `set_time_increment(0.001)`: the member holds the `float`
nearest to the `double` 0.001. -/
def parser_with_time_increment : SickTim5512050001Parser :=
  { override_range_min_ := float_of (double_of (1 / 20)), override_range_max_ := 10,
    override_time_increment_ := float_of (double_of (1 / 1000)) }

/-- The tokens of a telegram with the header and trailer of the sample
telegram and 271 samples of 1000 (306 tokens): start angle -45 degrees, step
1 degree, so the last sample is at 225 degrees. -/
def wide_tokens : List Token :=
  sample_pre
    ++ [['F', 'F', 'F', '9', '2', '2', '3', '0'], ['2', '7', '1', '0'], ['1', '0', 'F']]
    ++ List.replicate 271 ['3', 'E', '8'] ++ [['0']] ++ sample_trailer

/-- The sample configuration with the lower angle bound 0. -/
def zero_min_config : SickTimConfig :=
  { frame_id := "laser", min_ang := 0, max_ang := 3, intensity := true,
    time_offset := double_of (-1 / 1000) }

/-- The sample configuration with the upper angle bound 0. -/
def zero_max_config : SickTimConfig :=
  { frame_id := "laser", min_ang := -3, max_ang := 0, intensity := true,
    time_offset := double_of (-1 / 1000) }

/-- The sample telegram without RSSI block with the start angle "6DDD0":
450000, which is 45 degrees. -/
def crossing_tokens : List Token := sample_tokens.set 23 ['6', 'D', 'D', 'D', '0']

/-- The sample configuration with the lower angle bound -0.742, between the
angles of the last sample of `crossing_tokens` and of the one after it. -/
def crossing_config : SickTimConfig :=
  { frame_id := "laser", min_ang := double_of (-742 / 1000), max_ang := 3, intensity := true,
    time_offset := double_of (-1 / 1000) }

/-- The sample telegram without RSSI block with the start angle "7FFFFFFF" and
the angular step width "1": the step is less than half the distance between
the start angle and the next `float`. -/
def stuck_tokens : List Token :=
  (sample_tokens.set 23 ['7', 'F', 'F', 'F', 'F', 'F', 'F', 'F']).set 24 ['1']

/-- The sample configuration with a lower angle bound of 4000. -/
def far_min_config : SickTimConfig :=
  { frame_id := "laser", min_ang := 4000, max_ang := 5000, intensity := true,
    time_offset := double_of (-1 / 1000) }


/-! ## Rounding: powers of two and exponents -/

theorem pow2_eq (e : Int) : pow2 e = (2 : ℚ) ^ e := by
  unfold pow2
  split
  · rename_i h
    obtain ⟨n, rfl⟩ := Int.eq_ofNat_of_zero_le h
    simp
  · rename_i h
    obtain ⟨n, hn⟩ := Int.eq_ofNat_of_zero_le (show 0 ≤ -e by omega)
    have he : e = -(n : Int) := by omega
    subst he
    simp

theorem pow2_pos (e : Int) : 0 < pow2 e := by
  rw [pow2_eq]
  exact zpow_pos (by norm_num) e

theorem pow2_add (a b : Int) : pow2 (a + b) = pow2 a * pow2 b := by
  simp only [pow2_eq]
  exact zpow_add₀ (by norm_num) a b

theorem pow2_le_pow2 (a b : Int) : pow2 a ≤ pow2 b ↔ a ≤ b := by
  simp only [pow2_eq]
  exact zpow_le_zpow_iff_right₀ (by norm_num)

theorem pow2_lt_pow2 (a b : Int) : pow2 a < pow2 b ↔ a < b := by
  simp only [pow2_eq]
  exact zpow_lt_zpow_iff_right₀ (by norm_num)

theorem pow2_natCast (n : Nat) : pow2 (n : Int) = ((2 ^ n : Int) : ℚ) := by
  rw [pow2_eq]
  simp

theorem log2_loop_spec : ∀ (fuel n : Nat), n ≤ fuel → 0 < n →
    2 ^ log2_loop fuel n ≤ n ∧ n < 2 ^ (log2_loop fuel n + 1) := by
  intro fuel
  induction fuel with
  | zero => intro n h1 h2; omega
  | succ f ih =>
    intro n h1 h2
    simp only [log2_loop]
    split
    · rename_i h
      obtain ⟨i1, i2⟩ := ih (n / 2) (by omega) (by omega)
      constructor
      · rw [pow_succ]; omega
      · rw [pow_succ]; omega
    · simp; omega

theorem nat_log2_spec (n : Nat) (h : 0 < n) :
    2 ^ nat_log2 n ≤ n ∧ n < 2 ^ (nat_log2 n + 1) :=
  log2_loop_spec n n le_rfl h

theorem abs_eq_natAbs_div_den (x : ℚ) : |x| = (x.num.natAbs : ℚ) / (x.den : ℚ) := by
  have h1 : |x| = |(x.num : ℚ)| / (x.den : ℚ) := by
    conv_lhs => rw [← Rat.num_div_den x]
    rw [abs_div, abs_of_pos (show (0 : ℚ) < x.den by exact_mod_cast x.den_pos)]
  rw [h1, Nat.cast_natAbs, Int.cast_abs]

/-- The binary exponent of a rational that is not 0. -/
theorem ilog2_spec (x : ℚ) (hx : x ≠ 0) :
    pow2 (ilog2 x) ≤ |x| ∧ |x| < pow2 (ilog2 x + 1) := by
  have hN : 0 < x.num.natAbs := Int.natAbs_pos.2 (Rat.num_ne_zero.2 hx)
  have hD : 0 < x.den := x.den_pos
  obtain ⟨a1, a2⟩ := nat_log2_spec _ hN
  obtain ⟨b1, b2⟩ := nat_log2_spec _ hD
  have hDq : (0 : ℚ) < x.den := by exact_mod_cast hD
  have habs := abs_eq_natAbs_div_den x
  have a1q : (2 : ℚ) ^ (nat_log2 x.num.natAbs) ≤ (x.num.natAbs : ℚ) := by exact_mod_cast a1
  have a2q : (x.num.natAbs : ℚ) < (2 : ℚ) ^ (nat_log2 x.num.natAbs + 1) := by exact_mod_cast a2
  have b1q : (2 : ℚ) ^ (nat_log2 x.den) ≤ (x.den : ℚ) := by exact_mod_cast b1
  have b2q : (x.den : ℚ) < (2 : ℚ) ^ (nat_log2 x.den + 1) := by exact_mod_cast b2
  -- bounds of the quotient
  have hup : |x| < pow2 ((nat_log2 x.num.natAbs : Int) - (nat_log2 x.den : Int) + 1) := by
    rw [habs, pow2_eq, div_lt_iff₀ hDq]
    have e : (2 : ℚ) ^ ((nat_log2 x.num.natAbs : Int) - (nat_log2 x.den : Int) + 1)
        * (2 : ℚ) ^ (nat_log2 x.den) = (2 : ℚ) ^ (nat_log2 x.num.natAbs + 1) := by
      rw [← zpow_natCast, ← zpow_natCast, ← zpow_add₀ (by norm_num)]
      congr 1
      push_cast
      ring
    have hp : (0 : ℚ) < (2 : ℚ) ^ ((nat_log2 x.num.natAbs : Int) - (nat_log2 x.den : Int) + 1) :=
      zpow_pos (by norm_num) _
    calc (x.num.natAbs : ℚ) < (2 : ℚ) ^ (nat_log2 x.num.natAbs + 1) := a2q
      _ = (2 : ℚ) ^ ((nat_log2 x.num.natAbs : Int) - (nat_log2 x.den : Int) + 1)
            * (2 : ℚ) ^ (nat_log2 x.den) := e.symm
      _ ≤ (2 : ℚ) ^ ((nat_log2 x.num.natAbs : Int) - (nat_log2 x.den : Int) + 1) * x.den :=
          mul_le_mul_of_nonneg_left b1q hp.le
  have hlo : pow2 ((nat_log2 x.num.natAbs : Int) - (nat_log2 x.den : Int) - 1) ≤ |x| := by
    rw [habs, pow2_eq, le_div_iff₀ hDq]
    have e : (2 : ℚ) ^ ((nat_log2 x.num.natAbs : Int) - (nat_log2 x.den : Int) - 1)
        * (2 : ℚ) ^ (nat_log2 x.den + 1) = (2 : ℚ) ^ (nat_log2 x.num.natAbs) := by
      rw [← zpow_natCast, ← zpow_natCast, ← zpow_add₀ (by norm_num)]
      congr 1
      push_cast
      ring
    have hp : (0 : ℚ) < (2 : ℚ) ^ ((nat_log2 x.num.natAbs : Int) - (nat_log2 x.den : Int) - 1) :=
      zpow_pos (by norm_num) _
    calc (2 : ℚ) ^ ((nat_log2 x.num.natAbs : Int) - (nat_log2 x.den : Int) - 1) * x.den
        ≤ (2 : ℚ) ^ ((nat_log2 x.num.natAbs : Int) - (nat_log2 x.den : Int) - 1)
            * (2 : ℚ) ^ (nat_log2 x.den + 1) := mul_le_mul_of_nonneg_left b2q.le hp.le
      _ = (2 : ℚ) ^ (nat_log2 x.num.natAbs) := e
      _ ≤ x.num.natAbs := a1q
  unfold ilog2
  simp only
  split
  · rename_i h
    exact ⟨h, hup⟩
  · rename_i h
    refine ⟨hlo, ?_⟩
    rw [show (nat_log2 x.num.natAbs : Int) - (nat_log2 x.den : Int) - 1 + 1
      = (nat_log2 x.num.natAbs : Int) - (nat_log2 x.den : Int) by ring]
    exact not_le.1 h

theorem ilog2_neg (x : ℚ) : ilog2 (-x) = ilog2 x := by
  unfold ilog2
  simp

/-- The binary exponent is determined by the two bounds. -/
theorem ilog2_unique (x : ℚ) (e : Int) (h1 : pow2 e ≤ |x|) (h2 : |x| < pow2 (e + 1)) :
    ilog2 x = e := by
  have hx : x ≠ 0 := by
    intro h0
    rw [h0, abs_zero] at h1
    exact absurd h1 (not_le.2 (pow2_pos e))
  obtain ⟨s1, s2⟩ := ilog2_spec x hx
  have a : ilog2 x < e + 1 := (pow2_lt_pow2 _ _).1 (lt_of_le_of_lt s1 h2)
  have b : e < ilog2 x + 1 := (pow2_lt_pow2 _ _).1 (lt_of_le_of_lt h1 s2)
  omega

theorem ilog2_mono (x y : ℚ) (hx : x ≠ 0) (h : |x| ≤ |y|) : ilog2 x ≤ ilog2 y := by
  have hy : y ≠ 0 := by
    intro h0
    rw [h0, abs_zero] at h
    exact hx (abs_eq_zero.1 (le_antisymm h (abs_nonneg x)))
  obtain ⟨s1, -⟩ := ilog2_spec x hx
  obtain ⟨-, t2⟩ := ilog2_spec y hy
  have : ilog2 x < ilog2 y + 1 := (pow2_lt_pow2 _ _).1 (lt_of_le_of_lt (le_trans s1 h) t2)
  omega

/-! ## Rounding: the nearest integer -/

theorem round_half_even_le (t : ℚ) : (round_half_even t : ℚ) ≤ t + 1 / 2 := by
  have h1 := Int.floor_le t
  have h2 := Int.lt_floor_add_one t
  unfold round_half_even
  split
  · linarith
  · split
    · push_cast; linarith
    · rename_i ha hb
      have : t - ⌊t⌋ = 1 / 2 := le_antisymm (not_lt.1 hb) (not_lt.1 ha)
      split
      · linarith
      · push_cast; linarith

theorem round_half_even_ge (t : ℚ) : t - 1 / 2 ≤ (round_half_even t : ℚ) := by
  have h1 := Int.floor_le t
  have h2 := Int.lt_floor_add_one t
  unfold round_half_even
  split
  · rename_i ha; linarith
  · split
    · push_cast; linarith
    · rename_i ha hb
      have : t - ⌊t⌋ = 1 / 2 := le_antisymm (not_lt.1 hb) (not_lt.1 ha)
      split
      · linarith
      · push_cast; linarith

theorem round_half_even_intCast (z : Int) : round_half_even (z : ℚ) = z := by
  unfold round_half_even
  simp

theorem round_half_even_floor_le (t : ℚ) : ⌊t⌋ ≤ round_half_even t := by
  unfold round_half_even
  split
  · exact le_rfl
  · split
    · omega
    · split <;> omega

theorem round_half_even_le_floor_add_one (t : ℚ) : round_half_even t ≤ ⌊t⌋ + 1 := by
  unfold round_half_even
  split
  · omega
  · split
    · exact le_rfl
    · split <;> omega

theorem round_half_even_mono (s t : ℚ) (h : s ≤ t) : round_half_even s ≤ round_half_even t := by
  have hf : ⌊s⌋ ≤ ⌊t⌋ := Int.floor_le_floor h
  rcases lt_or_eq_of_le hf with hlt | heq
  · have := round_half_even_le_floor_add_one s
    have := round_half_even_floor_le t
    omega
  · have hfr : s - ⌊s⌋ ≤ t - ⌊t⌋ := by rw [heq]; linarith
    unfold round_half_even
    rw [heq] at hfr ⊢
    by_cases a1 : s - ⌊t⌋ < 1 / 2
    · rw [if_pos a1]
      split
      · exact le_rfl
      · split
        · omega
        · split <;> omega
    · rw [if_neg a1]
      have a2 : ¬ (t - ⌊t⌋ < 1 / 2) := by linarith
      rw [if_neg a2]
      by_cases b1 : 1 / 2 < s - ⌊t⌋
      · rw [if_pos b1, if_pos (by linarith)]
      · rw [if_neg b1]
        by_cases b2 : 1 / 2 < t - ⌊t⌋
        · rw [if_pos b2]
          split <;> omega
        · rw [if_neg b2]

theorem round_half_even_le_of_le (t : ℚ) (z : Int) (h : t ≤ z) : round_half_even t ≤ z := by
  have := round_half_even_mono t z h
  rwa [round_half_even_intCast] at this

theorem round_half_even_ge_of_ge (t : ℚ) (z : Int) (h : (z : ℚ) ≤ t) : z ≤ round_half_even t := by
  have := round_half_even_mono z t h
  rwa [round_half_even_intCast] at this

theorem round_half_even_neg (t : ℚ) : round_half_even (-t) = -round_half_even t := by
  by_cases hz : (⌊t⌋ : ℚ) = t
  · rw [← hz, ← Int.cast_neg, round_half_even_intCast, round_half_even_intCast]
  · have h1 := Int.floor_le t
    have h2 := Int.lt_floor_add_one t
    have hlt : (⌊t⌋ : ℚ) < t := lt_of_le_of_ne h1 hz
    have hfl : ⌊-t⌋ = -⌊t⌋ - 1 := by
      rw [Int.floor_eq_iff]
      push_cast
      constructor <;> linarith
    unfold round_half_even
    rw [hfl]
    push_cast
    by_cases a : t - ⌊t⌋ < 1 / 2
    · rw [if_pos a, if_neg (by linarith), if_pos (by linarith)]
      ring
    · rw [if_neg a]
      by_cases b : 1 / 2 < t - ⌊t⌋
      · rw [if_pos b, if_pos (by linarith)]
        ring
      · rw [if_neg b, if_neg (by linarith), if_neg (by linarith)]
        by_cases c : ⌊t⌋ % 2 = 0
        · rw [if_pos c, if_neg (by omega)]
          ring
        · rw [if_neg c, if_pos (by omega)]
          ring


/-! ## Rounding: monotone, exact on the values of the format, and close -/

theorem ulp_pos (p : Nat) (emin : Int) (x : ℚ) : 0 < ulp p emin x := pow2_pos _

theorem ulp_neg (p : Nat) (emin : Int) (x : ℚ) : ulp p emin (-x) = ulp p emin x := by
  unfold ulp
  rw [ilog2_neg]

theorem round_raw_neg (p : Nat) (emin : Int) (x : ℚ) :
    round_raw p emin (-x) = -round_raw p emin x := by
  unfold round_raw
  rw [ulp_neg, neg_div, round_half_even_neg]
  push_cast
  ring

theorem round_raw_zero (p : Nat) (emin : Int) : round_raw p emin 0 = 0 := by
  unfold round_raw
  rw [zero_div]
  have := round_half_even_intCast 0
  simp only [Int.cast_zero] at this
  rw [this]
  simp

theorem round_raw_nonneg (p : Nat) (emin : Int) (x : ℚ) (h : 0 ≤ x) :
    0 ≤ round_raw p emin x := by
  unfold round_raw
  have hu := ulp_pos p emin x
  have : (0 : Int) ≤ round_half_even (x / ulp p emin x) :=
    round_half_even_ge_of_ge _ 0 (by simpa using div_nonneg h hu.le)
  have : (0 : ℚ) ≤ (round_half_even (x / ulp p emin x) : ℚ) := by exact_mod_cast this
  exact mul_nonneg this hu.le

/-- The mantissa of a rounded value has at most `p` bits, or is `2 ^ p`. -/
theorem round_half_even_div_ulp_le (p : Nat) (emin : Int) (x : ℚ) (h : 0 ≤ x) :
    round_half_even (x / ulp p emin x) ≤ 2 ^ p := by
  have hu := ulp_pos p emin x
  apply round_half_even_le_of_le
  rw [div_le_iff₀ hu]
  by_cases hx : x = 0
  · rw [hx]
    have : (0 : ℚ) ≤ ((2 ^ p : Int) : ℚ) := by positivity
    exact mul_nonneg this (ulp_pos p emin 0).le
  · obtain ⟨-, s2⟩ := ilog2_spec x hx
    rw [abs_of_nonneg h] at s2
    have e : (((2 : Int) ^ p : Int) : ℚ) * ulp p emin x
        = pow2 (max (ilog2 x) emin + 1) := by
      unfold ulp
      rw [← pow2_natCast, ← pow2_add]
      congr 1
      ring
    rw [e]
    exact le_trans s2.le ((pow2_le_pow2 _ _).2 (by omega))

theorem round_raw_le_pow2 (p : Nat) (emin : Int) (x : ℚ) (h : 0 ≤ x) :
    round_raw p emin x ≤ pow2 (max (ilog2 x) emin + 1) := by
  have hu := ulp_pos p emin x
  have hm := round_half_even_div_ulp_le p emin x h
  have hmq : (round_half_even (x / ulp p emin x) : ℚ) ≤ (((2 : Int) ^ p : Int) : ℚ) := by
    exact_mod_cast hm
  have e : (((2 : Int) ^ p : Int) : ℚ) * ulp p emin x
      = pow2 (max (ilog2 x) emin + 1) := by
    unfold ulp
    rw [← pow2_natCast, ← pow2_add]
    congr 1
    ring
  unfold round_raw
  rw [← e]
  exact mul_le_mul_of_nonneg_right hmq hu.le

theorem pow2_le_round_raw (p : Nat) (emin : Int) (x : ℚ) (hp : 1 ≤ p) (h : 0 < x)
    (he : emin ≤ ilog2 x) : pow2 (ilog2 x) ≤ round_raw p emin x := by
  have hu := ulp_pos p emin x
  obtain ⟨s1, -⟩ := ilog2_spec x (ne_of_gt h)
  rw [abs_of_pos h] at s1
  have hmax : max (ilog2 x) emin = ilog2 x := max_eq_left he
  have e : (((2 : Int) ^ (p - 1) : Int) : ℚ) * ulp p emin x = pow2 (ilog2 x) := by
    unfold ulp
    rw [← pow2_natCast, ← pow2_add, hmax]
    congr 1
    have : ((p - 1 : Nat) : Int) = (p : Int) - 1 := by omega
    rw [this]
    ring
  have hm : (2 : Int) ^ (p - 1) ≤ round_half_even (x / ulp p emin x) := by
    apply round_half_even_ge_of_ge
    rw [le_div_iff₀ hu, e]
    exact s1
  have hmq : (((2 : Int) ^ (p - 1) : Int) : ℚ) ≤ (round_half_even (x / ulp p emin x) : ℚ) := by
    exact_mod_cast hm
  unfold round_raw
  rw [← e]
  exact mul_le_mul_of_nonneg_right hmq hu.le

theorem round_raw_mono_pos (p : Nat) (emin : Int) (x y : ℚ) (hp : 1 ≤ p) (hx : 0 < x)
    (h : x ≤ y) : round_raw p emin x ≤ round_raw p emin y := by
  have hy : 0 < y := lt_of_lt_of_le hx h
  have hlog : ilog2 x ≤ ilog2 y :=
    ilog2_mono x y (ne_of_gt hx) (by rw [abs_of_pos hx, abs_of_pos hy]; exact h)
  rcases lt_or_eq_of_le (max_le_max hlog (le_refl emin)) with hlt | heq
  · have hey : emin ≤ ilog2 y := by
      by_contra hc
      have : max (ilog2 y) emin = emin := max_eq_right (by omega)
      rw [this] at hlt
      exact absurd (le_max_right (ilog2 x) emin) (not_le.2 hlt)
    have hmy : max (ilog2 y) emin = ilog2 y := max_eq_left hey
    rw [hmy] at hlt
    calc round_raw p emin x ≤ pow2 (max (ilog2 x) emin + 1) := round_raw_le_pow2 p emin x hx.le
      _ ≤ pow2 (ilog2 y) := (pow2_le_pow2 _ _).2 (by omega)
      _ ≤ round_raw p emin y := pow2_le_round_raw p emin y hp hy hey
  · have hu : ulp p emin x = ulp p emin y := by
      unfold ulp
      rw [heq]
    unfold round_raw
    rw [hu]
    have hm : round_half_even (x / ulp p emin y) ≤ round_half_even (y / ulp p emin y) :=
      round_half_even_mono _ _ (div_le_div_of_nonneg_right h (ulp_pos p emin y).le)
    have hmq : (round_half_even (x / ulp p emin y) : ℚ)
        ≤ (round_half_even (y / ulp p emin y) : ℚ) := by exact_mod_cast hm
    exact mul_le_mul_of_nonneg_right hmq (ulp_pos p emin y).le

/-- Rounding is monotone. -/
theorem round_raw_mono (p : Nat) (emin : Int) (x y : ℚ) (hp : 1 ≤ p) (h : x ≤ y) :
    round_raw p emin x ≤ round_raw p emin y := by
  rcases lt_trichotomy x 0 with hx | hx | hx
  · rcases lt_or_le y 0 with hy | hy
    · have := round_raw_mono_pos p emin (-y) (-x) hp (by linarith) (by linarith)
      rw [round_raw_neg, round_raw_neg] at this
      linarith
    · have h1 := round_raw_nonneg p emin (-x) (by linarith)
      rw [round_raw_neg] at h1
      have h2 := round_raw_nonneg p emin y hy
      linarith
  · rw [hx, round_raw_zero]
    exact round_raw_nonneg p emin y (by linarith)
  · exact round_raw_mono_pos p emin x y hp hx h

/-- A product of an integer of fewer than `p + 1` bits and a power of two
that the format allows is a value of the format: rounding leaves it as it is. -/
theorem round_raw_int_mul_pow2 (p : Nat) (emin : Int) (m e : Int)
    (hm : |m| < 2 ^ p) (he : emin - ((p : Int) - 1) ≤ e) :
    round_raw p emin ((m : ℚ) * pow2 e) = (m : ℚ) * pow2 e := by
  by_cases h0 : m = 0
  · rw [h0]
    simp [round_raw_zero]
  · have hr : (m : ℚ) * pow2 e ≠ 0 :=
      mul_ne_zero (by exact_mod_cast h0) (ne_of_gt (pow2_pos e))
    obtain ⟨s1, -⟩ := ilog2_spec _ hr
    have habs : |(m : ℚ) * pow2 e| = (|m| : Int) * pow2 e := by
      rw [abs_mul, abs_of_pos (pow2_pos e), Int.cast_abs]
    have hlt : |(m : ℚ) * pow2 e| < pow2 ((p : Int) + e) := by
      rw [habs, pow2_add, pow2_natCast]
      have : ((|m| : Int) : ℚ) < (((2 : Int) ^ p : Int) : ℚ) := by exact_mod_cast hm
      exact mul_lt_mul_of_pos_right this (pow2_pos e)
    have hl : ilog2 ((m : ℚ) * pow2 e) < (p : Int) + e :=
      (pow2_lt_pow2 _ _).1 (lt_of_le_of_lt s1 hlt)
    have hk : max (ilog2 ((m : ℚ) * pow2 e)) emin - ((p : Int) - 1) ≤ e := by
      rcases max_cases (ilog2 ((m : ℚ) * pow2 e)) emin with ⟨h1, -⟩ | ⟨h1, -⟩ <;> omega
    obtain ⟨n, hn⟩ := Int.eq_ofNat_of_zero_le (show 0 ≤ e
      - (max (ilog2 ((m : ℚ) * pow2 e)) emin - ((p : Int) - 1)) by omega)
    have hsplit : pow2 e = pow2 (n : Int) * ulp p emin ((m : ℚ) * pow2 e) := by
      unfold ulp
      rw [← pow2_add, ← hn]
      congr 1
      ring
    have hq : (m : ℚ) * pow2 e / ulp p emin ((m : ℚ) * pow2 e) = ((m * 2 ^ n : Int) : ℚ) := by
      rw [div_eq_iff (ne_of_gt (ulp_pos _ _ _))]
      conv_lhs => rw [hsplit]
      rw [pow2_natCast]
      push_cast
      ring
    unfold round_raw
    rw [hq, round_half_even_intCast]
    conv_rhs => rw [hsplit]
    rw [pow2_natCast]
    push_cast
    ring

/-- A rounded value is a value of the format: rounding it again changes nothing. -/
theorem round_raw_idem (p : Nat) (emin : Int) (x : ℚ) (hp : 1 ≤ p) :
    round_raw p emin (round_raw p emin x) = round_raw p emin x := by
  have key : ∀ y : ℚ, 0 ≤ y → round_raw p emin (round_raw p emin y) = round_raw p emin y := by
    intro y hy
    have hle := round_half_even_div_ulp_le p emin y hy
    have hge : (0 : Int) ≤ round_half_even (y / ulp p emin y) :=
      round_half_even_ge_of_ge _ 0 (by simpa using div_nonneg hy (ulp_pos p emin y).le)
    rcases lt_or_eq_of_le hle with hlt | heq
    · have := round_raw_int_mul_pow2 p emin (round_half_even (y / ulp p emin y))
        (max (ilog2 y) emin - ((p : Int) - 1)) (by rw [abs_of_nonneg hge]; exact hlt)
        (by have := le_max_right (ilog2 y) emin; omega)
      unfold round_raw at this ⊢
      unfold ulp at this ⊢
      exact this
    · have e1 : round_raw p emin y
          = (((2 : Int) ^ (p - 1) : Int) : ℚ) * pow2 (max (ilog2 y) emin - ((p : Int) - 1) + 1) := by
        unfold round_raw
        rw [heq]
        unfold ulp
        rw [pow2_add]
        have : ((2 : Int) ^ p) = 2 ^ (p - 1) * 2 := by
          rw [← pow_succ]
          congr 1
          omega
        rw [this]
        push_cast
        have h21 : pow2 1 = 2 := by rw [pow2_eq]; norm_num
        rw [h21]
        ring
      rw [e1]
      apply round_raw_int_mul_pow2
      · rw [abs_of_nonneg (by positivity)]
        exact pow_lt_pow_right₀ (by norm_num) (by omega)
      · have := le_max_right (ilog2 y) emin
        omega
  rcases le_or_lt 0 x with hx | hx
  · exact key x hx
  · have := key (-x) (by linarith)
    rw [round_raw_neg, round_raw_neg] at this
    linarith [this]

/-- The rounding error is at most half a unit in the last place. -/
theorem round_raw_err (p : Nat) (emin : Int) (x : ℚ) :
    |round_raw p emin x - x| ≤ ulp p emin x / 2 := by
  have hu := ulp_pos p emin x
  have h1 := round_half_even_le (x / ulp p emin x)
  have h2 := round_half_even_ge (x / ulp p emin x)
  have e : x = x / ulp p emin x * ulp p emin x := by field_simp
  unfold round_raw
  rw [abs_le]
  constructor
  · have := mul_le_mul_of_nonneg_right h2 hu.le
    nlinarith
  · have := mul_le_mul_of_nonneg_right h1 hu.le
    nlinarith

/-- A unit in the last place is at most `2 ^ (1 - p)` times the value, or the
least unit of the format. -/
theorem ulp_le (p : Nat) (emin : Int) (x : ℚ) (hx : x ≠ 0) :
    ulp p emin x ≤ |x| * pow2 (1 - (p : Int)) + pow2 (emin - ((p : Int) - 1)) := by
  have hp1 := pow2_pos (1 - (p : Int))
  have hp2 := pow2_pos (emin - ((p : Int) - 1))
  unfold ulp
  rcases max_cases (ilog2 x) emin with ⟨h1, h2⟩ | ⟨h1, h2⟩
  · rw [h1]
    obtain ⟨s1, -⟩ := ilog2_spec x hx
    have e : pow2 (ilog2 x - ((p : Int) - 1)) = pow2 (ilog2 x) * pow2 (1 - (p : Int)) := by
      rw [← pow2_add]
      congr 1
      ring
    rw [e]
    have := mul_le_mul_of_nonneg_right s1 hp1.le
    linarith
  · rw [h1]
    have := mul_nonneg (abs_nonneg x) hp1.le
    linarith

/-- The rounding error, relative to the value, with the absolute term of the
subnormal range. -/
theorem round_raw_err_rel (p : Nat) (emin : Int) (x : ℚ) :
    |round_raw p emin x - x| ≤ |x| * pow2 (-(p : Int)) + pow2 (emin - (p : Int)) := by
  by_cases hx : x = 0
  · rw [hx, round_raw_zero]
    simp only [sub_zero, abs_zero, zero_mul, zero_add]
    exact (pow2_pos _).le
  · have h1 := round_raw_err p emin x
    have h2 := ulp_le p emin x hx
    have e1 : pow2 (1 - (p : Int)) = 2 * pow2 (-(p : Int)) := by
      rw [show (1 : Int) - (p : Int) = 1 + -(p : Int) by ring, pow2_add]
      congr 1
    have e2 : pow2 (emin - ((p : Int) - 1)) = 2 * pow2 (emin - (p : Int)) := by
      rw [show emin - ((p : Int) - 1) = 1 + (emin - (p : Int)) by ring, pow2_add]
      congr 1
    rw [e1, e2] at h2
    linarith

/-- The value of `round_to` when the rounded value is in range. -/
theorem round_to_eq_fin (p : Nat) (emin emax : Int) (x : ℚ)
    (h : |round_raw p emin x| < pow2 (emax + 1)) :
    round_to p emin emax x = .fin (round_raw p emin x) := by
  unfold round_to
  rw [if_neg (not_le.2 h)]

/-- Rounding does not exceed a power of two that bounds the value. -/
theorem round_raw_abs_le_pow2 (p : Nat) (emin : Int) (x : ℚ) (k : Int) (hp : 1 ≤ p)
    (hk : emin - ((p : Int) - 1) ≤ k) (h : |x| ≤ pow2 k) : |round_raw p emin x| ≤ pow2 k := by
  have hrep : round_raw p emin (pow2 k) = pow2 k := by
    have := round_raw_int_mul_pow2 p emin 1 k (by
      rw [abs_one]
      exact one_lt_pow₀ (by norm_num) (by omega)) hk
    simpa using this
  have hrepn : round_raw p emin (-pow2 k) = -pow2 k := by rw [round_raw_neg, hrep]
  obtain ⟨h1, h2⟩ := abs_le.1 h
  rw [abs_le]
  constructor
  · have := round_raw_mono p emin _ _ hp h1
    rwa [hrepn] at this
  · have := round_raw_mono p emin _ _ hp h2
    rwa [hrep] at this

/-! ## The tokenizer -/

theorem tokenizeLoop_eq (s : List Char) :
    tokenizeLoop s = match strtok_r s with
      | none => []
      | some (tok, rest) => tok :: tokenizeLoop rest := by
  rw [tokenizeLoop]
  split <;> simp [*]

theorem strtok_r_append (t r : List Char) (ht : t ≠ []) (hs : ∀ c ∈ t, c ≠ ' ')
    (hr : r = [] ∨ ∃ u, r = ' ' :: u) :
    strtok_r (t ++ r) = some (t, r.drop 1) := by
  cases t with
  | nil => exact absurd rfl ht
  | cons c cs =>
    have hc : c ≠ ' ' := hs c (by simp)
    have hcs : ∀ d ∈ cs, d ≠ ' ' := fun d hd => hs d (by simp [hd])
    have htw : List.takeWhile (fun d => d != ' ') (cs ++ r) = cs := by
      rcases hr with rfl | ⟨u, rfl⟩
      · simp [List.takeWhile_eq_self_iff]; simpa using hcs
      · rw [List.takeWhile_append_of_pos]; simp
        intro d hd; simpa using hcs d hd
    have hdw : List.dropWhile (fun d => d != ' ') (cs ++ r) = r := by
      rcases hr with rfl | ⟨u, rfl⟩
      · simp [List.dropWhile_eq_nil_iff]; simpa using hcs
      · rw [List.dropWhile_append_of_pos]; simp
        intro d hd; simpa using hcs d hd
    simp [strtok_r, List.dropWhile_cons, hc, htw, hdw]

theorem is_token_iff (t : Token) :
    is_token t = true ↔ t ≠ [] ∧ ∀ c ∈ t, c ≠ ' ' ∧ c ≠ Char.ofNat 0 := by
  cases t <;> simp [is_token]

theorem tokenizeLoop_telegram_of (toks : List Token) (h : ∀ t ∈ toks, is_token t = true) :
    tokenizeLoop (telegram_of toks) = toks := by
  induction toks with
  | nil => rw [tokenizeLoop_eq]; simp [telegram_of, strtok_r]
  | cons t ts ih =>
    have ht := (is_token_iff t).1 (h t (by simp))
    have hts : ∀ u ∈ ts, is_token u = true := fun u hu => h u (by simp [hu])
    cases ts with
    | nil =>
      rw [tokenizeLoop_eq]
      have := strtok_r_append t [] ht.1 (fun c hc => (ht.2 c hc).1) (Or.inl rfl)
      simp only [List.append_nil] at this
      simp only [telegram_of, this, List.drop_nil]
      rw [tokenizeLoop_eq]; simp [strtok_r]
    | cons u us =>
      rw [tokenizeLoop_eq]
      simp only [telegram_of]
      rw [strtok_r_append t _ ht.1 (fun c hc => (ht.2 c hc).1) (Or.inr ⟨_, rfl⟩)]
      simp only [List.drop_succ_cons, List.drop_zero]
      rw [ih hts]

theorem telegram_of_no_nul (toks : List Token) (h : ∀ t ∈ toks, is_token t = true) :
    ∀ c ∈ telegram_of toks, c ≠ Char.ofNat 0 := by
  induction toks with
  | nil => simp [telegram_of]
  | cons t ts ih =>
    have ht := (is_token_iff t).1 (h t (by simp))
    have hts : ∀ u ∈ ts, is_token u = true := fun u hu => h u (by simp [hu])
    cases ts with
    | nil => intro c hc; exact (ht.2 c (by simpa [telegram_of] using hc)).2
    | cons u us =>
      intro c hc
      simp only [telegram_of, List.mem_append, List.mem_cons] at hc
      rcases hc with hc | rfl | hc
      · exact (ht.2 c hc).2
      · decide
      · exact ih hts c hc

/-- Tokenizing the single-space join of well-formed tokens gives the tokens back. -/
theorem tokenize_telegram_of (toks : List Token) (h : ∀ t ∈ toks, is_token t = true) :
    tokenize (telegram_of toks) = toks := by
  unfold tokenize
  have : List.takeWhile (fun c => c != Char.ofNat 0) (telegram_of toks) = telegram_of toks := by
    rw [List.takeWhile_eq_self_iff]
    intro c hc
    simpa using telegram_of_no_nul toks h c hc
  rw [this, tokenizeLoop_telegram_of toks h]

/-! ## Shape of the results -/

theorem parse_fields_eq_ExitError (self : SickTim5512050001Parser) (fuel : Nat)
    (fields : List Token) (config : SickTimConfig) (now : ℚ) (stack : Nat → Nat) (msg : LaserScan)
    (r : Reject) (m : LaserScan) :
    parse_fields self fuel fields config now stack msg = .ExitError r m ↔
      check_telegram fields stack = .reject r ∧ m = msg := by
  unfold parse_fields
  split
  · rename_i r0 h
    rw [h]
    constructor
    · intro e; cases e; exact ⟨rfl, rfl⟩
    · rintro ⟨e, rfl⟩; cases e; rfl
  · rename_i f h; rw [h]; simp
  · rename_i n rssi w h
    rw [h]
    split <;> simp

theorem read_scan_ok (self : SickTim5512050001Parser) (fuel : Nat) (fields : List Token)
    (config : SickTimConfig) (now : ℚ) (stack : Nat → Nat) (msg : LaserScan)
    (number_of_data : Nat) (rssi : Bool) (warnings : List Warning) (m : LaserScan) (t : Trace)
    (h : read_scan self fuel fields config now stack msg number_of_data rssi warnings
      = .ok (m, t)) :
    ∃ g lo hi ranges iw,
      decode_geometry self fields number_of_data = .ok g ∧
      trim_min g.angle_increment config.min_ang fuel g.angle_min 0 = some lo ∧
      trim_max g.angle_increment config.max_ang fuel g.angle_max ((number_of_data : Int) - 1)
        = some hi ∧
      0 ≤ hi.2 - lo.2 + 1 ∧
      read_ranges fields stack (hi.2 - lo.2 + 1).toNat lo.2 = .ok ranges ∧
      write_intensities fields stack config.intensity rssi number_of_data
                (hi.2 - lo.2 + 1).toNat lo.2 msg.intensities = .ok iw ∧
      m = { header :=
              { stamp := (write_stamp
                  (start_time now number_of_data lo.2 g.time_increment config.time_offset)
                  msg.header.stamp).1,
                frame_id := config.frame_id },
            angle_min := lo.1,
            angle_max := hi.1,
            angle_increment := g.angle_increment,
            time_increment := g.time_increment,
            scan_time := g.scan_time,
            range_min := .fin self.override_range_min_,
            range_max := .fin self.override_range_max_,
            ranges := ranges,
            intensities := iw.1 } ∧
      t = { number_of_data := number_of_data,
            rssi := rssi,
            index_min := lo.2,
            index_max := hi.2,
            start_time_adjusted :=
              start_time now number_of_data lo.2 g.time_increment config.time_offset,
            warnings := warnings ++ iw.2
              ++ (write_stamp
                  (start_time now number_of_data lo.2 g.time_increment config.time_offset)
                  msg.header.stamp).2
              ++ check_timing g.scan_time g.angle_increment g.time_increment } := by
  unfold read_scan at h
  split at h; · simp at h
  rename_i _ g hg
  split at h; · simp at h
  rename_i _ lo hlo
  split at h; · simp at h
  rename_i _ hi hhi
  split at h; · simp at h
  rename_i hsz
  split at h; · simp at h
  rename_i _ ranges hr
  split at h; · simp at h
  rename_i _ iw hiw
  simp only [Except.ok.injEq, Prod.mk.injEq] at h
  exact ⟨_, _, _, _, _, hg, hlo, hhi, by omega, hr, hiw, h.1.symm, h.2.symm⟩

/-! ## Header validation -/

theorem check_rssi_reject (fields : List Token) (stack : Nat → Nat) (n : Nat) (r : Reject)
    (h : check_rssi fields stack n = .reject r) :
    r = .RssiSampleCountMismatch ∨ r = .TruncatedTelegram := by
  simp only [check_rssi] at h
  repeat' split at h
  all_goals first
    | (injection h with h; subst h; simp)
    | cases h

theorem check_lengths_reject (fields : List Token) (stack : Nat → Nat) (r : Reject)
    (h : check_lengths fields stack = .reject r) :
    r = .SampleCountOutOfRange ∨ r = .TruncatedTelegram ∨ r = .RssiSampleCountMismatch := by
  simp only [check_lengths] at h
  split at h
  · cases h
  · split at h
    · injection h with h; subst h; simp
    · split at h
      · injection h with h; subst h; simp
      · rcases check_rssi_reject _ _ _ _ h with h | h <;> simp [h]

theorem check_telegram_short (fields : List Token) (stack : Nat → Nat) (h : fields.length < 32) :
    check_telegram fields stack = .reject .MalformedTelegram := by
  unfold check_telegram
  simp only [HEADER_FIELDS, MIN_FOOTER_FIELDS]
  rw [if_pos (by omega)]

theorem check_telegram_reserved (fields : List Token) (stack : Nat → Nat) (h : 32 ≤ fields.length)
    (h15 : fields[15]? ≠ some ['0']) :
    check_telegram fields stack = .reject .UnexpectedReservedByte := by
  unfold check_telegram
  simp only [HEADER_FIELDS, MIN_FOOTER_FIELDS]
  rw [if_neg (by omega)]
  have : fields[15]? = some (fields[15]) := List.getElem?_eq_getElem (by omega)
  rw [this] at h15 ⊢
  simp only []
  rw [if_pos (by simpa using h15)]

theorem check_telegram_marker (fields : List Token) (stack : Nat → Nat) (h : 32 ≤ fields.length)
    (h15 : fields[15]? = some ['0']) (h20 : fields[20]? ≠ some ['D', 'I', 'S', 'T', '1']) :
    check_telegram fields stack = .reject .UnexpectedDataContentMarker := by
  unfold check_telegram
  simp only [HEADER_FIELDS, MIN_FOOTER_FIELDS]
  rw [if_neg (by omega)]
  have : fields[20]? = some (fields[20]) := List.getElem?_eq_getElem (by omega)
  rw [this] at h20
  simp only [h15, this]
  rw [if_neg (by simp), if_pos (by simpa using h20)]

theorem check_telegram_header (fields : List Token) (stack : Nat → Nat) (h : 32 ≤ fields.length)
    (h15 : fields[15]? = some ['0']) (h20 : fields[20]? = some ['D', 'I', 'S', 'T', '1']) :
    check_telegram fields stack = check_lengths fields stack := by
  unfold check_telegram
  simp only [HEADER_FIELDS, MIN_FOOTER_FIELDS]
  rw [if_neg (by omega)]
  simp only [h15, h20]
  rw [if_neg (by simp), if_neg (by simp)]

/-- The header checks of `check_telegram` as one case distinction. -/
theorem check_telegram_cases (fields : List Token) (stack : Nat → Nat) :
    (fields.length < 32 ∧ check_telegram fields stack = .reject .MalformedTelegram) ∨
    (32 ≤ fields.length ∧ fields[15]? ≠ some ['0'] ∧
      check_telegram fields stack = .reject .UnexpectedReservedByte) ∨
    (32 ≤ fields.length ∧ fields[15]? = some ['0'] ∧
      fields[20]? ≠ some ['D', 'I', 'S', 'T', '1'] ∧
      check_telegram fields stack = .reject .UnexpectedDataContentMarker) ∨
    (32 ≤ fields.length ∧ fields[15]? = some ['0'] ∧
      fields[20]? = some ['D', 'I', 'S', 'T', '1'] ∧
      check_telegram fields stack = check_lengths fields stack) := by
  by_cases h : fields.length < 32
  · exact Or.inl ⟨h, check_telegram_short _ _ h⟩
  · have h32 : 32 ≤ fields.length := by omega
    by_cases h15 : fields[15]? = some ['0']
    · by_cases h20 : fields[20]? = some ['D', 'I', 'S', 'T', '1']
      · exact Or.inr (Or.inr (Or.inr ⟨h32, h15, h20, check_telegram_header _ _ h32 h15 h20⟩))
      · exact Or.inr (Or.inr (Or.inl ⟨h32, h15, h20, check_telegram_marker _ _ h32 h15 h20⟩))
    · exact Or.inr (Or.inl ⟨h32, h15, check_telegram_reserved _ _ h32 h15⟩)


theorem parse_datagram_eq_ExitError (self : SickTim5512050001Parser) (fuel : Nat)
    (datagram : List Char) (config : SickTimConfig) (now : ℚ) (stack : Nat → Nat) (msg : LaserScan)
    (r : Reject) (m : LaserScan) :
    parse_datagram self fuel datagram config now stack msg = .ExitError r m ↔
      check_telegram (tokenize datagram) stack = .reject r ∧ m = msg := by
  unfold parse_datagram
  exact parse_fields_eq_ExitError _ _ _ _ _ _ _ _ _

/-- C1: header validation is decided by three checks in this order.  The call
returns the `MalformedTelegram` error exactly when there are fewer than 32
tokens, the `UnexpectedReservedByte` error exactly when there are at least 32
tokens and token 15 is not "0", the `UnexpectedDataContentMarker` error exactly
when moreover token 15 is "0" and token 20 is not "DIST1"; so a telegram with
32 tokens or more, token 15 = "0" and token 20 = "DIST1" gets none of the
three, and every telegram of 31 tokens gets `MalformedTelegram`.  A rejection
leaves the message as it was. -/
theorem header_validation_order (self : SickTim5512050001Parser) (fuel : Nat)
    (datagram : List Char) (config : SickTimConfig) (now : ℚ) (stack : Nat → Nat)
    (msg : LaserScan) :
    (∀ m, parse_datagram self fuel datagram config now stack msg = .ExitError .MalformedTelegram m ↔
      ((tokenize datagram).length < 32 ∧ m = msg)) ∧
    (∀ m, parse_datagram self fuel datagram config now stack msg
        = .ExitError .UnexpectedReservedByte m ↔
      (32 ≤ (tokenize datagram).length ∧ (tokenize datagram)[15]? ≠ some ['0'] ∧ m = msg)) ∧
    (∀ m, parse_datagram self fuel datagram config now stack msg
        = .ExitError .UnexpectedDataContentMarker m ↔
      (32 ≤ (tokenize datagram).length ∧ (tokenize datagram)[15]? = some ['0'] ∧
        (tokenize datagram)[20]? ≠ some ['D', 'I', 'S', 'T', '1'] ∧ m = msg)) ∧
    ((tokenize datagram).length = 31 →
      parse_datagram self fuel datagram config now stack msg = .ExitError .MalformedTelegram msg) := by
  have key := check_telegram_cases (tokenize datagram) stack
  simp only [parse_datagram_eq_ExitError]
  rcases key with ⟨h, e⟩ | ⟨h, h15, e⟩ | ⟨h, h15, h20, e⟩ | ⟨h, h15, h20, e⟩
  · rw [e]
    refine ⟨fun m => ?_, fun m => ?_, fun m => ?_, fun _ => by simp⟩
    · simp [h]
    · simp; omega
    · simp; omega
  · rw [e]
    refine ⟨fun m => ?_, fun m => ?_, fun m => ?_, fun h31 => by omega⟩
    · simp; omega
    · simp [h, h15]
    · simp [h15]
  · rw [e]
    refine ⟨fun m => ?_, fun m => ?_, fun m => ?_, fun h31 => by omega⟩
    · simp; omega
    · simp [h15]
    · simp [h, h15, h20]
  · rw [e]
    have hr := check_lengths_reject (tokenize datagram) stack
    refine ⟨fun m => ?_, fun m => ?_, fun m => ?_, fun h31 => by omega⟩
    · constructor
      · rintro ⟨h1, -⟩; have := hr _ h1; simp at this
      · rintro ⟨h1, -⟩; omega
    · constructor
      · rintro ⟨h1, -⟩; have := hr _ h1; simp at this
      · rintro ⟨-, h1, -⟩; exact absurd h15 h1
    · constructor
      · rintro ⟨h1, -⟩; have := hr _ h1; simp at this
      · rintro ⟨-, -, h1, -⟩; exact absurd h20 h1


theorem tokenize_sample_tokens : tokenize (telegram_of sample_tokens) = sample_tokens :=
  tokenize_telegram_of _ (by decide)

theorem tokenize_sample_rssi_tokens :
    tokenize (telegram_of sample_rssi_tokens) = sample_rssi_tokens :=
  tokenize_telegram_of _ (by decide)

/-! ## Length decoding -/

theorem check_rssi_ok (fields : List Token) (stack : Nat → Nat) (n k : Nat) (rssi : Bool) (w : List Warning)
    (h : check_rssi fields stack n = .ok k rssi w) : k = n := by
  simp only [check_rssi] at h
  repeat' split at h
  all_goals first
    | (injection h with h _ _; exact h.symm)
    | cases h

theorem check_lengths_eq (fields : List Token) (stack : Nat → Nat) (f25 : Token) (h25 : fields[25]? = some f25) :
    check_lengths fields stack =
      if (sscanf_hx f25).getD 0 < 1 ∨ (sscanf_hx f25).getD 0 > 811 then
        .reject .SampleCountOutOfRange
      else if fields.length < 26 + (sscanf_hx f25).getD 0 + 1 + 5 then .reject .TruncatedTelegram
      else check_rssi fields stack ((sscanf_hx f25).getD 0) := by
  simp only [check_lengths, h25, HEADER_FIELDS, MIN_FOOTER_FIELDS]

theorem parse_datagram_eq_ExitSuccess (self : SickTim5512050001Parser) (fuel : Nat)
    (datagram : List Char) (config : SickTimConfig) (now : ℚ) (stack : Nat → Nat) (msg : LaserScan)
    (m : LaserScan) (t : Trace) :
    parse_datagram self fuel datagram config now stack msg = .ExitSuccess m t ↔
      ∃ n rssi w, check_telegram (tokenize datagram) stack = .ok n rssi w ∧
        read_scan self fuel (tokenize datagram) config now stack msg n rssi w = .ok (m, t) := by
  unfold parse_datagram parse_fields
  split
  · rename_i r h; rw [h]; simp
  · rename_i f h; rw [h]; simp
  · rename_i n rssi w h
    rw [h]
    split
    · rename_i f hf
      constructor
      · intro e; cases e
      · rintro ⟨k, rssi', w', e, e'⟩
        injection e with e1 e2 e3
        subst e1 e2 e3
        rw [hf] at e'
        cases e'
    · rename_i r hr
      constructor
      · intro e
        injection e with e1 e2
        exact ⟨n, rssi, w, rfl, by rw [hr, ← e1, ← e2]⟩
      · rintro ⟨k, rssi', w', e, e'⟩
        injection e with e1 e2 e3
        subst e1 e2 e3
        rw [hr] at e'
        injection e' with e'
        rw [e']

theorem read_scan_number_of_data (self : SickTim5512050001Parser) (fuel : Nat)
    (fields : List Token) (config : SickTimConfig) (now : ℚ) (stack : Nat → Nat) (msg : LaserScan)
    (n : Nat) (rssi : Bool) (w : List Warning) (m : LaserScan) (t : Trace)
    (h : read_scan self fuel fields config now stack msg n rssi w = .ok (m, t)) :
    t.number_of_data = n ∧ t.rssi = rssi := by
  obtain ⟨g, lo, hi, ranges, iw, -, -, -, -, -, -, -, ht⟩ :=
    read_scan_ok _ _ _ _ _ _ _ _ _ _ _ _ h
  rw [ht]; exact ⟨rfl, rfl⟩

/-- C2: for a telegram that passes header validation, with `N` the value of
`number_of_data` after `sscanf(fields[25], "%hx", ...)`, the call returns the
`SampleCountOutOfRange` error if and only if `N < 1` or `N > 811`; a successful
call has `N` as its sample count, and `1 ≤ N ≤ 811`.  The value `N` is the
number that `strtoul` reads, cut to 16 bits: "10F" reads as 271, "32C" as 812,
"10003" as 3, "-1" as 65535, a number of 17 digits as 65535 with or without a
minus sign (`strtoul` returns `ULONG_MAX` for both), and a token without a
hexadecimal number leaves the initial 0. -/
theorem sample_count_out_of_range (self : SickTim5512050001Parser) (fuel : Nat)
    (datagram : List Char) (config : SickTimConfig) (now : ℚ) (stack : Nat → Nat)
    (msg : LaserScan) (f25 : Token)
    (hlen : 32 ≤ (tokenize datagram).length)
    (h15 : (tokenize datagram)[15]? = some ['0'])
    (h20 : (tokenize datagram)[20]? = some ['D', 'I', 'S', 'T', '1'])
    (h25 : (tokenize datagram)[25]? = some f25) :
    (∀ m, parse_datagram self fuel datagram config now stack msg
        = .ExitError .SampleCountOutOfRange m ↔
      (((sscanf_hx f25).getD 0 < 1 ∨ 811 < (sscanf_hx f25).getD 0) ∧ m = msg)) ∧
    (∀ m t, parse_datagram self fuel datagram config now stack msg = .ExitSuccess m t →
      t.number_of_data = (sscanf_hx f25).getD 0 ∧
        1 ≤ t.number_of_data ∧ t.number_of_data ≤ 811) ∧
    ((sscanf_hx ['1', '0', 'F']).getD 0 = 271 ∧ (sscanf_hx ['3', '2', 'C']).getD 0 = 812 ∧
      (sscanf_hx ['1', '0', '0', '0', '3']).getD 0 = 3 ∧
      (sscanf_hx ['-', '1']).getD 0 = 65535 ∧
      (sscanf_hx ['F', 'F', 'F', 'F', 'F', 'F', 'F', 'F', 'F', 'F', 'F', 'F', 'F', 'F', 'F',
        'F', 'F']).getD 0 = 65535 ∧
      (sscanf_hx ['-', 'F', 'F', 'F', 'F', 'F', 'F', 'F', 'F', 'F', 'F', 'F', 'F', 'F', 'F',
        'F', 'F', 'F']).getD 0 = 65535 ∧
      (sscanf_hx ['x', 'y', 'z']).getD 0 = 0) := by
  have hc := check_telegram_header _ stack hlen h15 h20
  have hl := check_lengths_eq _ stack f25 h25
  refine ⟨?_, ?_, by decide, by decide, by decide, by decide, by decide, by decide, by decide⟩
  · intro m
    rw [parse_datagram_eq_ExitError, hc, hl]
    by_cases hN : (sscanf_hx f25).getD 0 < 1 ∨ (sscanf_hx f25).getD 0 > 811
    · rw [if_pos hN]
      exact ⟨fun h => ⟨hN, h.2⟩, fun h => ⟨rfl, h.2⟩⟩
    · rw [if_neg hN]
      have hN' : ¬ ((sscanf_hx f25).getD 0 < 1 ∨ 811 < (sscanf_hx f25).getD 0) := hN
      simp only [hN', false_and, iff_false, not_and]
      intro h
      split at h
      · cases h
      · have := check_rssi_reject _ _ _ _ h
        simp at this
  · intro m t h
    rw [parse_datagram_eq_ExitSuccess] at h
    obtain ⟨n, rssi, w, hn, hr⟩ := h
    have ht := (read_scan_number_of_data _ _ _ _ _ _ _ _ _ _ _ _ hr).1
    rw [hc, hl] at hn
    split at hn
    · cases hn
    · rename_i hN
      split at hn
      · cases hn
      · have := check_rssi_ok _ _ _ _ _ _ hn
        rw [ht, this]
        omega

/-- C2, at the sample telegram: the declared sample count is 3. -/
theorem sample_count_out_of_range_witness :
    (32 ≤ (tokenize (telegram_of sample_tokens)).length ∧
      (tokenize (telegram_of sample_tokens))[15]? = some ['0'] ∧
      (tokenize (telegram_of sample_tokens))[20]? = some ['D', 'I', 'S', 'T', '1'] ∧
      (tokenize (telegram_of sample_tokens))[25]? = some ['3']) ∧
    (∀ m, parse_datagram SickTim5512050001Parser.new 1 (telegram_of sample_tokens)
        sample_config 0 zero_stack empty_scan = .ExitError .SampleCountOutOfRange m ↔
      (((sscanf_hx ['3']).getD 0 < 1 ∨ 811 < (sscanf_hx ['3']).getD 0) ∧ m = empty_scan)) ∧
    (∀ m t, parse_datagram SickTim5512050001Parser.new 1 (telegram_of sample_tokens)
        sample_config 0 zero_stack empty_scan = .ExitSuccess m t →
      t.number_of_data = (sscanf_hx ['3']).getD 0 ∧
        1 ≤ t.number_of_data ∧ t.number_of_data ≤ 811) :=
  ⟨⟨by rw [tokenize_sample_tokens]; decide, by rw [tokenize_sample_tokens]; decide,
      by rw [tokenize_sample_tokens]; decide, by rw [tokenize_sample_tokens]; decide⟩,
    (sample_count_out_of_range SickTim5512050001Parser.new 1 (telegram_of sample_tokens)
      sample_config 0 zero_stack empty_scan ['3']
      (by rw [tokenize_sample_tokens]; decide) (by rw [tokenize_sample_tokens]; decide)
      (by rw [tokenize_sample_tokens]; decide) (by rw [tokenize_sample_tokens]; decide)).1,
    (sample_count_out_of_range SickTim5512050001Parser.new 1 (telegram_of sample_tokens)
      sample_config 0 zero_stack empty_scan ['3']
      (by rw [tokenize_sample_tokens]; decide) (by rw [tokenize_sample_tokens]; decide)
      (by rw [tokenize_sample_tokens]; decide) (by rw [tokenize_sample_tokens]; decide)).2.1⟩


theorem check_rssi_eq (fields : List Token) (stack : Nat → Nat) (n : Nat) (fr : Token) (tmp : Int)
    (hfr : fields[26 + n]? = some fr) (htmp : sscanf_d fr = some tmp) :
    check_rssi fields stack n =
      if tmp > 0 then
        match fields[26 + n + 6]? with
        | none => .fault (.outOfBounds (26 + n + 6))
        | some fn =>
          if (sscanf_hx fn).getD 0 ≠ n then .reject .RssiSampleCountMismatch
          else if fields.length < 26 + n + 1 + 6 + (sscanf_hx fn).getD 0 + 5 then
            .reject .TruncatedTelegram
          else
            match fields[26 + n + 1]? with
            | none => .fault (.outOfBounds (26 + n + 1))
            | some fm =>
              .ok n true
                (if fm ≠ ['R', 'S', 'S', 'I', '1'] then [.rssiMarkerMismatch] else [])
      else .ok n false [] := by
  simp only [check_rssi, HEADER_FIELDS, MIN_FOOTER_FIELDS, hfr, htmp, Option.getD_some]

theorem check_rssi_ok_true (fields : List Token) (stack : Nat → Nat) (n k : Nat) (w : List Warning)
    (h : check_rssi fields stack n = .ok k true w) : 2 * n + 38 ≤ fields.length := by
  simp only [check_rssi, HEADER_FIELDS, MIN_FOOTER_FIELDS] at h
  split at h
  · cases h
  · split at h
    · split at h
      · cases h
      · split at h
        · cases h
        · rename_i hne
          split at h
          · cases h
          · rename_i hlt
            simp only [ne_eq, Decidable.not_not] at hne
            rw [hne] at hlt
            omega
    · injection h with _ h2 _
      cases h2

theorem check_telegram_ok (fields : List Token) (stack : Nat → Nat) (n : Nat) (rssi : Bool) (w : List Warning)
    (h : check_telegram fields stack = .ok n rssi w) :
    32 ≤ fields.length ∧ fields[15]? = some ['0'] ∧
      fields[20]? = some ['D', 'I', 'S', 'T', '1'] ∧ check_lengths fields stack = .ok n rssi w := by
  rcases check_telegram_cases fields stack with ⟨-, e⟩ | ⟨-, -, e⟩ | ⟨-, -, -, e⟩ | ⟨h1, h2, h3, e⟩
  · rw [e] at h; cases h
  · rw [e] at h; cases h
  · rw [e] at h; cases h
  · exact ⟨h1, h2, h3, by rw [← e, h]⟩

theorem check_lengths_ok (fields : List Token) (stack : Nat → Nat) (n : Nat) (rssi : Bool) (w : List Warning)
    (h : check_lengths fields stack = .ok n rssi w) :
    ∃ f25, fields[25]? = some f25 ∧ n = (sscanf_hx f25).getD 0 ∧ 1 ≤ n ∧ n ≤ 811 ∧
      26 + n + 6 ≤ fields.length ∧ check_rssi fields stack n = .ok n rssi w := by
  cases h25 : fields[25]? with
  | none => simp only [check_lengths, h25] at h; cases h
  | some f25 =>
    rw [check_lengths_eq _ _ f25 h25] at h
    split at h
    · cases h
    · split at h
      · cases h
      · have hk := check_rssi_ok _ _ _ _ _ _ h
        subst hk
        exact ⟨f25, rfl, rfl, by omega, by omega, by omega, h⟩

/-- C3: for a telegram that passes header validation and declares a sample
count `N` with `1 ≤ N ≤ 811`: with fewer than `26 + N + 1 + 5` tokens the call
returns the `TruncatedTelegram` error; when the RSSI flag is positive and the
RSSI sample count at index `26 + N + 6` equals `N`, with fewer than
`26 + N + 1 + 6 + N + 5` tokens the call returns the `TruncatedTelegram` error
too.  So a successful call has at least `26 + N + 6` tokens, and at least
`2 N + 38` tokens when the RSSI block is present. -/
theorem truncated_telegram (self : SickTim5512050001Parser) (fuel : Nat)
    (datagram : List Char) (config : SickTimConfig) (now : ℚ) (stack : Nat → Nat)
    (msg : LaserScan) (f25 : Token)
    (hlen : 32 ≤ (tokenize datagram).length)
    (h15 : (tokenize datagram)[15]? = some ['0'])
    (h20 : (tokenize datagram)[20]? = some ['D', 'I', 'S', 'T', '1'])
    (h25 : (tokenize datagram)[25]? = some f25)
    (hN : 1 ≤ (sscanf_hx f25).getD 0 ∧ (sscanf_hx f25).getD 0 ≤ 811) :
    ((tokenize datagram).length < 26 + (sscanf_hx f25).getD 0 + 1 + 5 →
      parse_datagram self fuel datagram config now stack msg = .ExitError .TruncatedTelegram msg) ∧
    (∀ fr tmp fn,
      26 + (sscanf_hx f25).getD 0 + 1 + 5 ≤ (tokenize datagram).length →
      (tokenize datagram)[26 + (sscanf_hx f25).getD 0]? = some fr →
      sscanf_d fr = some tmp → 0 < tmp →
      (tokenize datagram)[26 + (sscanf_hx f25).getD 0 + 6]? = some fn →
      (sscanf_hx fn).getD 0 = (sscanf_hx f25).getD 0 →
      (tokenize datagram).length
        < 26 + (sscanf_hx f25).getD 0 + 1 + 6 + (sscanf_hx f25).getD 0 + 5 →
      parse_datagram self fuel datagram config now stack msg = .ExitError .TruncatedTelegram msg) ∧
    (∀ m t, parse_datagram self fuel datagram config now stack msg = .ExitSuccess m t →
      26 + (sscanf_hx f25).getD 0 + 6 ≤ (tokenize datagram).length ∧
        (t.rssi = true → 2 * (sscanf_hx f25).getD 0 + 38 ≤ (tokenize datagram).length)) := by
  have hc := check_telegram_header _ stack hlen h15 h20
  have hl := check_lengths_eq _ stack f25 h25
  have hN' : ¬ ((sscanf_hx f25).getD 0 < 1 ∨ (sscanf_hx f25).getD 0 > 811) := by omega
  rw [if_neg hN'] at hl
  refine ⟨fun hshort => ?_, fun fr tmp fn hlong hfr htmp hpos hfn hcnt hshort => ?_,
    fun m t h => ?_⟩
  · rw [parse_datagram_eq_ExitError, hc, hl, if_pos hshort]
    exact ⟨rfl, rfl⟩
  · rw [parse_datagram_eq_ExitError, hc, hl, if_neg (by omega),
      check_rssi_eq _ _ _ fr tmp hfr htmp, if_pos hpos]
    simp only [hfn]
    rw [if_neg (by simp [hcnt]), hcnt, if_pos hshort]
    exact ⟨rfl, trivial⟩
  · rw [parse_datagram_eq_ExitSuccess] at h
    obtain ⟨n, rssi, w, hn, hr⟩ := h
    have ht := (read_scan_number_of_data _ _ _ _ _ _ _ _ _ _ _ _ hr).2
    rw [hc] at hn
    obtain ⟨g25, hg25, hn25, -, -, hcount, hrs⟩ := check_lengths_ok _ _ _ _ _ hn
    rw [h25] at hg25
    injection hg25 with hg25
    subst hg25
    subst hn25
    refine ⟨hcount, fun hrssi => ?_⟩
    rw [ht] at hrssi
    subst hrssi
    exact check_rssi_ok_true _ _ _ _ _ hrs

theorem tokenize_truncated_rssi_tokens :
    tokenize (telegram_of truncated_rssi_tokens) = truncated_rssi_tokens :=
  tokenize_telegram_of _ (by decide)

/-- C3, at the sample telegram with RSSI block cut after 41 tokens: two
samples, RSSI flag 1, RSSI sample count 2, and `41 < 26 + 2 + 1 + 6 + 2 + 5`. -/
theorem truncated_telegram_witness :
    (32 ≤ (tokenize (telegram_of truncated_rssi_tokens)).length ∧
      (tokenize (telegram_of truncated_rssi_tokens))[15]? = some ['0'] ∧
      (tokenize (telegram_of truncated_rssi_tokens))[20]? = some ['D', 'I', 'S', 'T', '1'] ∧
      (tokenize (telegram_of truncated_rssi_tokens))[25]? = some ['2'] ∧
      (1 ≤ (sscanf_hx ['2']).getD 0 ∧ (sscanf_hx ['2']).getD 0 ≤ 811)) ∧
    parse_datagram SickTim5512050001Parser.new 1 (telegram_of truncated_rssi_tokens)
      sample_config 0 zero_stack empty_scan = .ExitError .TruncatedTelegram empty_scan :=
  ⟨⟨by rw [tokenize_truncated_rssi_tokens]; decide,
      by rw [tokenize_truncated_rssi_tokens]; decide,
      by rw [tokenize_truncated_rssi_tokens]; decide,
      by rw [tokenize_truncated_rssi_tokens]; decide, by decide⟩,
    (truncated_telegram SickTim5512050001Parser.new 1 (telegram_of truncated_rssi_tokens)
      sample_config 0 zero_stack empty_scan ['2']
      (by rw [tokenize_truncated_rssi_tokens]; decide)
      (by rw [tokenize_truncated_rssi_tokens]; decide)
      (by rw [tokenize_truncated_rssi_tokens]; decide)
      (by rw [tokenize_truncated_rssi_tokens]; decide) (by decide)).2.1 ['1'] 1 ['2']
      (by rw [tokenize_truncated_rssi_tokens]; decide)
      (by rw [tokenize_truncated_rssi_tokens]; decide) (by decide) (by decide)
      (by rw [tokenize_truncated_rssi_tokens]; decide) (by decide)
      (by rw [tokenize_truncated_rssi_tokens]; decide)⟩

/-! ## The RSSI flag and the RSSI sample count -/

theorem tokenize_negative_flag_tokens :
    tokenize (telegram_of negative_flag_tokens) = negative_flag_tokens :=
  tokenize_telegram_of _ (by decide)

theorem tokenize_mismatch_tokens :
    tokenize (telegram_of mismatch_tokens) = mismatch_tokens :=
  tokenize_telegram_of _ (by decide)

/-- C8, as stated, fails: in the sample telegram with the RSSI flag "-1" the
flag reads as the nonzero integer -1, the call succeeds, and the RSSI block is
not treated as present. -/
theorem rssi_flag_negative_not_present :
    (tokenize (telegram_of negative_flag_tokens))[26 + 3]? = some ['-', '1'] ∧
    sscanf_d ['-', '1'] = some (-1) ∧ (-1 : Int) ≠ 0 ∧
    ((parse_datagram SickTim5512050001Parser.new 1 (telegram_of negative_flag_tokens)
        sample_config 0 zero_stack empty_scan).trace.map (fun t => t.rssi)) = some false := by
  refine ⟨by rw [tokenize_negative_flag_tokens]; decide, by decide, by decide, ?_⟩
  rw [parse_datagram, tokenize_negative_flag_tokens]
  decide!

/-- C8, amended: for a telegram that passes header validation and the first
length check, with `tmp` the integer that `sscanf(fields[26 + N], "%d", ...)`
reads from the RSSI flag, the RSSI block is treated as present if and only if
`tmp > 0`: the checks end with `rssi = false` exactly when `tmp ≤ 0`, and a
successful call has `rssi = true` exactly when `tmp > 0`. -/
theorem rssi_present_iff_flag_positive (self : SickTim5512050001Parser) (fuel : Nat)
    (datagram : List Char) (config : SickTimConfig) (now : ℚ) (stack : Nat → Nat) (msg : LaserScan)
    (f25 fr : Token) (tmp : Int)
    (hlen : 32 ≤ (tokenize datagram).length)
    (h15 : (tokenize datagram)[15]? = some ['0'])
    (h20 : (tokenize datagram)[20]? = some ['D', 'I', 'S', 'T', '1'])
    (h25 : (tokenize datagram)[25]? = some f25)
    (hN : 1 ≤ (sscanf_hx f25).getD 0 ∧ (sscanf_hx f25).getD 0 ≤ 811)
    (hcount : 26 + (sscanf_hx f25).getD 0 + 1 + 5 ≤ (tokenize datagram).length)
    (hfr : (tokenize datagram)[26 + (sscanf_hx f25).getD 0]? = some fr)
    (htmp : sscanf_d fr = some tmp) :
    ((∃ w, check_telegram (tokenize datagram) stack = .ok ((sscanf_hx f25).getD 0) false w) ↔
      tmp ≤ 0) ∧
    (∀ m t, parse_datagram self fuel datagram config now stack msg = .ExitSuccess m t →
      (t.rssi = true ↔ 0 < tmp)) := by
  have hc := check_telegram_header _ stack hlen h15 h20
  have hl := check_lengths_eq _ stack f25 h25
  have hN' : ¬ ((sscanf_hx f25).getD 0 < 1 ∨ (sscanf_hx f25).getD 0 > 811) := by omega
  rw [if_neg hN', if_neg (by omega), check_rssi_eq _ _ _ fr tmp hfr htmp] at hl
  have key : ∀ k rssi w, check_telegram (tokenize datagram) stack = .ok k rssi w →
      (rssi = true ↔ 0 < tmp) := by
    intro k rssi w h
    rw [hc, hl] at h
    by_cases hpos : tmp > 0
    · rw [if_pos hpos] at h
      repeat' split at h
      all_goals first
        | (injection h with _ h2 _; simp [← h2, hpos])
        | cases h
    · rw [if_neg hpos] at h
      injection h with _ h2 _
      simp [← h2, hpos]
  constructor
  · constructor
    · rintro ⟨w, h⟩
      have := key _ _ _ h
      simp at this
      exact this
    · intro hle
      refine ⟨[], ?_⟩
      rw [hc, hl, if_neg (by omega)]
  · intro m t h
    rw [parse_datagram_eq_ExitSuccess] at h
    obtain ⟨n, rssi, w, hn, hr⟩ := h
    rw [(read_scan_number_of_data _ _ _ _ _ _ _ _ _ _ _ _ hr).2]
    exact key _ _ _ hn

/-- C8, amended, at the sample telegram with RSSI block: the flag reads 1. -/
theorem rssi_present_iff_flag_positive_witness :
    (32 ≤ (tokenize (telegram_of sample_rssi_tokens)).length ∧
      (tokenize (telegram_of sample_rssi_tokens))[15]? = some ['0'] ∧
      (tokenize (telegram_of sample_rssi_tokens))[20]? = some ['D', 'I', 'S', 'T', '1'] ∧
      (tokenize (telegram_of sample_rssi_tokens))[25]? = some ['2'] ∧
      (1 ≤ (sscanf_hx ['2']).getD 0 ∧ (sscanf_hx ['2']).getD 0 ≤ 811) ∧
      26 + (sscanf_hx ['2']).getD 0 + 1 + 5 ≤ (tokenize (telegram_of sample_rssi_tokens)).length ∧
      (tokenize (telegram_of sample_rssi_tokens))[26 + (sscanf_hx ['2']).getD 0]? = some ['1'] ∧
      sscanf_d ['1'] = some 1) ∧
    (((∃ w, check_telegram (tokenize (telegram_of sample_rssi_tokens)) zero_stack
          = .ok ((sscanf_hx ['2']).getD 0) false w) ↔ (1 : Int) ≤ 0) ∧
      (∀ m t, parse_datagram SickTim5512050001Parser.new 1 (telegram_of sample_rssi_tokens)
          sample_config 0 zero_stack empty_scan = .ExitSuccess m t → (t.rssi = true ↔ (0 : Int) < 1))) :=
  ⟨⟨by rw [tokenize_sample_rssi_tokens]; decide, by rw [tokenize_sample_rssi_tokens]; decide,
      by rw [tokenize_sample_rssi_tokens]; decide, by rw [tokenize_sample_rssi_tokens]; decide,
      by decide, by rw [tokenize_sample_rssi_tokens]; decide,
      by rw [tokenize_sample_rssi_tokens]; decide, by decide⟩,
    rssi_present_iff_flag_positive SickTim5512050001Parser.new 1
      (telegram_of sample_rssi_tokens) sample_config 0 zero_stack empty_scan ['2'] ['1'] 1
      (by rw [tokenize_sample_rssi_tokens]; decide) (by rw [tokenize_sample_rssi_tokens]; decide)
      (by rw [tokenize_sample_rssi_tokens]; decide) (by rw [tokenize_sample_rssi_tokens]; decide)
      (by decide) (by rw [tokenize_sample_rssi_tokens]; decide)
      (by rw [tokenize_sample_rssi_tokens]; decide) (by decide)⟩

/-- C9: for a telegram that passes header validation and the first length
check and whose RSSI flag is positive, if the RSSI sample count read from the
token at index `26 + N + 6` differs from `N`, the call returns the
`RssiSampleCountMismatch` error, whatever the number of tokens. -/
theorem rssi_sample_count_mismatch (self : SickTim5512050001Parser) (fuel : Nat)
    (datagram : List Char) (config : SickTimConfig) (now : ℚ) (stack : Nat → Nat) (msg : LaserScan)
    (f25 fr fn : Token) (tmp : Int)
    (hlen : 32 ≤ (tokenize datagram).length)
    (h15 : (tokenize datagram)[15]? = some ['0'])
    (h20 : (tokenize datagram)[20]? = some ['D', 'I', 'S', 'T', '1'])
    (h25 : (tokenize datagram)[25]? = some f25)
    (hN : 1 ≤ (sscanf_hx f25).getD 0 ∧ (sscanf_hx f25).getD 0 ≤ 811)
    (hcount : 26 + (sscanf_hx f25).getD 0 + 1 + 5 ≤ (tokenize datagram).length)
    (hfr : (tokenize datagram)[26 + (sscanf_hx f25).getD 0]? = some fr)
    (htmp : sscanf_d fr = some tmp) (hpos : 0 < tmp)
    (hfn : (tokenize datagram)[26 + (sscanf_hx f25).getD 0 + 6]? = some fn)
    (hne : (sscanf_hx fn).getD 0 ≠ (sscanf_hx f25).getD 0) :
    parse_datagram self fuel datagram config now stack msg
      = .ExitError .RssiSampleCountMismatch msg := by
  have hc := check_telegram_header _ stack hlen h15 h20
  have hl := check_lengths_eq _ stack f25 h25
  have hN' : ¬ ((sscanf_hx f25).getD 0 < 1 ∨ (sscanf_hx f25).getD 0 > 811) := by omega
  rw [if_neg hN', if_neg (by omega), check_rssi_eq _ _ _ fr tmp hfr htmp, if_pos hpos] at hl
  simp only [hfn] at hl
  rw [if_pos hne] at hl
  rw [parse_datagram_eq_ExitError, hc, hl]
  exact ⟨rfl, rfl⟩

/-- C9, at a telegram of 36 tokens with two range samples, RSSI flag 1 and RSSI
sample count 3: too short for the RSSI layout, and rejected for the mismatch. -/
theorem rssi_sample_count_mismatch_witness :
    (32 ≤ (tokenize (telegram_of mismatch_tokens)).length ∧
      (tokenize (telegram_of mismatch_tokens))[15]? = some ['0'] ∧
      (tokenize (telegram_of mismatch_tokens))[20]? = some ['D', 'I', 'S', 'T', '1'] ∧
      (tokenize (telegram_of mismatch_tokens))[25]? = some ['2'] ∧
      (1 ≤ (sscanf_hx ['2']).getD 0 ∧ (sscanf_hx ['2']).getD 0 ≤ 811) ∧
      26 + (sscanf_hx ['2']).getD 0 + 1 + 5 ≤ (tokenize (telegram_of mismatch_tokens)).length ∧
      (tokenize (telegram_of mismatch_tokens))[26 + (sscanf_hx ['2']).getD 0]? = some ['1'] ∧
      sscanf_d ['1'] = some 1 ∧ (0 : Int) < 1 ∧
      (tokenize (telegram_of mismatch_tokens))[26 + (sscanf_hx ['2']).getD 0 + 6]? = some ['3'] ∧
      (sscanf_hx ['3']).getD 0 ≠ (sscanf_hx ['2']).getD 0 ∧
      (tokenize (telegram_of mismatch_tokens)).length < 2 * 2 + 38) ∧
    parse_datagram SickTim5512050001Parser.new 1 (telegram_of mismatch_tokens)
      sample_config 0 zero_stack empty_scan = .ExitError .RssiSampleCountMismatch empty_scan :=
  ⟨⟨by rw [tokenize_mismatch_tokens]; decide, by rw [tokenize_mismatch_tokens]; decide,
      by rw [tokenize_mismatch_tokens]; decide, by rw [tokenize_mismatch_tokens]; decide,
      by decide, by rw [tokenize_mismatch_tokens]; decide,
      by rw [tokenize_mismatch_tokens]; decide, by decide, by decide,
      by rw [tokenize_mismatch_tokens]; decide, by decide,
      by rw [tokenize_mismatch_tokens]; decide⟩,
    rssi_sample_count_mismatch SickTim5512050001Parser.new 1 (telegram_of mismatch_tokens)
      sample_config 0 zero_stack empty_scan ['2'] ['1'] ['3'] 1
      (by rw [tokenize_mismatch_tokens]; decide) (by rw [tokenize_mismatch_tokens]; decide)
      (by rw [tokenize_mismatch_tokens]; decide) (by rw [tokenize_mismatch_tokens]; decide)
      (by decide) (by rw [tokenize_mismatch_tokens]; decide)
      (by rw [tokenize_mismatch_tokens]; decide) (by decide) (by decide)
      (by rw [tokenize_mismatch_tokens]; decide) (by decide)⟩

/-! ## Sample extraction -/

theorem read_ranges_ok (fields : List Token) (stack : Nat → Nat) (n : Nat) :
    ∀ (j : Nat) (rs : List FVal), read_ranges fields stack n j = .ok rs →
      rs.length = n ∧ ∀ k, k < n → ∃ tok, fields[j + k + 26]? = some tok ∧
        rs[k]? = some (range_value ((sscanf_hx tok).getD (stack (j + k + 26) % 2 ^ 16))) := by
  induction n with
  | zero =>
    intro j rs h
    simp only [read_ranges] at h
    injection h with h
    subst h
    exact ⟨rfl, fun k hk => absurd hk (by omega)⟩
  | succ n ih =>
    intro j rs h
    simp only [read_ranges, HEADER_FIELDS] at h
    split at h
    · cases h
    · rename_i _ tok htok
      split at h
      · cases h
      · rename_i _ rest hrest
        injection h with h
        subst h
        obtain ⟨hlen, hk⟩ := ih (j + 1) rest hrest
        refine ⟨by simp [hlen], fun k hlt => ?_⟩
        cases k with
        | zero => exact ⟨tok, by simpa using htok, by simp⟩
        | succ k =>
          obtain ⟨tok', h1, h3⟩ := hk k (by omega)
          have e : j + 1 + k + 26 = j + (k + 1) + 26 := by omega
          rw [e] at h1 h3
          exact ⟨tok', h1, by simpa using h3⟩

theorem sscanf_hx_lt (tok : Token) (v : Nat) (h : sscanf_hx tok = some v) : v < 2 ^ 16 := by
  simp only [sscanf_hx, Option.map_eq_some'] at h
  obtain ⟨u, -, hu⟩ := h
  rw [← hu]
  exact Nat.mod_lt _ (by norm_num)

/-- What a successful call says about the ranges: the window, the length of
`ranges`, and the loop that filled it. -/
theorem parse_datagram_ranges (self : SickTim5512050001Parser) (fuel : Nat)
    (datagram : List Char) (config : SickTimConfig) (now : ℚ) (stack : Nat → Nat)
    (msg : LaserScan) (m : LaserScan) (t : Trace)
    (h : parse_datagram self fuel datagram config now stack msg = .ExitSuccess m t) :
    0 ≤ t.index_max - t.index_min + 1 ∧
    read_ranges (tokenize datagram) stack (t.index_max - t.index_min + 1).toNat t.index_min
      = .ok m.ranges := by
  rw [parse_datagram_eq_ExitSuccess] at h
  obtain ⟨n, rssi, w, -, hr⟩ := h
  obtain ⟨g, lo, hi, ranges, iw, -, -, -, hsz, hrs, -, hm, ht⟩ :=
    read_scan_ok _ _ _ _ _ _ _ _ _ _ _ _ hr
  subst hm ht
  exact ⟨hsz, hrs⟩

/-! ## Conversions in range -/

theorem to_double_fin (x : ℚ) (h : |x| ≤ pow2 1023) :
    FVal.to_double (.fin x) = .fin (double_of x) := by
  have := round_raw_abs_le_pow2 53 (-1022) x 1023 (by norm_num) (by norm_num) h
  exact round_to_eq_fin _ _ _ _ (lt_of_le_of_lt this ((pow2_lt_pow2 _ _).2 (by norm_num)))

theorem to_float_fin (x : ℚ) (h : |x| ≤ pow2 127) :
    FVal.to_float (.fin x) = .fin (float_of x) := by
  have := round_raw_abs_le_pow2 24 (-126) x 127 (by norm_num) (by norm_num) h
  exact round_to_eq_fin _ _ _ _ (lt_of_le_of_lt this ((pow2_lt_pow2 _ _).2 (by norm_num)))

theorem double_of_abs_le (x : ℚ) (k : Int) (hk : -1074 ≤ k) (h : |x| ≤ pow2 k) :
    |double_of x| ≤ pow2 k :=
  round_raw_abs_le_pow2 53 (-1022) x k (by norm_num) (by omega) h

theorem float_of_abs_le (x : ℚ) (k : Int) (hk : -149 ≤ k) (h : |x| ≤ pow2 k) :
    |float_of x| ≤ pow2 k :=
  round_raw_abs_le_pow2 24 (-126) x k (by norm_num) (by omega) h

theorem double_of_err (x : ℚ) : |double_of x - x| ≤ |x| * pow2 (-53) + pow2 (-1075) := by
  have := round_raw_err_rel 53 (-1022) x
  simpa using this

theorem float_of_err (x : ℚ) : |float_of x - x| ≤ |x| * pow2 (-24) + pow2 (-150) := by
  have := round_raw_err_rel 24 (-126) x
  simpa using this

theorem double_of_nonneg (x : ℚ) (h : 0 ≤ x) : 0 ≤ double_of x := round_raw_nonneg _ _ x h

theorem float_of_nonneg (x : ℚ) (h : 0 ≤ x) : 0 ≤ float_of x := round_raw_nonneg _ _ x h

theorem double_of_mono (x y : ℚ) (h : x ≤ y) : double_of x ≤ double_of y :=
  round_raw_mono _ _ x y (by norm_num) h

theorem float_of_mono (x y : ℚ) (h : x ≤ y) : float_of x ≤ float_of y :=
  round_raw_mono _ _ x y (by norm_num) h

theorem float_of_float_of (x : ℚ) : float_of (float_of x) = float_of x :=
  round_raw_idem _ _ x (by norm_num)

theorem double_of_double_of (x : ℚ) : double_of (double_of x) = double_of x :=
  round_raw_idem _ _ x (by norm_num)

/-- The range of a reading that is not 0: a finite `float`, within one part in
`2 ^ 23` of the reading divided by 1000. -/
theorem range_value_pos (v : Nat) (h0 : 0 < v) (hv : v < 2 ^ 16) :
    range_value v = .fin (float_of (double_of ((v : ℚ) / 1000))) ∧
    |float_of (double_of ((v : ℚ) / 1000)) - (v : ℚ) / 1000| ≤ (v : ℚ) / 1000 / 2 ^ 23 := by
  have hvq : (1 : ℚ) ≤ v := by exact_mod_cast h0
  have hvq2 : (v : ℚ) < 65536 := by exact_mod_cast hv
  have hx0 : (0 : ℚ) < (v : ℚ) / 1000 := by positivity
  have hx1 : (v : ℚ) / 1000 ≤ pow2 7 := by
    rw [pow2_eq]
    norm_num
    linarith
  have hxa : |(v : ℚ) / 1000| ≤ pow2 7 := by rw [abs_of_pos hx0]; exact hx1
  have hy := double_of_abs_le _ 7 (by norm_num) hxa
  have hd : FVal.ddiv (.fin (v : ℚ)) (.fin 1000) = .fin (double_of ((v : ℚ) / 1000)) := by
    simp only [FVal.ddiv, FVal.div]
    rw [if_neg (by norm_num)]
    exact to_double_fin _ (le_trans hxa ((pow2_le_pow2 _ _).2 (by norm_num)))
  constructor
  · unfold range_value
    rw [if_neg (by omega), hd]
    exact to_float_fin _ (le_trans hy ((pow2_le_pow2 _ _).2 (by norm_num)))
  · have e1 := double_of_err ((v : ℚ) / 1000)
    have e2 := float_of_err (double_of ((v : ℚ) / 1000))
    rw [abs_of_pos hx0] at e1
    have hy0 : 0 ≤ double_of ((v : ℚ) / 1000) := double_of_nonneg _ hx0.le
    rw [abs_of_nonneg hy0] at e2
    have c1 : pow2 (-53) = 1 / 2 ^ 53 := by rw [pow2_eq]; norm_num
    have c2 : pow2 (-24) = 1 / 2 ^ 24 := by rw [pow2_eq]; norm_num
    have c3 : pow2 (-1075) ≤ 1 / 2 ^ 80 := by
      have : pow2 (-1075) ≤ pow2 (-80) := (pow2_le_pow2 _ _).2 (by norm_num)
      rw [pow2_eq (-80)] at this
      norm_num at this ⊢
      exact this
    have c4 : pow2 (-150) ≤ 1 / 2 ^ 80 := by
      have : pow2 (-150) ≤ pow2 (-80) := (pow2_le_pow2 _ _).2 (by norm_num)
      rw [pow2_eq (-80)] at this
      norm_num at this ⊢
      exact this
    rw [c1] at e1
    rw [c2] at e2
    have t1 := abs_le.1 e1
    have t2 := abs_le.1 e2
    rw [abs_le]
    constructor <;> nlinarith [t1.1, t1.2, t2.1, t2.2]

theorem tokenize_small_range_tokens :
    tokenize (telegram_of small_range_tokens) = small_range_tokens :=
  tokenize_telegram_of _ (by decide)

/-- C4, as stated, fails: in the sample telegram with the first sample "1"
(one millimetre) the call succeeds and the first range is the `float`
`0x3a83126f`, about 0.0010000000475, not `1 / 1000`. -/
theorem range_of_token_1_is_not_exact :
    (tokenize (telegram_of small_range_tokens))[0 + 26]? = some ['1'] ∧
    sscanf_hx ['1'] = some 1 ∧
    (parse_datagram SickTim5512050001Parser.new 1 (telegram_of small_range_tokens)
        sample_config 1000 zero_stack empty_scan).scan.map (fun m => m.ranges[0]?)
      = some (some (.fin (8589935 / 8589934592))) ∧
    (8589935 / 8589934592 : ℚ) ≠ ((1 : Nat) : ℚ) / 1000 := by
  rw [parse_datagram, tokenize_small_range_tokens]
  exact ⟨by decide, by decide, by decide!, by norm_num⟩

/-- C4, amended: after a successful call, for every sample index `j` with
`index_min ≤ j ≤ index_max`, the range at position `j - index_min` is
determined by the 16 bit value `v` that `sscanf` with `%hx` reads from the
token at index `j + 26` (by what the stack holds when the token cannot be
read): positive infinity when `v = 0`, and otherwise the `double` quotient
`v / 1000.0` converted to `float`, a finite value within one part in `2 ^ 23`
of `v / 1000`.  The token 0000 reads as 0 and gives infinity, the token 03E8
reads as 1000 and gives exactly 1. -/
theorem range_of_sample_token (self : SickTim5512050001Parser) (fuel : Nat)
    (datagram : List Char) (config : SickTimConfig) (now : ℚ) (stack : Nat → Nat)
    (msg : LaserScan) (m : LaserScan) (t : Trace) (j : Nat)
    (h : parse_datagram self fuel datagram config now stack msg = .ExitSuccess m t)
    (hlo : t.index_min ≤ j) (hhi : (j : Int) ≤ t.index_max) :
    (∃ tok, (tokenize datagram)[j + 26]? = some tok ∧
      m.ranges[j - t.index_min]?
        = some (range_value ((sscanf_hx tok).getD (stack (j + 26) % 2 ^ 16))) ∧
      ∀ v, sscanf_hx tok = some v →
        v < 2 ^ 16 ∧
        (v = 0 → m.ranges[j - t.index_min]? = some FVal.pinf) ∧
        (v ≠ 0 → m.ranges[j - t.index_min]?
            = some (.fin (float_of (double_of ((v : ℚ) / 1000)))) ∧
          |float_of (double_of ((v : ℚ) / 1000)) - (v : ℚ) / 1000|
            ≤ (v : ℚ) / 1000 / 2 ^ 23)) ∧
    (sscanf_hx ['0', '0', '0', '0'] = some 0 ∧ range_value 0 = .pinf ∧
      sscanf_hx ['0', '3', 'E', '8'] = some 1000 ∧ range_value 1000 = .fin 1) := by
  obtain ⟨hsz, hrs⟩ := parse_datagram_ranges _ _ _ _ _ _ _ _ _ h
  obtain ⟨-, hk⟩ := read_ranges_ok _ _ _ _ _ hrs
  obtain ⟨tok, h1, h3⟩ := hk (j - t.index_min) (by omega)
  have e : t.index_min + (j - t.index_min) + 26 = j + 26 := by omega
  rw [e] at h1 h3
  refine ⟨⟨tok, h1, h3, fun v hv => ?_⟩, by decide, by decide, by decide, by decide!⟩
  have hlt := sscanf_hx_lt tok v hv
  rw [hv, Option.getD_some] at h3
  refine ⟨hlt, fun h0 => ?_, fun h0 => ?_⟩
  · rw [h3, h0]
    rfl
  · obtain ⟨r1, r2⟩ := range_value_pos v (by omega) hlt
    rw [h3, r1]
    exact ⟨rfl, r2⟩

theorem parse_sample_tokens :
    parse_datagram SickTim5512050001Parser.new 1 (telegram_of sample_tokens) sample_config
      1000 zero_stack empty_scan = .ExitSuccess sample_scan sample_trace := by
  rw [parse_datagram, tokenize_sample_tokens]
  decide!

/-- C4, amended, at the sample telegram: sample 1 is the token "0", its range
is infinite. -/
theorem range_of_sample_token_witness :
    (parse_datagram SickTim5512050001Parser.new 1 (telegram_of sample_tokens) sample_config
        1000 zero_stack empty_scan = .ExitSuccess sample_scan sample_trace ∧
      sample_trace.index_min ≤ 1 ∧ ((1 : Nat) : Int) ≤ sample_trace.index_max) ∧
    ∃ tok, (tokenize (telegram_of sample_tokens))[1 + 26]? = some tok ∧
      sample_scan.ranges[1 - sample_trace.index_min]?
        = some (range_value ((sscanf_hx tok).getD (zero_stack (1 + 26) % 2 ^ 16))) ∧
      ∀ v, sscanf_hx tok = some v →
        v < 2 ^ 16 ∧
        (v = 0 → sample_scan.ranges[1 - sample_trace.index_min]? = some FVal.pinf) ∧
        (v ≠ 0 → sample_scan.ranges[1 - sample_trace.index_min]?
            = some (.fin (float_of (double_of ((v : ℚ) / 1000)))) ∧
          |float_of (double_of ((v : ℚ) / 1000)) - (v : ℚ) / 1000|
            ≤ (v : ℚ) / 1000 / 2 ^ 23) :=
  ⟨⟨parse_sample_tokens, by decide, by decide⟩,
    (range_of_sample_token SickTim5512050001Parser.new 1 (telegram_of sample_tokens)
      sample_config 1000 zero_stack empty_scan sample_scan sample_trace 1 parse_sample_tokens
      (by decide) (by decide)).1⟩


theorem parse_sample_rssi_tokens :
    parse_datagram SickTim5512050001Parser.new 10 (telegram_of sample_rssi_tokens)
      narrow_config 1000 zero_stack empty_scan
      = .ExitSuccess narrow_rssi_scan narrow_rssi_trace := by
  rw [parse_datagram, tokenize_sample_rssi_tokens]
  decide!

theorem hexChar_facts : ∀ d < 16, hexDigit (hexChar d) = some d ∧ isspace (hexChar d) = false ∧
    hexChar d ≠ '-' ∧ hexChar d ≠ '+' ∧ hexChar d ≠ 'x' ∧ hexChar d ≠ 'X' ∧
    hexChar d ≠ ' ' ∧ hexChar d ≠ Char.ofNat 0 := by
  decide

theorem takeDigits_map_hexChar (ds : List Nat) (h : ∀ d ∈ ds, d < 16) :
    takeDigits hexDigit (ds.map hexChar) = ds := by
  induction ds with
  | nil => rfl
  | cons d ds ih =>
    have hd := (hexChar_facts d (h d (by simp))).1
    simp only [List.map_cons, takeDigits, hd]
    rw [ih (fun e he => h e (by simp [he]))]

theorem digitsValue_reverse (b : Nat) (ds : List Nat) :
    digitsValue b ds.reverse = Nat.ofDigits b ds := by
  unfold digitsValue
  rw [List.foldl_reverse, Nat.ofDigits_eq_foldr]
  congr 1
  funext d acc
  simp [Nat.mul_comm, Nat.add_comm]

theorem scanHex_map_hexChar (ds : List Nat) (hne : ds ≠ []) (h : ∀ d ∈ ds, d < 16) :
    scanHex (ds.map hexChar)
      = some (if 2 ^ 64 ≤ digitsValue 16 ds then 2 ^ 64 - 1 else digitsValue 16 ds) := by
  cases ds with
  | nil => exact absurd rfl hne
  | cons d ds =>
    have hd := hexChar_facts d (h d (by simp))
    have hsp : List.dropWhile isspace (hexChar d :: ds.map hexChar)
        = hexChar d :: ds.map hexChar := by
      simp [List.dropWhile_cons, hd.2.1]
    have hsign : takeSign (hexChar d :: ds.map hexChar)
        = (false, hexChar d :: ds.map hexChar) := by
      simp [takeSign, hd.2.2.1, hd.2.2.2.1]
    have hmark : dropHexMark (hexChar d :: ds.map hexChar) = hexChar d :: ds.map hexChar := by
      cases ds with
      | nil => rfl
      | cons e es =>
        have he := hexChar_facts e (h e (by simp))
        simp [dropHexMark, he.2.2.2.2.1, he.2.2.2.2.2.1]
    have htd := takeDigits_map_hexChar (d :: ds) h
    simp only [List.map_cons] at htd
    simp only [scanHex, List.map_cons, hsp, hsign, hmark, htd]
    simp

theorem scanHex_hex_token (n : Nat) (hn : n < 2 ^ 64) : scanHex (hex_token n) = some n := by
  unfold hex_token
  split
  · rename_i h0; subst h0; decide
  · rename_i h0
    have hne : (Nat.digits 16 n).reverse ≠ [] := by
      simpa using Nat.digits_ne_nil_iff_ne_zero.2 h0
    rw [scanHex_map_hexChar _ hne
      (fun d hd => Nat.digits_lt_base (by norm_num) (by simpa using hd))]
    rw [digitsValue_reverse, Nat.ofDigits_digits, if_neg (by omega)]

theorem sscanf_hx_hex_token (n : Nat) (hn : n < 2 ^ 16) : sscanf_hx (hex_token n) = some n := by
  rw [sscanf_hx, scanHex_hex_token n (by omega)]
  simp only [Option.map_some']
  congr 1
  exact Nat.mod_eq_of_lt hn

theorem sscanf_x_hex_token (n : Nat) (hn : n < 2 ^ 32) : sscanf_x (hex_token n) = some n := by
  rw [sscanf_x, scanHex_hex_token n (by omega)]
  simp only [Option.map_some']
  congr 1
  exact Nat.mod_eq_of_lt hn

theorem is_token_hex_token (n : Nat) : is_token (hex_token n) = true := by
  rw [is_token_iff]
  unfold hex_token
  split
  · decide
  · rename_i h0
    refine ⟨by simpa using Nat.digits_ne_nil_iff_ne_zero.2 h0, fun c hc => ?_⟩
    simp only [List.mem_map, List.mem_reverse] at hc
    obtain ⟨d, hd, rfl⟩ := hc
    have := hexChar_facts d (Nat.digits_lt_base (by norm_num) hd)
    exact ⟨this.2.2.2.2.2.2.1, this.2.2.2.2.2.2.2⟩

theorem toInt32_of_int (s : Int) (h : -2 ^ 31 ≤ s ∧ s < 2 ^ 31) :
    toInt32 (s % 2 ^ 32).toNat = s := by
  unfold toInt32
  have h1 : 0 ≤ s % 2 ^ 32 := Int.emod_nonneg _ (by norm_num)
  have h2 : s % 2 ^ 32 < 2 ^ 32 := Int.emod_lt_of_pos _ (by norm_num)
  have h3 : ((s % 2 ^ 32).toNat : Int) = s % 2 ^ 32 := Int.toNat_of_nonneg h1
  have h4 : (s % 2 ^ 32).toNat % 2 ^ 32 = (s % 2 ^ 32).toNat := Nat.mod_eq_of_lt (by omega)
  rw [h4]
  split <;> omega

/-! ## Operations in range -/

theorem ddiv_fin (x c : ℚ) (hc : c ≠ 0) (h : |x / c| ≤ pow2 1023) :
    FVal.ddiv (.fin x) (.fin c) = .fin (double_of (x / c)) := by
  simp only [FVal.ddiv, FVal.div]
  rw [if_neg hc]
  exact to_double_fin _ h

theorem dmul_fin (x y : ℚ) (h : |x * y| ≤ pow2 1023) :
    FVal.dmul (.fin x) (.fin y) = .fin (double_of (x * y)) := by
  simp only [FVal.dmul, FVal.mul]
  exact to_double_fin _ h

theorem dsub_fin (x y : ℚ) (h : |x - y| ≤ pow2 1023) :
    FVal.dsub (.fin x) (.fin y) = .fin (double_of (x - y)) := by
  simp only [FVal.dsub, FVal.sub, FVal.neg, FVal.add]
  rw [← sub_eq_add_neg]
  exact to_double_fin _ h

theorem dadd_fin (x y : ℚ) (h : |x + y| ≤ pow2 1023) :
    FVal.dadd (.fin x) (.fin y) = .fin (double_of (x + y)) := by
  simp only [FVal.dadd, FVal.add]
  exact to_double_fin _ h

theorem fadd_fin (x y : ℚ) (h : |x + y| ≤ pow2 127) :
    FVal.fadd (.fin x) (.fin y) = .fin (float_of (x + y)) := by
  simp only [FVal.fadd, FVal.add]
  exact to_float_fin _ h

theorem fsub_fin (x y : ℚ) (h : |x - y| ≤ pow2 127) :
    FVal.fsub (.fin x) (.fin y) = .fin (float_of (x - y)) := by
  simp only [FVal.fsub, FVal.sub, FVal.neg, FVal.add]
  rw [← sub_eq_add_neg]
  exact to_float_fin _ h

theorem fmul_fin (x y : ℚ) (h : |x * y| ≤ pow2 127) :
    FVal.fmul (.fin x) (.fin y) = .fin (float_of (x * y)) := by
  simp only [FVal.fmul, FVal.mul]
  exact to_float_fin _ h

theorem pow2_le_big (k : Int) (hk : k ≤ 127) : pow2 k ≤ pow2 127 ∧ pow2 k ≤ pow2 1023 :=
  ⟨(pow2_le_pow2 _ _).2 hk, (pow2_le_pow2 _ _).2 (by omega)⟩

/-- An integer of at most 24 bits is a `float`. -/
theorem float_of_intCast (z : Int) (h : |z| < 2 ^ 24) : float_of (z : ℚ) = z := by
  have := round_raw_int_mul_pow2 24 (-126) z 0 h (by norm_num)
  have e : pow2 0 = 1 := by rw [pow2_eq]; norm_num
  rw [e, mul_one] at this
  exact this

theorem toInt32_bounds (u : Nat) : -2 ^ 31 ≤ toInt32 u ∧ toInt32 u < 2 ^ 31 := by
  unfold toInt32
  have h : u % 2 ^ 32 < 2 ^ 32 := Nat.mod_lt _ (by norm_num)
  split <;> omega

/-! ## The decoded geometry -/

theorem M_PI_pos : 0 < M_PI := by
  unfold M_PI; norm_num

theorem M_PI_le : M_PI ≤ 4 := by
  unfold M_PI; norm_num

theorem double_of_half_M_PI : double_of (M_PI / 2) = M_PI / 2 := by decide!

/-- The steps of the computation of `angle_min` stay in range. -/
theorem angle_min_of_steps (s : Int) (hs : -2 ^ 31 ≤ s ∧ s < 2 ^ 31) :
    |(s : ℚ) / 10000| ≤ pow2 18 ∧
    |double_of ((s : ℚ) / 10000) / 180| ≤ pow2 11 ∧
    |double_of (double_of ((s : ℚ) / 10000) / 180) * M_PI| ≤ pow2 13 ∧
    |double_of (double_of (double_of ((s : ℚ) / 10000) / 180) * M_PI)
      - double_of (M_PI / 2)| ≤ pow2 14 ∧
    |angle_min_of s| ≤ pow2 14 := by
  have c18 : pow2 18 = 262144 := by rw [pow2_eq]; norm_num
  have c11 : pow2 11 = 2048 := by rw [pow2_eq]; norm_num
  have c13 : pow2 13 = 8192 := by rw [pow2_eq]; norm_num
  have c14 : pow2 14 = 16384 := by rw [pow2_eq]; norm_num
  have hs1 : (-2 ^ 31 : ℚ) ≤ s := by exact_mod_cast hs.1
  have hs2 : (s : ℚ) < 2 ^ 31 := by exact_mod_cast hs.2
  have h1 : |(s : ℚ) / 10000| ≤ pow2 18 := by
    rw [c18, abs_le]
    constructor
    · rw [le_div_iff₀ (by norm_num)]; linarith
    · rw [div_le_iff₀ (by norm_num)]; linarith
  have d1 := double_of_abs_le _ 18 (by norm_num) h1
  have h2 : |double_of ((s : ℚ) / 10000) / 180| ≤ pow2 11 := by
    rw [c18] at d1
    rw [c11, abs_div, abs_of_pos (show (0 : ℚ) < 180 by norm_num), div_le_iff₀ (by norm_num)]
    linarith
  have d2 := double_of_abs_le _ 11 (by norm_num) h2
  have h3 : |double_of (double_of ((s : ℚ) / 10000) / 180) * M_PI| ≤ pow2 13 := by
    rw [c11] at d2
    rw [c13, abs_mul, abs_of_pos M_PI_pos]
    have := M_PI_le
    have := M_PI_pos
    nlinarith [abs_nonneg (double_of (double_of ((s : ℚ) / 10000) / 180))]
  have d3 := double_of_abs_le _ 13 (by norm_num) h3
  have h4 : |double_of (double_of (double_of ((s : ℚ) / 10000) / 180) * M_PI)
      - double_of (M_PI / 2)| ≤ pow2 14 := by
    rw [c13] at d3
    rw [c14, double_of_half_M_PI]
    have := M_PI_le
    have := M_PI_pos
    have := abs_le.1 d3
    rw [abs_le]
    constructor <;> linarith
  have d4 := double_of_abs_le _ 14 (by norm_num) h4
  exact ⟨h1, h2, h3, h4, float_of_abs_le _ 14 (by norm_num) d4⟩

/-- The steps of the computation of `angle_increment` stay in range. -/
theorem angle_increment_of_steps (w : Nat) (hw : w < 2 ^ 16) :
    |(w : ℚ) / 10000| ≤ pow2 3 ∧
    |double_of ((w : ℚ) / 10000) / 180| ≤ pow2 (-4) ∧
    |double_of (double_of ((w : ℚ) / 10000) / 180) * M_PI| ≤ pow2 (-2) ∧
    |angle_increment_of w| ≤ pow2 (-2) ∧ 0 ≤ angle_increment_of w := by
  have c3 : pow2 3 = 8 := by rw [pow2_eq]; norm_num
  have c4 : pow2 (-4) = 1 / 16 := by rw [pow2_eq]; norm_num
  have c2 : pow2 (-2) = 1 / 4 := by rw [pow2_eq]; norm_num
  have hw0 : (0 : ℚ) ≤ w := by exact_mod_cast Nat.zero_le w
  have hw2 : (w : ℚ) < 2 ^ 16 := by exact_mod_cast hw
  have x0 : (0 : ℚ) ≤ (w : ℚ) / 10000 := by positivity
  have h1 : |(w : ℚ) / 10000| ≤ pow2 3 := by
    rw [c3, abs_of_nonneg x0, div_le_iff₀ (by norm_num)]
    linarith
  have d1 := double_of_abs_le _ 3 (by norm_num) h1
  have n1 := double_of_nonneg _ x0
  have x1 : (0 : ℚ) ≤ double_of ((w : ℚ) / 10000) / 180 := by positivity
  have h2 : |double_of ((w : ℚ) / 10000) / 180| ≤ pow2 (-4) := by
    rw [c3, abs_of_nonneg n1] at d1
    rw [c4, abs_of_nonneg x1, div_le_iff₀ (by norm_num)]
    linarith
  have d2 := double_of_abs_le _ (-4) (by norm_num) h2
  have n2 := double_of_nonneg _ x1
  have x2 : (0 : ℚ) ≤ double_of (double_of ((w : ℚ) / 10000) / 180) * M_PI :=
    mul_nonneg n2 M_PI_pos.le
  have h3 : |double_of (double_of ((w : ℚ) / 10000) / 180) * M_PI| ≤ pow2 (-2) := by
    rw [c4, abs_of_nonneg n2] at d2
    rw [c2, abs_of_nonneg x2]
    have := M_PI_le
    nlinarith
  have d3 := double_of_abs_le _ (-2) (by norm_num) h3
  have n3 := double_of_nonneg _ x2
  exact ⟨h1, h2, h3, float_of_abs_le _ (-2) (by norm_num) d3, float_of_nonneg _ n3⟩

/-- The steps of the computation of `angle_max` stay in range, and `angle_max`
is not below `angle_min`. -/
theorem angle_max_of_steps (a d : ℚ) (n : Nat) (hn : 1 ≤ n ∧ n ≤ 811)
    (ha : |a| ≤ pow2 14) (hd : |d| ≤ pow2 (-2)) (hd0 : 0 ≤ d) (hfa : float_of a = a) :
    float_of ((((n : Int) - 1 : Int) : ℚ)) = (((n : Int) - 1 : Int) : ℚ) ∧
    |(((n : Int) - 1 : Int) : ℚ) * d| ≤ pow2 8 ∧
    |a + float_of ((((n : Int) - 1 : Int) : ℚ) * d)| ≤ pow2 15 ∧
    |angle_max_of a d n| ≤ pow2 15 ∧ a ≤ angle_max_of a d n := by
  have c14 : pow2 14 = 16384 := by rw [pow2_eq]; norm_num
  have c15 : pow2 15 = 32768 := by rw [pow2_eq]; norm_num
  have c8 : pow2 8 = 256 := by rw [pow2_eq]; norm_num
  have c2 : pow2 (-2) = 1 / 4 := by rw [pow2_eq]; norm_num
  have hz : |(n : Int) - 1| < 2 ^ 24 := by
    rw [abs_lt]
    constructor <;> omega
  have hi := float_of_intCast ((n : Int) - 1) hz
  have hk0 : (0 : ℚ) ≤ (((n : Int) - 1 : Int) : ℚ) := by
    have : (0 : Int) ≤ (n : Int) - 1 := by omega
    exact_mod_cast this
  have hk1 : (((n : Int) - 1 : Int) : ℚ) ≤ 810 := by
    have : (n : Int) - 1 ≤ 810 := by omega
    exact_mod_cast this
  have hp0 : (0 : ℚ) ≤ (((n : Int) - 1 : Int) : ℚ) * d := mul_nonneg hk0 hd0
  have hp : |(((n : Int) - 1 : Int) : ℚ) * d| ≤ pow2 8 := by
    rw [c2, abs_of_nonneg hd0] at hd
    rw [c8, abs_of_nonneg hp0]
    nlinarith
  have hfp := float_of_abs_le _ 8 (by norm_num) hp
  have hfp0 := float_of_nonneg _ hp0
  have hs : |a + float_of ((((n : Int) - 1 : Int) : ℚ) * d)| ≤ pow2 15 := by
    rw [c14] at ha
    rw [c8, abs_of_nonneg hfp0] at hfp
    rw [c15]
    have := abs_le.1 ha
    rw [abs_le]
    constructor <;> linarith
  have hA := float_of_abs_le _ 15 (by norm_num) hs
  refine ⟨hi, hp, hs, ?_, ?_⟩
  · unfold angle_max_of
    rw [hi]
    exact hA
  · unfold angle_max_of
    rw [hi]
    have := float_of_mono a (a + float_of ((((n : Int) - 1 : Int) : ℚ) * d)) (by linarith)
    rwa [hfa] at this

theorem angle_min_of_float (s : Int) : float_of (angle_min_of s) = angle_min_of s :=
  float_of_float_of _

theorem angle_increment_of_float (w : Nat) :
    float_of (angle_increment_of w) = angle_increment_of w :=
  float_of_float_of _

theorem angle_max_of_float (a d : ℚ) (n : Nat) :
    float_of (angle_max_of a d n) = angle_max_of a d n :=
  float_of_float_of _

/-- The geometry of a telegram with at least 25 tokens and a sample count
between 1 and 811: the three angles are finite `float` values, computed as
the source computes them. -/
theorem decode_geometry_ok (self : SickTim5512050001Parser) (fields : List Token) (n : Nat)
    (hlen : 25 ≤ fields.length) (hn : 1 ≤ n ∧ n ≤ 811) :
    ∃ g f23 f24, decode_geometry self fields n = .ok g ∧
      fields[23]? = some f23 ∧ fields[24]? = some f24 ∧
      g.angle_min = .fin (angle_min_of (toInt32 ((sscanf_x f23).getD (2 ^ 32 - 1)))) ∧
      g.angle_increment = .fin (angle_increment_of ((sscanf_hx f24).getD 65535)) ∧
      g.angle_max = .fin (angle_max_of
        (angle_min_of (toInt32 ((sscanf_x f23).getD (2 ^ 32 - 1))))
        (angle_increment_of ((sscanf_hx f24).getD 65535)) n) := by
  have h16 : fields[16]? = some fields[16] := List.getElem?_eq_getElem (by omega)
  have h17 : fields[17]? = some fields[17] := List.getElem?_eq_getElem (by omega)
  have h23 : fields[23]? = some fields[23] := List.getElem?_eq_getElem (by omega)
  have h24 : fields[24]? = some fields[24] := List.getElem?_eq_getElem (by omega)
  have hw : (sscanf_hx fields[24]).getD 65535 < 2 ^ 16 := by
    cases hx : sscanf_hx fields[24] with
    | none => simp
    | some v => simpa using sscanf_hx_lt _ _ hx
  obtain ⟨a1, a2, a3, a4, a5⟩ :=
    angle_min_of_steps _ (toInt32_bounds ((sscanf_x fields[23]).getD (2 ^ 32 - 1)))
  obtain ⟨b1, b2, b3, b4, b5⟩ := angle_increment_of_steps _ hw
  obtain ⟨c1, c2, c3, c4, c5⟩ := angle_max_of_steps _ _ n hn a5 b4 b5 (angle_min_of_float _)
  have eamin : FVal.to_float
      (FVal.dsub
        (FVal.dmul (FVal.ddiv (FVal.ddiv
          (.fin ((toInt32 ((sscanf_x fields[23]).getD (2 ^ 32 - 1)) : Int) : ℚ)) (.fin 10000))
          (.fin 180)) (.fin M_PI))
        (FVal.ddiv (.fin M_PI) (.fin 2)))
      = .fin (angle_min_of (toInt32 ((sscanf_x fields[23]).getD (2 ^ 32 - 1)))) := by
    rw [ddiv_fin _ _ (by norm_num) (le_trans a1 (pow2_le_big 18 (by norm_num)).2),
      ddiv_fin _ _ (by norm_num) (le_trans a2 (pow2_le_big 11 (by norm_num)).2),
      dmul_fin _ _ (le_trans a3 (pow2_le_big 13 (by norm_num)).2),
      ddiv_fin M_PI 2 (by norm_num) (by
        rw [abs_of_pos (by have := M_PI_pos; positivity)]
        have : pow2 1 ≤ pow2 1023 := (pow2_le_pow2 _ _).2 (by norm_num)
        have c : pow2 1 = 2 := by rw [pow2_eq]; norm_num
        rw [c] at this
        have := M_PI_le
        linarith),
      dsub_fin _ _ (le_trans a4 (pow2_le_big 14 (by norm_num)).2),
      to_float_fin _ (le_trans (double_of_abs_le _ 14 (by norm_num) a4)
        (pow2_le_big 14 (by norm_num)).1)]
    rfl
  have eainc : FVal.to_float
      (FVal.dmul (FVal.ddiv (FVal.ddiv
        (.fin (((sscanf_hx fields[24]).getD 65535 : Nat) : ℚ)) (.fin 10000)) (.fin 180))
        (.fin M_PI))
      = .fin (angle_increment_of ((sscanf_hx fields[24]).getD 65535)) := by
    rw [ddiv_fin _ _ (by norm_num) (le_trans b1 (pow2_le_big 3 (by norm_num)).2),
      ddiv_fin _ _ (by norm_num) (le_trans b2 (pow2_le_big (-4) (by norm_num)).2),
      dmul_fin _ _ (le_trans b3 (pow2_le_big (-2) (by norm_num)).2),
      to_float_fin _ (le_trans (double_of_abs_le _ (-2) (by norm_num) b3)
        (pow2_le_big (-2) (by norm_num)).1)]
    rfl
  have hk : |((((n : Int) - 1 : Int) : ℚ))| ≤ pow2 127 := by
    have : |(((n : Int) - 1 : Int) : ℚ)| ≤ pow2 10 := by
      have c : pow2 10 = 1024 := by rw [pow2_eq]; norm_num
      have h1 : (0 : Int) ≤ (n : Int) - 1 := by omega
      have h2 : (n : Int) - 1 ≤ 810 := by omega
      have h1q : (0 : ℚ) ≤ (((n : Int) - 1 : Int) : ℚ) := by exact_mod_cast h1
      have h2q : (((n : Int) - 1 : Int) : ℚ) ≤ 810 := by exact_mod_cast h2
      rw [c, abs_of_nonneg h1q]
      linarith
    exact le_trans this (pow2_le_big 10 (by norm_num)).1
  simp only [decode_geometry, h16, h17, h23, h24]
  refine ⟨_, _, _, rfl, rfl, rfl, eamin, eainc, ?_⟩
  simp only
  rw [eamin, eainc, to_float_fin _ hk,
    fmul_fin _ _ (by rw [c1]; exact le_trans c2 (pow2_le_big 8 (by norm_num)).1),
    fadd_fin _ _ (by rw [c1]; exact le_trans c3 (pow2_le_big 15 (by norm_num)).1)]
  rfl

/-- The first angle loop does not run when `min_ang` is at most `angle_min`. -/
theorem trim_min_stop (a d min_ang : ℚ) (fuel idx : Nat) (hfuel : 1 ≤ fuel)
    (ha : |a| ≤ pow2 15) (hd : |d| ≤ pow2 (-2)) (hd0 : 0 ≤ d) (hfa : float_of a = a)
    (h : min_ang ≤ a) :
    trim_min (.fin d) min_ang fuel (.fin a) idx = some (.fin a, idx) := by
  have c15 : pow2 15 = 32768 := by rw [pow2_eq]; norm_num
  have c2 : pow2 (-2) = 1 / 4 := by rw [pow2_eq]; norm_num
  have hsum : |a + d| ≤ pow2 16 := by
    have c16 : pow2 16 = 65536 := by rw [pow2_eq]; norm_num
    rw [c15] at ha
    rw [c2] at hd
    rw [c16]
    have := abs_le.1 ha
    have := abs_le.1 hd
    rw [abs_le]
    constructor <;> linarith
  have hge : a ≤ float_of (a + d) := by
    have := float_of_mono a (a + d) (by linarith)
    rwa [hfa] at this
  cases fuel with
  | zero => omega
  | succ f =>
    simp only [trim_min]
    rw [fadd_fin _ _ (le_trans hsum (pow2_le_big 16 (by norm_num)).1)]
    have : FVal.lt (.fin (float_of (a + d))) (.fin min_ang) = false := by
      simp only [FVal.lt, FVal.gt, decide_eq_false_iff_not, not_lt]
      linarith
    rw [this]
    simp

/-- The second angle loop does not run when `max_ang` is at least `angle_max`. -/
theorem trim_max_stop (a d max_ang : ℚ) (fuel : Nat) (idx : Int) (hfuel : 1 ≤ fuel)
    (ha : |a| ≤ pow2 15) (hd : |d| ≤ pow2 (-2)) (hd0 : 0 ≤ d) (hfa : float_of a = a)
    (h : a ≤ max_ang) :
    trim_max (.fin d) max_ang fuel (.fin a) idx = some (.fin a, idx) := by
  have c15 : pow2 15 = 32768 := by rw [pow2_eq]; norm_num
  have c2 : pow2 (-2) = 1 / 4 := by rw [pow2_eq]; norm_num
  have hsum : |a - d| ≤ pow2 16 := by
    have c16 : pow2 16 = 65536 := by rw [pow2_eq]; norm_num
    rw [c15] at ha
    rw [c2] at hd
    rw [c16]
    have := abs_le.1 ha
    have := abs_le.1 hd
    rw [abs_le]
    constructor <;> linarith
  have hle : float_of (a - d) ≤ a := by
    have := float_of_mono (a - d) a (by linarith)
    rwa [hfa] at this
  cases fuel with
  | zero => omega
  | succ f =>
    simp only [trim_max]
    rw [fsub_fin _ _ (le_trans hsum (pow2_le_big 16 (by norm_num)).1)]
    have : FVal.gt (.fin (float_of (a - d))) (.fin max_ang) = false := by
      simp only [FVal.gt, decide_eq_false_iff_not, not_lt]
      linarith
    rw [this]
    simp

/-! ## A window that holds every sample -/

theorem write_intensities_no_rssi (fields : List Token) (stack : Nat → Nat) (intensity : Bool)
    (number_of_data n index_min : Nat) (old : List FVal) :
    write_intensities fields stack intensity false number_of_data n index_min old
      = .ok (old, if intensity then [.intensityWithoutRssi] else []) := by
  unfold write_intensities
  cases intensity <;> simp

/-- A call on tokens that pass the checks without RSSI block succeeds with the
whole sample block when the angle window holds the decoded angles. -/
theorem read_scan_full_window (self : SickTim5512050001Parser) (fuel : Nat)
    (fields : List Token) (config : SickTimConfig) (now : ℚ) (stack : Nat → Nat)
    (msg : LaserScan) (n : Nat) (w : List Warning) (f23 f24 : Token) (ranges : List FVal)
    (hn : 1 ≤ n ∧ n ≤ 811) (hfuel : 1 ≤ fuel) (hlen : 25 ≤ fields.length)
    (h23 : fields[23]? = some f23) (h24 : fields[24]? = some f24)
    (hmin : config.min_ang ≤ angle_min_of (toInt32 ((sscanf_x f23).getD (2 ^ 32 - 1))))
    (hmax : angle_max_of (angle_min_of (toInt32 ((sscanf_x f23).getD (2 ^ 32 - 1))))
      (angle_increment_of ((sscanf_hx f24).getD 65535)) n ≤ config.max_ang)
    (hr : read_ranges fields stack n 0 = .ok ranges) :
    ∃ m t, read_scan self fuel fields config now stack msg n false w = .ok (m, t) ∧
      t.number_of_data = n ∧ t.index_min = 0 ∧ t.index_max = (n : Int) - 1 ∧
      m.ranges = ranges ∧
      m.angle_min = .fin (angle_min_of (toInt32 ((sscanf_x f23).getD (2 ^ 32 - 1)))) ∧
      m.angle_increment = .fin (angle_increment_of ((sscanf_hx f24).getD 65535)) ∧
      m.angle_max = .fin (angle_max_of (angle_min_of (toInt32 ((sscanf_x f23).getD (2 ^ 32 - 1))))
        (angle_increment_of ((sscanf_hx f24).getD 65535)) n) := by
  obtain ⟨g, g23, g24, hg, hg23, hg24, hamin, hainc, hamax⟩ :=
    decode_geometry_ok self fields n hlen hn
  rw [h23] at hg23
  rw [h24] at hg24
  injection hg23 with hg23
  injection hg24 with hg24
  subst hg23 hg24
  have hw : (sscanf_hx f24).getD 65535 < 2 ^ 16 := by
    cases hx : sscanf_hx f24 with
    | none => simp
    | some v => simpa using sscanf_hx_lt _ _ hx
  obtain ⟨-, -, -, -, a5⟩ :=
    angle_min_of_steps _ (toInt32_bounds ((sscanf_x f23).getD (2 ^ 32 - 1)))
  obtain ⟨-, -, -, b4, b5⟩ := angle_increment_of_steps _ hw
  obtain ⟨-, -, -, c4, -⟩ := angle_max_of_steps _ _ n hn a5 b4 b5 (angle_min_of_float _)
  have hlo := trim_min_stop _ _ config.min_ang fuel 0 hfuel
    (le_trans a5 ((pow2_le_pow2 _ _).2 (by norm_num))) b4 b5 (angle_min_of_float _) hmin
  have hhi := trim_max_stop _ _ config.max_ang fuel ((n : Int) - 1) hfuel c4 b4 b5
    (angle_max_of_float _ _ _) hmax
  have hsz : ((n : Int) - 1 - ((0 : Nat) : Int) + 1).toNat = n := by simp
  simp only [read_scan, hg, hamin, hainc, hamax, hlo, hhi, hsz, hr, write_intensities_no_rssi]
  rw [if_neg (by simp)]
  exact ⟨_, _, rfl, rfl, rfl, rfl, rfl, rfl, rfl, rfl⟩


/-! ## Round trip -/

theorem read_ranges_of_values (fields : List Token) (stack : Nat → Nat) (vals : List Nat) :
    ∀ j, (∀ k (hk : k < vals.length), ∃ tok, fields[j + k + 26]? = some tok ∧
        sscanf_hx tok = some vals[k]) →
      read_ranges fields stack vals.length j = .ok (vals.map range_value) := by
  induction vals with
  | nil => intro j _; rfl
  | cons v vs ih =>
    intro j h
    obtain ⟨tok, h1, h2⟩ := h 0 (by simp)
    have hrest := ih (j + 1) (fun k hk => by
      obtain ⟨tok', h1', h2'⟩ := h (k + 1) (by simp; omega)
      refine ⟨tok', ?_, by simpa using h2'⟩
      rw [← h1']; congr 1; omega)
    simp only [List.length_cons, read_ranges, HEADER_FIELDS]
    simp only [Nat.add_zero] at h1
    simp only [List.getElem_cons_zero] at h2
    simp only [h1, h2, hrest, List.map_cons, Option.getD_some]

theorem build_fields_length (pre : List Token) (start : Int) (step : Nat) (samples : List Nat)
    (trailer : List Token) :
    (build_fields pre start step samples trailer).length
      = pre.length + 3 + samples.length + 1 + trailer.length := by
  simp [build_fields]
  omega

theorem build_fields_pre (pre : List Token) (start : Int) (step : Nat) (samples : List Nat)
    (trailer : List Token) (i : Nat) (hi : i < pre.length) :
    (build_fields pre start step samples trailer)[i]? = pre[i]? := by
  simp only [build_fields, List.append_assoc]
  exact List.getElem?_append_left hi

theorem build_fields_header (pre : List Token) (start : Int) (step : Nat) (samples : List Nat)
    (trailer : List Token) (hpre : pre.length = 23) :
    (build_fields pre start step samples trailer)[23]? = some (hex_token (start % 2 ^ 32).toNat) ∧
    (build_fields pre start step samples trailer)[24]? = some (hex_token step) ∧
    (build_fields pre start step samples trailer)[25]? = some (hex_token samples.length) := by
  simp only [build_fields, List.append_assoc]
  refine ⟨?_, ?_, ?_⟩ <;>
  · rw [List.getElem?_append_right (by omega)]
    simp [hpre]

theorem build_fields_sample (pre : List Token) (start : Int) (step : Nat) (samples : List Nat)
    (trailer : List Token) (hpre : pre.length = 23) (k : Nat) (hk : k < samples.length) :
    (build_fields pre start step samples trailer)[k + 26]? = some (hex_token samples[k]) := by
  simp only [build_fields, List.append_assoc]
  rw [List.getElem?_append_right (by omega)]
  rw [List.getElem?_append_right (by simp; omega)]
  rw [List.getElem?_append_left (by simp; omega)]
  simp only [hpre, List.length_cons, List.length_nil]
  rw [List.getElem?_map]
  have : k + 26 - 23 - (0 + 1 + 1 + 1) = k := by omega
  rw [this, List.getElem?_eq_getElem hk]
  rfl

theorem build_fields_flag (pre : List Token) (start : Int) (step : Nat) (samples : List Nat)
    (trailer : List Token) (hpre : pre.length = 23) :
    (build_fields pre start step samples trailer)[26 + samples.length]? = some ['0'] := by
  simp only [build_fields, List.append_assoc]
  rw [List.getElem?_append_right (by omega)]
  rw [List.getElem?_append_right (by simp; omega)]
  rw [List.getElem?_append_right (by simp; omega)]
  have : 26 + samples.length - pre.length
      - [hex_token (start % 2 ^ 32).toNat, hex_token step, hex_token samples.length].length
      - (List.map hex_token samples).length = 0 := by
    simp; omega
  rw [this]
  simp

theorem build_fields_is_token (pre : List Token) (start : Int) (step : Nat) (samples : List Nat)
    (trailer : List Token) (h : ∀ t ∈ pre ++ trailer, is_token t = true) :
    ∀ t ∈ build_fields pre start step samples trailer, is_token t = true := by
  intro t ht
  simp only [build_fields, List.mem_append, List.mem_cons, List.mem_map,
    List.mem_singleton, List.not_mem_nil, or_false] at ht
  rcases ht with (((ht | ht | ht | ht) | ⟨v, -, rfl⟩) | rfl) | ht
  · exact h t (by simp [ht])
  · rw [ht]; exact is_token_hex_token _
  · rw [ht]; exact is_token_hex_token _
  · rw [ht]; exact is_token_hex_token _
  · exact is_token_hex_token _
  · decide
  · exact h t (by simp [ht])


theorem build_fields_four_samples :
    build_fields sample_pre (-450000) 10000 [500, 0, 1000, 1] sample_trailer
      = four_sample_tokens := by
  have h1 : ((-450000 : Int) % 2 ^ 32).toNat = 4294517296 := by decide
  have h2 : hex_token 4294517296 = ['F', 'F', 'F', '9', '2', '2', '3', '0'] := by
    simp [hex_token, hexChar]
  have h3 : hex_token 10000 = ['2', '7', '1', '0'] := by simp [hex_token, hexChar]
  have h4 : hex_token 500 = ['1', 'F', '4'] := by simp [hex_token, hexChar]
  have h5 : hex_token 1000 = ['3', 'E', '8'] := by simp [hex_token, hexChar]
  have h6 : hex_token 4 = ['4'] := by simp [hex_token, hexChar]
  have h7 : hex_token 0 = ['0'] := by simp [hex_token]
  have h8 : hex_token 1 = ['1'] := by simp [hex_token, hexChar]
  simp only [build_fields, h1, h2, h3, h4, h5, h6, h7, h8, List.map_cons, List.map_nil,
    List.length_cons, List.length_nil]
  decide

/-- C5, as stated, fails: the telegram built from the start angle -450000,
the step 10000 and the samples 500, 0, 1000 and 1, parsed with the window
from -3 to 3, succeeds with `index_min = 0` and `index_max = 3`, but the range
of the sample 1 is the `float` `0x3a83126f`, not `1 / 1000`, and `angle_min`
is the `float` `0xc016cbe4`, not the value `(-450000 / 10000) / 180 * M_PI -
M_PI / 2` of the formula. -/
theorem round_trip_is_not_exact :
    (parse_datagram SickTim5512050001Parser.new 1
        (telegram_of (build_fields sample_pre (-450000) 10000 [500, 0, 1000, 1] sample_trailer))
        sample_config 1000 zero_stack empty_scan).scan.map
          (fun m => (m.ranges, m.angle_min))
      = some ([.fin (1 / 2), .pinf, .fin 1, .fin (8589935 / 8589934592)],
          .fin (-2470649 / 1048576)) ∧
    (8589935 / 8589934592 : ℚ) ≠ ((1 : Nat) : ℚ) / 1000 ∧
    (-2470649 / 1048576 : ℚ) ≠ (((-450000 : Int) : ℚ) / 10000) / 180 * M_PI - M_PI / 2 := by
  rw [build_fields_four_samples, parse_datagram, tokenize_telegram_of _ (by decide)]
  exact ⟨by decide!, by norm_num, by unfold M_PI; norm_num⟩

/-- C5, amended: round trip.  For a start angle of 32 bits, a step of 16 bits
and between 1 and 811 samples of 16 bits, the telegram built from them (token
15 "0", token 20 "DIST1", tokens 23, 24, 25 and the samples in hexadecimal,
RSSI flag "0", a trailer of at least 5 tokens), parsed with `min_ang` at most
the decoded `angle_min` and `max_ang` at least the decoded `angle_max`,
succeeds with `index_min = 0`, `index_max = N - 1`, the `N` ranges of the
samples and the three angles, each the `float` that the source computes from
the constructed values: a range is infinity for 0 and otherwise the `double`
quotient by 1000 converted to `float`, within one part in `2 ^ 23` of the
sample divided by 1000. -/
theorem round_trip (self : SickTim5512050001Parser) (fuel : Nat) (config : SickTimConfig)
    (now : ℚ) (stack : Nat → Nat) (msg : LaserScan) (pre trailer : List Token) (start : Int)
    (step : Nat) (samples : List Nat)
    (hpre : pre.length = 23) (h15 : pre[15]? = some ['0'])
    (h20 : pre[20]? = some ['D', 'I', 'S', 'T', '1'])
    (htok : ∀ t ∈ pre ++ trailer, is_token t = true)
    (hN : 1 ≤ samples.length ∧ samples.length ≤ 811)
    (hs : ∀ v ∈ samples, v < 2 ^ 16)
    (hstart : -2 ^ 31 ≤ start ∧ start < 2 ^ 31) (hstep : step < 2 ^ 16)
    (htr : 5 ≤ trailer.length) (hfuel : 1 ≤ fuel)
    (hmin : config.min_ang ≤ angle_min_of start)
    (hmax : angle_max_of (angle_min_of start) (angle_increment_of step) samples.length
      ≤ config.max_ang) :
    ∃ m t, parse_datagram self fuel (telegram_of (build_fields pre start step samples trailer))
        config now stack msg = .ExitSuccess m t ∧
      t.index_min = 0 ∧ t.index_max = (samples.length : Int) - 1 ∧
      m.ranges.length = samples.length ∧
      m.ranges = samples.map range_value ∧
      m.angle_min = .fin (angle_min_of start) ∧
      m.angle_increment = .fin (angle_increment_of step) ∧
      m.angle_max
        = .fin (angle_max_of (angle_min_of start) (angle_increment_of step) samples.length) ∧
      ∀ v ∈ samples, (v = 0 → range_value v = .pinf) ∧
        (v ≠ 0 → range_value v = .fin (float_of (double_of ((v : ℚ) / 1000))) ∧
          |float_of (double_of ((v : ℚ) / 1000)) - (v : ℚ) / 1000|
            ≤ (v : ℚ) / 1000 / 2 ^ 23) := by
  have hlen := build_fields_length pre start step samples trailer
  obtain ⟨h23, h24, h25⟩ := build_fields_header pre start step samples trailer hpre
  have hflag := build_fields_flag pre start step samples trailer hpre
  have hN25 : (sscanf_hx (hex_token samples.length)).getD 0 = samples.length := by
    rw [sscanf_hx_hex_token _ (by omega)]; rfl
  -- the checks
  have hcheck : check_telegram (build_fields pre start step samples trailer) stack
      = .ok samples.length false [] := by
    rw [check_telegram_header _ _ (by omega)
      (by rw [build_fields_pre _ _ _ _ _ 15 (by omega)]; exact h15)
      (by rw [build_fields_pre _ _ _ _ _ 20 (by omega)]; exact h20),
      check_lengths_eq _ _ _ h25, hN25, if_neg (by omega), if_neg (by omega),
      check_rssi_eq _ _ _ ['0'] 0 hflag (by decide), if_neg (by decide)]
  -- the geometry
  have hmod : (start % 2 ^ 32).toNat < 2 ^ 32 := by
    have h1 : 0 ≤ start % 2 ^ 32 := Int.emod_nonneg _ (by norm_num)
    have h2 : start % 2 ^ 32 < 2 ^ 32 := Int.emod_lt_of_pos _ (by norm_num)
    omega
  have e23 : toInt32 ((sscanf_x (hex_token (start % 2 ^ 32).toNat)).getD (2 ^ 32 - 1))
      = start := by
    rw [sscanf_x_hex_token _ hmod, Option.getD_some, toInt32_of_int _ hstart]
  have e24 : (sscanf_hx (hex_token step)).getD 65535 = step := by
    rw [sscanf_hx_hex_token _ hstep, Option.getD_some]
  -- the samples
  have hranges : read_ranges (build_fields pre start step samples trailer) stack
      samples.length 0 = .ok (samples.map range_value) := by
    apply read_ranges_of_values
    intro k hk
    refine ⟨hex_token samples[k], ?_, sscanf_hx_hex_token _ (hs _ (List.getElem_mem _))⟩
    rw [Nat.zero_add]
    exact build_fields_sample pre start step samples trailer hpre k hk
  obtain ⟨m, t, hrs, -, htmin, htmax, hmr, hma, hmi, hmx⟩ :=
    read_scan_full_window self fuel _ config now stack msg samples.length [] _ _
      (samples.map range_value) hN hfuel (by omega) h23 h24
      (by rw [e23]; exact hmin) (by rw [e23, e24]; exact hmax) hranges
  rw [e23] at hma hmx
  rw [e24] at hmi hmx
  refine ⟨m, t, ?_, htmin, htmax, by rw [hmr]; simp, hmr, hma, hmi, hmx, fun v hv => ?_⟩
  · rw [parse_datagram_eq_ExitSuccess,
      tokenize_telegram_of _ (build_fields_is_token pre start step samples trailer htok)]
    exact ⟨_, _, _, hcheck, hrs⟩
  · refine ⟨fun h0 => by rw [h0]; rfl, fun h0 => ?_⟩
    exact range_value_pos v (by omega) (hs v hv)

/-- C5, amended, at the start angle -450000, the step 10000 and the samples
500, 0 and 1000 in the header and trailer of the sample telegram. -/
theorem round_trip_witness :
    (sample_pre.length = 23 ∧ sample_pre[15]? = some ['0'] ∧
      sample_pre[20]? = some ['D', 'I', 'S', 'T', '1'] ∧
      (∀ t ∈ sample_pre ++ sample_trailer, is_token t = true) ∧
      (1 ≤ [500, 0, 1000].length ∧ [500, 0, 1000].length ≤ 811) ∧
      (∀ v ∈ [500, 0, 1000], v < 2 ^ 16) ∧
      (-2 ^ 31 ≤ (-450000 : Int) ∧ (-450000 : Int) < 2 ^ 31) ∧ 10000 < 2 ^ 16 ∧
      5 ≤ sample_trailer.length ∧ 1 ≤ 1 ∧
      sample_config.min_ang ≤ angle_min_of (-450000) ∧
      angle_max_of (angle_min_of (-450000)) (angle_increment_of 10000)
        ([500, 0, 1000] : List Nat).length ≤ sample_config.max_ang) ∧
    ∃ m t, parse_datagram SickTim5512050001Parser.new 1
        (telegram_of (build_fields sample_pre (-450000) 10000 [500, 0, 1000] sample_trailer))
        sample_config 1000 zero_stack empty_scan = .ExitSuccess m t ∧
      t.index_min = 0 ∧ t.index_max = (([500, 0, 1000] : List Nat).length : Int) - 1 ∧
      m.ranges.length = ([500, 0, 1000] : List Nat).length ∧
      m.ranges = ([500, 0, 1000] : List Nat).map range_value ∧
      m.angle_min = .fin (angle_min_of (-450000)) ∧
      m.angle_increment = .fin (angle_increment_of 10000) ∧
      m.angle_max = .fin (angle_max_of (angle_min_of (-450000)) (angle_increment_of 10000)
        ([500, 0, 1000] : List Nat).length) ∧
      ∀ v ∈ ([500, 0, 1000] : List Nat), (v = 0 → range_value v = .pinf) ∧
        (v ≠ 0 → range_value v = .fin (float_of (double_of ((v : ℚ) / 1000))) ∧
          |float_of (double_of ((v : ℚ) / 1000)) - (v : ℚ) / 1000|
            ≤ (v : ℚ) / 1000 / 2 ^ 23) :=
  ⟨⟨by decide, by decide, by decide, by decide, by decide, by decide, by decide, by decide,
      by decide, by decide, by decide!, by decide!⟩,
    round_trip SickTim5512050001Parser.new 1 sample_config 1000 zero_stack empty_scan sample_pre
      sample_trailer (-450000) 10000 [500, 0, 1000] (by decide) (by decide) (by decide)
      (by decide) (by decide) (by decide) (by decide) (by decide) (by decide) (by decide)
      (by decide!) (by decide!)⟩

/-! ## An angle window without samples -/

theorem trim_min_fuel_mono (inc : FVal) (min_ang : ℚ) :
    ∀ (fuel : Nat) (a : FVal) (i : Nat) (r : FVal × Nat),
      trim_min inc min_ang fuel a i = some r →
      ∀ k, trim_min inc min_ang (fuel + k) a i = some r := by
  intro fuel
  induction fuel with
  | zero => intro a i r h; simp [trim_min] at h
  | succ f ih =>
    intro a i r h k
    rw [show f + 1 + k = (f + k) + 1 by omega]
    simp only [trim_min] at h ⊢
    split
    · rename_i hc
      rw [if_pos hc] at h
      exact ih _ _ _ h k
    · rename_i hc
      rw [if_neg hc] at h
      exact h

theorem trim_max_fuel_mono (inc : FVal) (max_ang : ℚ) :
    ∀ (fuel : Nat) (a : FVal) (i : Int) (r : FVal × Int),
      trim_max inc max_ang fuel a i = some r →
      ∀ k, trim_max inc max_ang (fuel + k) a i = some r := by
  intro fuel
  induction fuel with
  | zero => intro a i r h; simp [trim_max] at h
  | succ f ih =>
    intro a i r h k
    rw [show f + 1 + k = (f + k) + 1 by omega]
    simp only [trim_max] at h ⊢
    split
    · rename_i hc
      rw [if_pos hc] at h
      exact ih _ _ _ h k
    · rename_i hc
      rw [if_neg hc] at h
      exact h

/-- More fuel does not change a result that is not `outOfFuel`. -/
theorem read_scan_fuel_mono (self : SickTim5512050001Parser) (fuel : Nat) (fields : List Token)
    (config : SickTimConfig) (now : ℚ) (stack : Nat → Nat) (msg : LaserScan)
    (n : Nat) (rssi : Bool) (w : List Warning) (k : Nat)
    (h : read_scan self fuel fields config now stack msg n rssi w ≠ .error .outOfFuel) :
    read_scan self (fuel + k) fields config now stack msg n rssi w
      = read_scan self fuel fields config now stack msg n rssi w := by
  unfold read_scan at h ⊢
  cases hg : decode_geometry self fields n with
  | error f => rfl
  | ok g =>
    simp only [hg] at h ⊢
    cases hlo : trim_min g.angle_increment config.min_ang fuel g.angle_min 0 with
    | none => simp [hlo] at h
    | some lo =>
      simp only [hlo] at h ⊢
      rw [trim_min_fuel_mono _ _ _ _ _ _ hlo k]
      cases hhi : trim_max g.angle_increment config.max_ang fuel g.angle_max ((n : Int) - 1) with
      | none => simp [hhi] at h
      | some hi =>
        rw [trim_max_fuel_mono _ _ _ _ _ _ hhi k]

/-- More fuel does not change a result of `parse_datagram` that is not `outOfFuel`. -/
theorem parse_datagram_fuel_mono (self : SickTim5512050001Parser) (fuel : Nat)
    (datagram : List Char) (config : SickTimConfig) (now : ℚ) (stack : Nat → Nat)
    (msg : LaserScan) (k : Nat)
    (h : parse_datagram self fuel datagram config now stack msg ≠ .fault .outOfFuel) :
    parse_datagram self (fuel + k) datagram config now stack msg
      = parse_datagram self fuel datagram config now stack msg := by
  unfold parse_datagram parse_fields at h ⊢
  split
  · rfl
  · rfl
  · rename_i n rssi w hc
    rw [hc] at h
    simp only at h
    rw [read_scan_fuel_mono]
    intro he
    rw [he] at h
    exact h rfl

/-- C6, the code at the failing input: the sample telegram (three samples at
about -2.356, -2.339 and -2.321 rad) parsed with `min_ang = -2.25`.  The first
loop runs six times and stops at `index_min = 6`, `index_max` stays 2, and
`resize` is called with `2 - 6 + 1 = -3`: the call does not return, it throws
`std::length_error`, for every fuel that lets the loop finish. -/
theorem window_without_samples_throws (fuel : Nat) :
    parse_datagram SickTim5512050001Parser.new fuel (telegram_of sample_tokens)
      excluding_config 1000 zero_stack empty_scan
      = if fuel < 7 then .fault .outOfFuel else .fault .lengthError := by
  have h7 : parse_datagram SickTim5512050001Parser.new 7 (telegram_of sample_tokens)
      excluding_config 1000 zero_stack empty_scan = .fault .lengthError := by
    rw [parse_datagram, tokenize_sample_tokens]
    decide!
  by_cases hf : fuel < 7
  · rw [if_pos hf, parse_datagram, tokenize_sample_tokens]
    interval_cases fuel <;> decide!
  · rw [if_neg hf]
    obtain ⟨k, rfl⟩ : ∃ k, fuel = 7 + k := ⟨fuel - 7, by omega⟩
    rw [parse_datagram_fuel_mono _ _ _ _ _ _ _ _ (by rw [h7]; decide), h7]

/-! ## The smallest telegram -/

theorem tokenize_one_sample_tokens_32 :
    tokenize (telegram_of one_sample_tokens_32) = one_sample_tokens_32 :=
  tokenize_telegram_of _ (by decide)

theorem tokenize_one_sample_tokens_33 :
    tokenize (telegram_of one_sample_tokens_33) = one_sample_tokens_33 :=
  tokenize_telegram_of _ (by decide)

/-- C7, as stated, fails: a telegram of exactly 32 tokens with token 15 = "0",
token 20 = "DIST1", token 25 = "1" (one sample), hexadecimal header fields, a
hexadecimal sample and the RSSI flag "0" is rejected with `TruncatedTelegram`. -/
theorem telegram_of_32_tokens_rejected :
    (tokenize (telegram_of one_sample_tokens_32)).length = 32 ∧
    (tokenize (telegram_of one_sample_tokens_32))[15]? = some ['0'] ∧
    (tokenize (telegram_of one_sample_tokens_32))[20]? = some ['D', 'I', 'S', 'T', '1'] ∧
    (tokenize (telegram_of one_sample_tokens_32))[25]? = some ['1'] ∧
    sscanf_hx ['1'] = some 1 ∧
    (tokenize (telegram_of one_sample_tokens_32))[26]? = some ['1', 'F', '4'] ∧
    (tokenize (telegram_of one_sample_tokens_32))[27]? = some ['0'] ∧
    parse_datagram SickTim5512050001Parser.new 1 (telegram_of one_sample_tokens_32)
      sample_config 1000 zero_stack empty_scan = .ExitError .TruncatedTelegram empty_scan := by
  rw [parse_datagram, tokenize_one_sample_tokens_32]
  decide

/-- With one sample `angle_max` is `angle_min`. -/
theorem angle_max_of_one (a d : ℚ) (ha : float_of a = a) : angle_max_of a d 1 = a := by
  unfold angle_max_of
  have h0 : ((((1 : Nat) : Int) - 1 : Int) : ℚ) = 0 := by norm_num
  have f0 : float_of 0 = 0 := round_raw_zero _ _
  rw [h0, f0, zero_mul, f0, add_zero, ha]

/-- C7, amended: a telegram of exactly 33 tokens with token 15 = "0", token
20 = "DIST1", token 25 declaring one sample, a sample token, the RSSI flag "0"
and five more tokens, parsed with an angle window that holds the decoded
angle (the `float` `angle_min`), is parsed successfully and gives the one
range, of the value that `sscanf` reads from the sample token (of what the
stack holds, if it reads none).  33 is the smallest token count that can
succeed: no call on fewer tokens succeeds, and every telegram of 32 tokens
that passes header validation and declares one sample is rejected with
`TruncatedTelegram`. -/
theorem telegram_of_33_tokens_parsed (self : SickTim5512050001Parser) (fuel : Nat)
    (datagram : List Char) (config : SickTimConfig) (now : ℚ) (stack : Nat → Nat)
    (msg : LaserScan) (f23 f24 f25 f26 : Token)
    (hlen : (tokenize datagram).length = 33)
    (h15 : (tokenize datagram)[15]? = some ['0'])
    (h20 : (tokenize datagram)[20]? = some ['D', 'I', 'S', 'T', '1'])
    (h23 : (tokenize datagram)[23]? = some f23) (h24 : (tokenize datagram)[24]? = some f24)
    (h25 : (tokenize datagram)[25]? = some f25) (hN : sscanf_hx f25 = some 1)
    (h26 : (tokenize datagram)[26]? = some f26)
    (h27 : (tokenize datagram)[27]? = some ['0'])
    (hfuel : 1 ≤ fuel)
    (hmin : config.min_ang ≤ angle_min_of (toInt32 ((sscanf_x f23).getD (2 ^ 32 - 1))))
    (hmax : angle_min_of (toInt32 ((sscanf_x f23).getD (2 ^ 32 - 1))) ≤ config.max_ang) :
    (∃ m t, parse_datagram self fuel datagram config now stack msg = .ExitSuccess m t ∧
      t.number_of_data = 1 ∧
      m.ranges = [range_value ((sscanf_hx f26).getD (stack 26 % 2 ^ 16))] ∧
      m.angle_min = .fin (angle_min_of (toInt32 ((sscanf_x f23).getD (2 ^ 32 - 1)))) ∧
      m.angle_max = m.angle_min) ∧
    (∀ (self2 : SickTim5512050001Parser) (fuel2 : Nat) (datagram2 : List Char)
      (config2 : SickTimConfig) (now2 : ℚ) (stack2 : Nat → Nat) (msg2 m2 : LaserScan)
      (t2 : Trace),
      parse_datagram self2 fuel2 datagram2 config2 now2 stack2 msg2 = .ExitSuccess m2 t2 →
      33 ≤ (tokenize datagram2).length) ∧
    (∀ (self2 : SickTim5512050001Parser) (fuel2 : Nat) (datagram2 : List Char)
      (config2 : SickTimConfig) (now2 : ℚ) (stack2 : Nat → Nat) (msg2 : LaserScan)
      (g25 : Token),
      (tokenize datagram2).length = 32 →
      (tokenize datagram2)[15]? = some ['0'] →
      (tokenize datagram2)[20]? = some ['D', 'I', 'S', 'T', '1'] →
      (tokenize datagram2)[25]? = some g25 → sscanf_hx g25 = some 1 →
      parse_datagram self2 fuel2 datagram2 config2 now2 stack2 msg2
        = .ExitError .TruncatedTelegram msg2) := by
  refine ⟨?_, ?_, ?_⟩
  · have hcheck : check_telegram (tokenize datagram) stack = .ok 1 false [] := by
      rw [check_telegram_header _ _ (by omega) h15 h20, check_lengths_eq _ _ _ h25, hN,
        Option.getD_some, if_neg (by omega), if_neg (by omega),
        check_rssi_eq _ _ _ ['0'] 0 h27 (by decide), if_neg (by decide)]
    have hranges : read_ranges (tokenize datagram) stack 1 0
        = .ok [range_value ((sscanf_hx f26).getD (stack 26 % 2 ^ 16))] := by
      simp only [read_ranges, HEADER_FIELDS, Nat.zero_add, h26]
    have hone := angle_max_of_one (angle_min_of (toInt32 ((sscanf_x f23).getD (2 ^ 32 - 1))))
      (angle_increment_of ((sscanf_hx f24).getD 65535)) (angle_min_of_float _)
    obtain ⟨m, t, hrs, htn, -, -, hmr, hma, -, hmx⟩ :=
      read_scan_full_window self fuel _ config now stack msg 1 [] f23 f24
        [range_value ((sscanf_hx f26).getD (stack 26 % 2 ^ 16))] (by omega) hfuel (by omega) h23 h24 hmin (by rw [hone]; exact hmax) hranges
    refine ⟨m, t, (parse_datagram_eq_ExitSuccess _ _ _ _ _ _ _ _ _).2 ⟨_, _, _, hcheck, hrs⟩,
      htn, hmr, hma, ?_⟩
    rw [hmx, hone, hma]
  · intro self2 fuel2 datagram2 config2 now2 stack2 msg2 m2 t2 h
    rw [parse_datagram_eq_ExitSuccess] at h
    obtain ⟨n, rssi, w, hn, -⟩ := h
    obtain ⟨-, -, -, hl⟩ := check_telegram_ok _ _ _ _ _ hn
    obtain ⟨-, -, -, h1, -, h2, -⟩ := check_lengths_ok _ _ _ _ _ hl
    omega
  · intro self2 fuel2 datagram2 config2 now2 stack2 msg2 g25 hlen2 h15' h20' h25' hN'
    rw [parse_datagram_eq_ExitError, check_telegram_header _ _ (by omega) h15' h20',
      check_lengths_eq _ _ _ h25', hN', Option.getD_some, if_neg (by omega), if_pos (by omega)]
    exact ⟨rfl, rfl⟩

/-- C7, amended, at the sample telegram cut to one sample and 33 tokens. -/
theorem telegram_of_33_tokens_parsed_witness :
    ((tokenize (telegram_of one_sample_tokens_33)).length = 33 ∧
      (tokenize (telegram_of one_sample_tokens_33))[15]? = some ['0'] ∧
      (tokenize (telegram_of one_sample_tokens_33))[20]? = some ['D', 'I', 'S', 'T', '1'] ∧
      (tokenize (telegram_of one_sample_tokens_33))[23]?
        = some ['F', 'F', 'F', '9', '2', '2', '3', '0'] ∧
      (tokenize (telegram_of one_sample_tokens_33))[24]? = some ['2', '7', '1', '0'] ∧
      (tokenize (telegram_of one_sample_tokens_33))[25]? = some ['1'] ∧
      sscanf_hx ['1'] = some 1 ∧
      (tokenize (telegram_of one_sample_tokens_33))[26]? = some ['1', 'F', '4'] ∧
      (tokenize (telegram_of one_sample_tokens_33))[27]? = some ['0'] ∧ 1 ≤ 1 ∧
      sample_config.min_ang ≤ angle_min_of (toInt32
        ((sscanf_x ['F', 'F', 'F', '9', '2', '2', '3', '0']).getD (2 ^ 32 - 1))) ∧
      angle_min_of (toInt32
        ((sscanf_x ['F', 'F', 'F', '9', '2', '2', '3', '0']).getD (2 ^ 32 - 1)))
          ≤ sample_config.max_ang) ∧
    ∃ m t, parse_datagram SickTim5512050001Parser.new 1 (telegram_of one_sample_tokens_33)
        sample_config 1000 zero_stack empty_scan = .ExitSuccess m t ∧
      t.number_of_data = 1 ∧
      m.ranges = [range_value ((sscanf_hx ['1', 'F', '4']).getD (zero_stack 26 % 2 ^ 16))] ∧
      m.angle_min = .fin (angle_min_of (toInt32
        ((sscanf_x ['F', 'F', 'F', '9', '2', '2', '3', '0']).getD (2 ^ 32 - 1)))) ∧
      m.angle_max = m.angle_min :=
  ⟨⟨by rw [tokenize_one_sample_tokens_33]; decide,
      by rw [tokenize_one_sample_tokens_33]; decide,
      by rw [tokenize_one_sample_tokens_33]; decide,
      by rw [tokenize_one_sample_tokens_33]; decide,
      by rw [tokenize_one_sample_tokens_33]; decide,
      by rw [tokenize_one_sample_tokens_33]; decide, by decide,
      by rw [tokenize_one_sample_tokens_33]; decide,
      by rw [tokenize_one_sample_tokens_33]; decide, by decide,
      by decide!, by decide!⟩,
    (telegram_of_33_tokens_parsed SickTim5512050001Parser.new 1
      (telegram_of one_sample_tokens_33) sample_config 1000 zero_stack empty_scan
      ['F', 'F', 'F', '9', '2', '2', '3', '0'] ['2', '7', '1', '0']
      ['1'] ['1', 'F', '4']
      (by rw [tokenize_one_sample_tokens_33]; decide)
      (by rw [tokenize_one_sample_tokens_33]; decide)
      (by rw [tokenize_one_sample_tokens_33]; decide)
      (by rw [tokenize_one_sample_tokens_33]; decide)
      (by rw [tokenize_one_sample_tokens_33]; decide)
      (by rw [tokenize_one_sample_tokens_33]; decide) (by decide)
      (by rw [tokenize_one_sample_tokens_33]; decide)
      (by rw [tokenize_one_sample_tokens_33]; decide) (by decide)
      (by decide!) (by decide!)).1⟩


/-- C1, at the sample telegram cut after 31 tokens: rejected as malformed. -/
theorem header_validation_order_witness :
    (tokenize (telegram_of short_tokens_31)).length = 31 ∧
    parse_datagram SickTim5512050001Parser.new 1 (telegram_of short_tokens_31)
      sample_config 1000 zero_stack empty_scan = .ExitError .MalformedTelegram empty_scan :=
  ⟨by rw [tokenize_telegram_of _ (by decide)]; decide,
    (header_validation_order SickTim5512050001Parser.new 1 (telegram_of short_tokens_31)
      sample_config 1000 zero_stack empty_scan).2.2.2
      (by rw [tokenize_telegram_of _ (by decide)]; decide)⟩

/-! ## Intensities requested without RSSI block -/

theorem read_scan_intensity_without_rssi (self : SickTim5512050001Parser) (fuel : Nat)
    (fields : List Token) (config : SickTimConfig) (now : ℚ) (stack : Nat → Nat) (msg : LaserScan)
    (n : Nat) (w : List Warning) :
    (match read_scan self fuel fields { config with intensity := true } now stack msg n false w with
      | .error f => Outcome.fault f
      | .ok r => (Outcome.ExitSuccess r.1 r.2).erase_warnings)
    = (match read_scan self fuel fields { config with intensity := false } now stack msg n false w with
      | .error f => Outcome.fault f
      | .ok r => (Outcome.ExitSuccess r.1 r.2).erase_warnings) := by
  unfold read_scan
  simp only [write_intensities]
  cases decode_geometry self fields n with
  | error f => rfl
  | ok g =>
    simp only
    cases trim_min g.angle_increment config.min_ang fuel g.angle_min 0 with
    | none => rfl
    | some lo =>
      simp only
      cases trim_max g.angle_increment config.max_ang fuel g.angle_max ((n : Int) - 1) with
      | none => rfl
      | some hi =>
        simp only
        by_cases hsz : hi.2 - lo.2 + 1 < 0
        · simp only [if_pos hsz]
        · simp only [if_neg hsz]
          cases read_ranges fields stack (hi.2 - lo.2 + 1).toNat lo.2 with
          | error f => rfl
          | ok ranges => simp [Outcome.erase_warnings]

theorem Outcome.scan_erase_warnings (o : Outcome) : o.erase_warnings.scan = o.scan := by
  cases o <;> rfl

/-- C11: for a telegram without RSSI block (the checks never end with
`rssi = true`), the call with intensities requested and the call without have
the same result apart from the warnings: the same rejection or fault, or
success with the same scan message (ranges, angles, timing fields, time stamp)
and the same locals.  With intensities requested a successful call does not
write `msg.intensities` (it keeps the value the caller passed in) and issues
the warning. -/
theorem intensities_without_rssi (self : SickTim5512050001Parser) (fuel : Nat)
    (datagram : List Char) (config : SickTimConfig) (now : ℚ) (stack : Nat → Nat) (msg : LaserScan)
    (hno : ∀ n rssi w, check_telegram (tokenize datagram) stack = .ok n rssi w → rssi = false) :
    (parse_datagram self fuel datagram { config with intensity := true } now stack msg).erase_warnings
      = (parse_datagram self fuel datagram { config with intensity := false } now stack
          msg).erase_warnings ∧
    (parse_datagram self fuel datagram { config with intensity := true } now stack msg).scan
      = (parse_datagram self fuel datagram { config with intensity := false } now stack msg).scan ∧
    (∀ m t, parse_datagram self fuel datagram { config with intensity := true } now stack msg
        = .ExitSuccess m t →
      m.intensities = msg.intensities ∧ Warning.intensityWithoutRssi ∈ t.warnings) := by
  have key : (parse_datagram self fuel datagram { config with intensity := true } now stack
        msg).erase_warnings
      = (parse_datagram self fuel datagram { config with intensity := false } now stack
          msg).erase_warnings := by
    unfold parse_datagram parse_fields
    cases hc : check_telegram (tokenize datagram) stack with
    | reject r => rfl
    | fault f => rfl
    | ok n rssi w =>
      have := hno n rssi w hc
      subst this
      have h := read_scan_intensity_without_rssi self fuel (tokenize datagram) config now stack
        msg n w
      simp only
      cases hT : read_scan self fuel (tokenize datagram) { config with intensity := true } now stack
          msg n false w <;>
      cases hF : read_scan self fuel (tokenize datagram) { config with intensity := false } now stack
          msg n false w <;>
      simp only [hT, hF] at h ⊢ <;>
      exact h
  refine ⟨key, ?_, ?_⟩
  · rw [← Outcome.scan_erase_warnings, key, Outcome.scan_erase_warnings]
  · intro m t h
    rw [parse_datagram_eq_ExitSuccess] at h
    obtain ⟨n, rssi, w, hn, hr⟩ := h
    have := hno n rssi w hn
    subst this
    obtain ⟨g, lo, hi, ranges, iw, -, -, -, -, -, hiw, hm, ht⟩ :=
      read_scan_ok _ _ _ _ _ _ _ _ _ _ _ _ hr
    simp only [write_intensities, if_true, Bool.false_eq_true, if_false] at hiw
    injection hiw with hiw
    subst hiw hm ht
    simp

theorem check_telegram_sample_tokens :
    check_telegram (tokenize (telegram_of sample_tokens)) zero_stack = .ok 3 false [] := by
  rw [tokenize_sample_tokens]
  decide

/-- C11, at the sample telegram without RSSI block: the scan is the same with
and without intensities requested. -/
theorem intensities_without_rssi_witness :
    (∀ n rssi w, check_telegram (tokenize (telegram_of sample_tokens)) zero_stack = .ok n rssi w →
      rssi = false) ∧
    (parse_datagram SickTim5512050001Parser.new 1 (telegram_of sample_tokens)
        { sample_config with intensity := true } 1000 zero_stack empty_scan).scan
      = (parse_datagram SickTim5512050001Parser.new 1 (telegram_of sample_tokens)
        { sample_config with intensity := false } 1000 zero_stack empty_scan).scan ∧
    (parse_datagram SickTim5512050001Parser.new 1 (telegram_of sample_tokens)
        { sample_config with intensity := true } 1000 zero_stack empty_scan).scan = some sample_scan :=
  ⟨fun n rssi w h => by
      rw [check_telegram_sample_tokens] at h
      injection h with _ h2 _
      exact h2.symm,
    (intensities_without_rssi SickTim5512050001Parser.new 1 (telegram_of sample_tokens)
      sample_config 1000 zero_stack empty_scan (fun n rssi w h => by
        rw [check_telegram_sample_tokens] at h
        injection h with _ h2 _
        exact h2.symm)).2.1,
    by
      have h := parse_sample_tokens
      have e : ({ sample_config with intensity := true } : SickTimConfig) = sample_config := rfl
      rw [e, h]
      rfl⟩

/-! ## Geometry -/

theorem pow2_tiny (k : Int) (hk : k ≤ -100) : pow2 k ≤ 1 / 2 ^ 100 := by
  have : pow2 k ≤ pow2 (-100) := (pow2_le_pow2 _ _).2 hk
  rw [pow2_eq (-100)] at this
  norm_num at this ⊢
  exact this


theorem abs_mul_le_of (c t C B : ℚ) (hc : 0 ≤ c) (hC : c ≤ C) (ht : |t| ≤ B) :
    |c * t| ≤ C * B := by
  rw [abs_mul, abs_of_nonneg hc]
  exact mul_le_mul hC ht (abs_nonneg t) (le_trans hc hC)

/-- The error of `angle_increment` against the value of the formula. -/
theorem angle_increment_of_err (w : Nat) (hw : w < 2 ^ 16) :
    |angle_increment_of w - ((w : ℚ) / 10000) * M_PI / 180|
      ≤ (((w : ℚ) / 10000) * M_PI / 180) / 2 ^ 24 + 1 / 2 ^ 53 := by
  obtain ⟨b1, b2, b3, -, -⟩ := angle_increment_of_steps w hw
  have c3 : pow2 3 = 8 := by rw [pow2_eq]; norm_num
  have c4 : pow2 (-4) = 1 / 16 := by rw [pow2_eq]; norm_num
  have c2 : pow2 (-2) = 1 / 4 := by rw [pow2_eq]; norm_num
  have e53 : pow2 (-53) = 1 / 2 ^ 53 := by rw [pow2_eq]; norm_num
  have e24 : pow2 (-24) = 1 / 2 ^ 24 := by rw [pow2_eq]; norm_num
  have eta := pow2_tiny (-1075) (by norm_num)
  have eta' := pow2_tiny (-150) (by norm_num)
  have eta0 := (pow2_pos (-1075)).le
  have eta0' := (pow2_pos (-150)).le
  have hw0 : (0 : ℚ) ≤ w := by exact_mod_cast Nat.zero_le w
  have hpi := M_PI_pos
  have hpi4 := M_PI_le
  have x0 : (0 : ℚ) ≤ (w : ℚ) / 10000 := by positivity
  have n1 := double_of_nonneg _ x0
  have x1 : (0 : ℚ) ≤ double_of ((w : ℚ) / 10000) / 180 := by positivity
  have n2 := double_of_nonneg _ x1
  have x2 : (0 : ℚ) ≤ double_of (double_of ((w : ℚ) / 10000) / 180) * M_PI :=
    mul_nonneg n2 hpi.le
  have n3 := double_of_nonneg _ x2
  rw [c3, abs_of_nonneg x0] at b1
  rw [c4, abs_of_nonneg x1] at b2
  rw [c2, abs_of_nonneg x2] at b3
  have r1 := double_of_err ((w : ℚ) / 10000)
  have r2 := double_of_err (double_of ((w : ℚ) / 10000) / 180)
  have r3 := double_of_err (double_of (double_of ((w : ℚ) / 10000) / 180) * M_PI)
  have r4 := float_of_err
    (double_of (double_of (double_of ((w : ℚ) / 10000) / 180) * M_PI))
  rw [abs_of_nonneg x0, e53] at r1
  rw [abs_of_nonneg x1, e53] at r2
  rw [abs_of_nonneg x2, e53] at r3
  rw [abs_of_nonneg n3, e24] at r4
  have s1 := abs_le.1 r1
  have s2 := abs_le.1 r2
  have s3 := abs_le.1 r3
  have s4 := abs_le.1 r4
  have hE : (0 : ℚ) ≤ ((w : ℚ) / 10000) * M_PI / 180 := by positivity
  -- the value before the conversion to `float` is close to the formula
  have hd : |double_of (double_of (double_of ((w : ℚ) / 10000) / 180) * M_PI)
      - ((w : ℚ) / 10000) * M_PI / 180| ≤ 3 / 4 * (1 / 2 ^ 53) := by
    have q1 : |double_of ((w : ℚ) / 10000) - (w : ℚ) / 10000|
        ≤ 8 * (1 / 2 ^ 53) + 1 / 2 ^ 100 := by
      refine le_trans r1 ?_
      linarith
    have q2 : |double_of (double_of ((w : ℚ) / 10000) / 180)
        - double_of ((w : ℚ) / 10000) / 180| ≤ 1 / 16 * (1 / 2 ^ 53) + 1 / 2 ^ 100 := by
      refine le_trans r2 ?_
      linarith
    have q3 : |double_of (double_of (double_of ((w : ℚ) / 10000) / 180) * M_PI)
        - double_of (double_of ((w : ℚ) / 10000) / 180) * M_PI|
        ≤ 1 / 4 * (1 / 2 ^ 53) + 1 / 2 ^ 100 := by
      refine le_trans r3 ?_
      linarith
    have m2 := abs_mul_le_of M_PI _ 4 _ hpi.le hpi4 q2
    have m1 := abs_mul_le_of (M_PI / 180) _ (4 / 180) _ (by positivity) (by linarith) q1
    have key : double_of (double_of (double_of ((w : ℚ) / 10000) / 180) * M_PI)
        - ((w : ℚ) / 10000) * M_PI / 180
        = (double_of (double_of (double_of ((w : ℚ) / 10000) / 180) * M_PI)
            - double_of (double_of ((w : ℚ) / 10000) / 180) * M_PI)
          + M_PI * (double_of (double_of ((w : ℚ) / 10000) / 180)
            - double_of ((w : ℚ) / 10000) / 180)
          + M_PI / 180 * (double_of ((w : ℚ) / 10000) - (w : ℚ) / 10000) := by ring
    rw [key]
    refine le_trans (abs_add_three _ _ _) ?_
    norm_num at q3 m2 m1 ⊢
    linarith
  have sd := abs_le.1 hd
  unfold angle_increment_of
  rw [abs_le]
  constructor <;> linarith [s4.1, s4.2, sd.1, sd.2]

/-- The error of `angle_min` against the value of the formula. -/
theorem angle_min_of_err (s : Int) (hs : -2 ^ 31 ≤ s ∧ s < 2 ^ 31) :
    |angle_min_of s - (((s : ℚ) / 10000) * M_PI / 180 - M_PI / 2)|
      ≤ |((s : ℚ) / 10000) * M_PI / 180 - M_PI / 2| / 2 ^ 24 + 1 / 2 ^ 37 := by
  obtain ⟨a1, a2, a3, a4, -⟩ := angle_min_of_steps s hs
  have c18 : pow2 18 = 262144 := by rw [pow2_eq]; norm_num
  have c11 : pow2 11 = 2048 := by rw [pow2_eq]; norm_num
  have c13 : pow2 13 = 8192 := by rw [pow2_eq]; norm_num
  have c14 : pow2 14 = 16384 := by rw [pow2_eq]; norm_num
  have e53 : pow2 (-53) = 1 / 2 ^ 53 := by rw [pow2_eq]; norm_num
  have e24 : pow2 (-24) = 1 / 2 ^ 24 := by rw [pow2_eq]; norm_num
  have eta := pow2_tiny (-1075) (by norm_num)
  have eta' := pow2_tiny (-150) (by norm_num)
  have eta0 := (pow2_pos (-1075)).le
  have eta0' := (pow2_pos (-150)).le
  have hpi := M_PI_pos
  have hpi4 := M_PI_le
  rw [c18] at a1
  rw [c11] at a2
  rw [c13] at a3
  rw [c14] at a4
  have r1 := double_of_err ((s : ℚ) / 10000)
  have r2 := double_of_err (double_of ((s : ℚ) / 10000) / 180)
  have r3 := double_of_err (double_of (double_of ((s : ℚ) / 10000) / 180) * M_PI)
  have r4 := double_of_err
    (double_of (double_of (double_of ((s : ℚ) / 10000) / 180) * M_PI) - double_of (M_PI / 2))
  have r5 := float_of_err (double_of
    (double_of (double_of (double_of ((s : ℚ) / 10000) / 180) * M_PI) - double_of (M_PI / 2)))
  rw [e53] at r1 r2 r3 r4
  rw [e24] at r5
  -- each rounding error of the `double` steps, as a number
  have q1 : |double_of ((s : ℚ) / 10000) - (s : ℚ) / 10000|
      ≤ 262144 * (1 / 2 ^ 53) + 1 / 2 ^ 100 := by
    refine le_trans r1 ?_
    have := mul_le_mul_of_nonneg_right a1 (show (0 : ℚ) ≤ 1 / 2 ^ 53 by positivity)
    linarith
  have q2 : |double_of (double_of ((s : ℚ) / 10000) / 180)
      - double_of ((s : ℚ) / 10000) / 180| ≤ 2048 * (1 / 2 ^ 53) + 1 / 2 ^ 100 := by
    refine le_trans r2 ?_
    have := mul_le_mul_of_nonneg_right a2 (show (0 : ℚ) ≤ 1 / 2 ^ 53 by positivity)
    linarith
  have q3 : |double_of (double_of (double_of ((s : ℚ) / 10000) / 180) * M_PI)
      - double_of (double_of ((s : ℚ) / 10000) / 180) * M_PI|
      ≤ 8192 * (1 / 2 ^ 53) + 1 / 2 ^ 100 := by
    refine le_trans r3 ?_
    have := mul_le_mul_of_nonneg_right a3 (show (0 : ℚ) ≤ 1 / 2 ^ 53 by positivity)
    linarith
  have q4 : |double_of (double_of (double_of (double_of ((s : ℚ) / 10000) / 180) * M_PI)
        - double_of (M_PI / 2))
      - (double_of (double_of (double_of ((s : ℚ) / 10000) / 180) * M_PI)
        - double_of (M_PI / 2))| ≤ 16384 * (1 / 2 ^ 53) + 1 / 2 ^ 100 := by
    refine le_trans r4 ?_
    have := mul_le_mul_of_nonneg_right a4 (show (0 : ℚ) ≤ 1 / 2 ^ 53 by positivity)
    linarith
  -- the value before the conversion to `float` is close to the formula
  have hd : |double_of (double_of (double_of (double_of ((s : ℚ) / 10000) / 180) * M_PI)
        - double_of (M_PI / 2))
      - (((s : ℚ) / 10000) * M_PI / 180 - M_PI / 2)| ≤ 40000 * (1 / 2 ^ 53) := by
    rw [double_of_half_M_PI] at q4 ⊢
    have m2 := abs_mul_le_of M_PI _ 4 _ hpi.le hpi4 q2
    have m1 := abs_mul_le_of (M_PI / 180) _ (4 / 180) _ (by positivity) (by linarith) q1
    have key : double_of (double_of (double_of (double_of ((s : ℚ) / 10000) / 180) * M_PI)
          - M_PI / 2)
        - (((s : ℚ) / 10000) * M_PI / 180 - M_PI / 2)
        = (double_of (double_of (double_of (double_of ((s : ℚ) / 10000) / 180) * M_PI)
              - M_PI / 2)
            - (double_of (double_of (double_of ((s : ℚ) / 10000) / 180) * M_PI) - M_PI / 2))
          + ((double_of (double_of (double_of ((s : ℚ) / 10000) / 180) * M_PI)
              - double_of (double_of ((s : ℚ) / 10000) / 180) * M_PI)
            + M_PI * (double_of (double_of ((s : ℚ) / 10000) / 180)
              - double_of ((s : ℚ) / 10000) / 180)
            + M_PI / 180 * (double_of ((s : ℚ) / 10000) - (s : ℚ) / 10000)) := by ring
    rw [key]
    refine le_trans (abs_add _ _) ?_
    have t3 := abs_add_three
      (double_of (double_of (double_of ((s : ℚ) / 10000) / 180) * M_PI)
        - double_of (double_of ((s : ℚ) / 10000) / 180) * M_PI)
      (M_PI * (double_of (double_of ((s : ℚ) / 10000) / 180)
        - double_of ((s : ℚ) / 10000) / 180))
      (M_PI / 180 * (double_of ((s : ℚ) / 10000) - (s : ℚ) / 10000))
    norm_num at q3 q4 m2 m1 t3 ⊢
    linarith
  have sd := abs_le.1 hd
  have hval : |double_of (double_of (double_of (double_of ((s : ℚ) / 10000) / 180) * M_PI)
        - double_of (M_PI / 2))|
      ≤ |((s : ℚ) / 10000) * M_PI / 180 - M_PI / 2| + 40000 * (1 / 2 ^ 53) := by
    have := abs_sub_abs_le_abs_sub
      (double_of (double_of (double_of (double_of ((s : ℚ) / 10000) / 180) * M_PI)
        - double_of (M_PI / 2)))
      (((s : ℚ) / 10000) * M_PI / 180 - M_PI / 2)
    linarith
  have q5 : |angle_min_of s - double_of
      (double_of (double_of (double_of ((s : ℚ) / 10000) / 180) * M_PI) - double_of (M_PI / 2))|
      ≤ (|((s : ℚ) / 10000) * M_PI / 180 - M_PI / 2| + 40000 * (1 / 2 ^ 53)) * (1 / 2 ^ 24)
        + 1 / 2 ^ 100 := by
    unfold angle_min_of
    refine le_trans r5 ?_
    have := mul_le_mul_of_nonneg_right hval (show (0 : ℚ) ≤ 1 / 2 ^ 24 by positivity)
    linarith
  have s5 := abs_le.1 q5
  have hE := abs_nonneg (((s : ℚ) / 10000) * M_PI / 180 - M_PI / 2)
  rw [abs_le]
  constructor <;> linarith [s5.1, s5.2, sd.1, sd.2]

/-- The error of `angle_max` against the sum in exact arithmetic. -/
theorem angle_max_of_err (a d : ℚ) (n : Nat) (hn : 1 ≤ n ∧ n ≤ 811)
    (ha : |a| ≤ pow2 14) (hd : |d| ≤ pow2 (-2)) (hd0 : 0 ≤ d) (hfa : float_of a = a) :
    |angle_max_of a d n - (a + ((n : ℚ) - 1) * d)|
      ≤ (|a| + 2 * ((n : ℚ) - 1) * d) / 2 ^ 24 + 1 / 2 ^ 39 := by
  obtain ⟨c1, c2, c3, -, -⟩ := angle_max_of_steps a d n hn ha hd hd0 hfa
  have k8 : pow2 8 = 256 := by rw [pow2_eq]; norm_num
  have e24 : pow2 (-24) = 1 / 2 ^ 24 := by rw [pow2_eq]; norm_num
  have eta' := pow2_tiny (-150) (by norm_num)
  have eta0' := (pow2_pos (-150)).le
  have hk : (((n : Int) - 1 : Int) : ℚ) = (n : ℚ) - 1 := by push_cast; ring
  have hk0 : (0 : ℚ) ≤ (n : ℚ) - 1 := by
    have : (1 : ℚ) ≤ n := by exact_mod_cast hn.1
    linarith
  rw [hk] at c2
  have hp0 : (0 : ℚ) ≤ ((n : ℚ) - 1) * d := mul_nonneg hk0 hd0
  rw [k8, abs_of_nonneg hp0] at c2
  have r1 := float_of_err (((n : ℚ) - 1) * d)
  have r2 := float_of_err (a + float_of (((n : ℚ) - 1) * d))
  rw [e24, abs_of_nonneg hp0] at r1
  rw [e24] at r2
  have s1 := abs_le.1 r1
  have hsum : |a + float_of (((n : ℚ) - 1) * d)|
      ≤ |a| + ((n : ℚ) - 1) * d + (((n : ℚ) - 1) * d * (1 / 2 ^ 24) + pow2 (-150)) := by
    have h1 := abs_add a (float_of (((n : ℚ) - 1) * d))
    have h2 : |float_of (((n : ℚ) - 1) * d)| = float_of (((n : ℚ) - 1) * d) :=
      abs_of_nonneg (float_of_nonneg _ hp0)
    rw [h2] at h1
    linarith [s1.2]
  have q2 : |float_of (a + float_of (((n : ℚ) - 1) * d))
        - (a + float_of (((n : ℚ) - 1) * d))|
      ≤ (|a| + ((n : ℚ) - 1) * d + (((n : ℚ) - 1) * d * (1 / 2 ^ 24) + pow2 (-150)))
          * (1 / 2 ^ 24) + pow2 (-150) := by
    refine le_trans r2 ?_
    have := mul_le_mul_of_nonneg_right hsum (show (0 : ℚ) ≤ 1 / 2 ^ 24 by positivity)
    linarith
  have s2 := abs_le.1 q2
  have hA := abs_nonneg a
  unfold angle_max_of
  rw [c1, hk, abs_le]
  constructor <;> linarith [s1.1, s1.2, s2.1, s2.2]

/-- C12, as stated, fails: at the sample telegram (start angle FFF92230, which
is -450000, step 2710, which is 10000, and 3 samples), which passes the
checks, the decoded `angle_min` is the `float` `0xc016cbe4`, which is neither
the value `(s / 10000) * M_PI / 180 - M_PI / 2` of the formula with the
`double` constant `M_PI` nor its value with the number pi; the decoded
`angle_increment` is a `float` that is not `(w / 10000) * M_PI / 180`; and the
decoded `angle_max` is not `angle_min + (N - 1) * angle_increment` for the
decoded `angle_min` and `angle_increment`. -/
theorem decoded_geometry_is_rounded :
    check_telegram (tokenize (telegram_of sample_tokens)) zero_stack = .ok 3 false [] ∧
    (tokenize (telegram_of sample_tokens))[23]?
      = some ['F', 'F', 'F', '9', '2', '2', '3', '0'] ∧
    (tokenize (telegram_of sample_tokens))[24]? = some ['2', '7', '1', '0'] ∧
    toInt32 ((sscanf_x ['F', 'F', 'F', '9', '2', '2', '3', '0']).getD (2 ^ 32 - 1)) = -450000 ∧
    (sscanf_hx ['2', '7', '1', '0']).getD 65535 = 10000 ∧
    (decode_geometry SickTim5512050001Parser.new (tokenize (telegram_of sample_tokens)) 3).toOption.map
        (fun g => (g.angle_min, g.angle_increment, g.angle_max))
      = some (.fin (-2470649 / 1048576), .fin (9370165 / 536870912),
          .fin (-9736187 / 4194304)) ∧
    (-2470649 / 1048576 : ℚ) ≠ (((-450000 : Int) : ℚ) / 10000) * M_PI / 180 - M_PI / 2 ∧
    (((-2470649 / 1048576 : ℚ) : ℝ))
      ≠ (((-450000 : Int) : ℝ) / 10000) * Real.pi / 180 - Real.pi / 2 ∧
    (9370165 / 536870912 : ℚ) ≠ (((10000 : Nat) : ℚ) / 10000) * M_PI / 180 ∧
    (-9736187 / 4194304 : ℚ)
      ≠ -2470649 / 1048576 + (((3 : Nat) : ℚ) - 1) * (9370165 / 536870912) := by
  refine ⟨check_telegram_sample_tokens, by rw [tokenize_sample_tokens]; decide,
    by rw [tokenize_sample_tokens]; decide, by decide, by decide, ?_, ?_, ?_, ?_, ?_⟩
  · rw [tokenize_sample_tokens]
    decide!
  · unfold M_PI; norm_num
  · intro h
    have h1 := Real.pi_lt_d20
    push_cast at h
    norm_num at h
    linarith
  · unfold M_PI; norm_num
  · norm_num

/-- C12, amended: for a telegram that passes the checks, with `s` the 32 bit
value that `sscanf` with `%x` reads from token 23, taken as two's complement
(FFF92230 is -450000), `w` the 16 bit value that `%hx` reads from token 24
(both stay at their initial -1 when the token is not hexadecimal) and `N` the
sample count, the geometry before the angle loops is made of three finite
`float` values: `angle_min` is `(s / 10000) / 180 * M_PI - M_PI / 2` with
every operation rounded to `double` and the result converted to `float`,
within `|E| / 2 ^ 24 + 1 / 2 ^ 37` of the value `E` of the formula;
`angle_increment` is `(w / 10000) / 180 * M_PI` computed the same way, within
`E / 2 ^ 24 + 1 / 2 ^ 53` of the value `E` of the formula; `angle_max` is
`angle_min + (N - 1) * angle_increment` with the product and the sum rounded
to `float`, within `(|angle_min| + 2 * (N - 1) * angle_increment) / 2 ^ 24 +
1 / 2 ^ 39` of the sum in exact arithmetic; a successful call outputs this
`angle_increment`. -/
theorem decoded_geometry (self : SickTim5512050001Parser) (datagram : List Char)
    (stack : Nat → Nat) (n : Nat) (rssi : Bool) (w : List Warning) (f23 f24 : Token)
    (hval : check_telegram (tokenize datagram) stack = .ok n rssi w)
    (h23 : (tokenize datagram)[23]? = some f23) (h24 : (tokenize datagram)[24]? = some f24) :
    (∃ g, decode_geometry self (tokenize datagram) n = .ok g ∧
      g.angle_min = .fin (float_of (double_of
        (double_of (double_of (double_of
          ((toInt32 ((sscanf_x f23).getD (2 ^ 32 - 1)) : ℚ) / 10000) / 180) * M_PI)
          - double_of (M_PI / 2)))) ∧
      g.angle_increment = .fin (float_of (double_of
        (double_of (double_of ((((sscanf_hx f24).getD 65535 : Nat) : ℚ) / 10000) / 180)
          * M_PI))) ∧
      (∃ a d : ℚ, g.angle_min = .fin a ∧ g.angle_increment = .fin d ∧
        g.angle_max = .fin (float_of (a + float_of (float_of ((n : ℚ) - 1) * d))) ∧
        float_of ((n : ℚ) - 1) = (n : ℚ) - 1 ∧
        |a - (((toInt32 ((sscanf_x f23).getD (2 ^ 32 - 1)) : ℚ) / 10000) * M_PI / 180
            - M_PI / 2)|
          ≤ |((toInt32 ((sscanf_x f23).getD (2 ^ 32 - 1)) : ℚ) / 10000) * M_PI / 180
              - M_PI / 2| / 2 ^ 24 + 1 / 2 ^ 37 ∧
        |d - ((((sscanf_hx f24).getD 65535 : Nat) : ℚ) / 10000) * M_PI / 180|
          ≤ (((((sscanf_hx f24).getD 65535 : Nat) : ℚ) / 10000) * M_PI / 180) / 2 ^ 24
            + 1 / 2 ^ 53 ∧
        |float_of (a + float_of (float_of ((n : ℚ) - 1) * d)) - (a + ((n : ℚ) - 1) * d)|
          ≤ (|a| + 2 * ((n : ℚ) - 1) * d) / 2 ^ 24 + 1 / 2 ^ 39) ∧
      ∀ fuel config now msg m t,
        parse_datagram self fuel datagram config now stack msg = .ExitSuccess m t →
        m.angle_increment = g.angle_increment) ∧
    (sscanf_x ['F', 'F', 'F', '9', '2', '2', '3', '0'] = some 4294517296 ∧
      toInt32 4294517296 = -450000) := by
  obtain ⟨h32, -, -, hl⟩ := check_telegram_ok _ _ _ _ _ hval
  obtain ⟨f25, -, -, hn1, hn2, -, -⟩ := check_lengths_ok _ _ _ _ _ hl
  obtain ⟨g, g23, g24, hg, hg23, hg24, hmin, hinc, hmax⟩ :=
    decode_geometry_ok self (tokenize datagram) n (by omega) ⟨hn1, hn2⟩
  rw [h23] at hg23
  rw [h24] at hg24
  injection hg23 with hg23
  injection hg24 with hg24
  subst hg23 hg24
  have hw : (sscanf_hx f24).getD 65535 < 2 ^ 16 := by
    cases hx : sscanf_hx f24 with
    | none => simp
    | some v => simpa using sscanf_hx_lt _ _ hx
  have hs := toInt32_bounds ((sscanf_x f23).getD (2 ^ 32 - 1))
  obtain ⟨-, -, -, -, a5⟩ := angle_min_of_steps _ hs
  obtain ⟨-, -, -, b4, b5⟩ := angle_increment_of_steps _ hw
  obtain ⟨c1, -, -, -, -⟩ := angle_max_of_steps _ _ n ⟨hn1, hn2⟩ a5 b4 b5 (angle_min_of_float _)
  have hk : (((n : Int) - 1 : Int) : ℚ) = (n : ℚ) - 1 := by push_cast; ring
  have hmaxe := angle_max_of_err _ _ n ⟨hn1, hn2⟩ a5 b4 b5 (angle_min_of_float _)
  unfold angle_max_of at hmax hmaxe
  rw [hk] at c1 hmax hmaxe
  refine ⟨⟨g, hg, hmin, hinc, ⟨_, _, hmin, hinc, hmax, c1, angle_min_of_err _ hs,
    angle_increment_of_err _ hw, hmaxe⟩, ?_⟩, by decide, by decide⟩
  intro fuel config now msg m t h
  rw [parse_datagram_eq_ExitSuccess] at h
  obtain ⟨k, rssi', w', hk, hr⟩ := h
  rw [hval] at hk
  injection hk with hk1 hk2 hk3
  subst hk1 hk2 hk3
  obtain ⟨g', lo, hi, ranges, iw, hg', -, -, -, -, -, hm, -⟩ :=
    read_scan_ok _ _ _ _ _ _ _ _ _ _ _ _ hr
  rw [hg] at hg'
  injection hg' with hg'
  subst hg' hm
  rfl

/-- C12, at the sample telegram: start angle FFF92230, step 2710, 3 samples. -/
theorem decoded_geometry_witness :
    (check_telegram (tokenize (telegram_of sample_tokens)) zero_stack = .ok 3 false [] ∧
      (tokenize (telegram_of sample_tokens))[23]?
        = some ['F', 'F', 'F', '9', '2', '2', '3', '0'] ∧
      (tokenize (telegram_of sample_tokens))[24]? = some ['2', '7', '1', '0']) ∧
    ∃ g, decode_geometry SickTim5512050001Parser.new (tokenize (telegram_of sample_tokens)) 3
        = .ok g ∧
      g.angle_min = .fin (float_of (double_of
        (double_of (double_of (double_of
          ((toInt32 ((sscanf_x ['F', 'F', 'F', '9', '2', '2', '3', '0']).getD (2 ^ 32 - 1)) : ℚ)
            / 10000) / 180) * M_PI)
          - double_of (M_PI / 2)))) ∧
      g.angle_increment = .fin (float_of (double_of
        (double_of (double_of ((((sscanf_hx ['2', '7', '1', '0']).getD 65535 : Nat) : ℚ)
          / 10000) / 180) * M_PI))) :=
  ⟨⟨check_telegram_sample_tokens, by rw [tokenize_sample_tokens]; decide,
      by rw [tokenize_sample_tokens]; decide⟩,
    (decoded_geometry SickTim5512050001Parser.new (telegram_of sample_tokens) zero_stack 3 false
      [] ['F', 'F', 'F', '9', '2', '2', '3', '0'] ['2', '7', '1', '0']
      check_telegram_sample_tokens (by rw [tokenize_sample_tokens]; decide)
      (by rw [tokenize_sample_tokens]; decide)).1.imp
        (fun _ h => ⟨h.1, h.2.1, h.2.2.1⟩)⟩

/-! ## The angle loops -/

/-- What the first angle loop has done when it stops: `k` runs of the body,
each with the condition true, and the condition false at the end. -/
theorem trim_min_spec (d : FVal) (M : ℚ) :
    ∀ (fuel : Nat) (a : FVal) (i : Nat) (r : FVal × Nat), trim_min d M fuel a i = some r →
      ∃ k : Nat, k < fuel ∧ r.2 = i + k ∧ r.1 = angle_min_after d k a ∧
        FVal.lt (FVal.fadd (angle_min_after d k a) d) (.fin M) = false ∧
        ∀ j : Nat, j < k → FVal.lt (FVal.fadd (angle_min_after d j a) d) (.fin M) = true := by
  intro fuel
  induction fuel with
  | zero => intro a i r h; simp [trim_min] at h
  | succ f ih =>
    intro a i r h
    simp only [trim_min] at h
    split at h
    · rename_i hc
      obtain ⟨k, h0, h1, h2, h3, h4⟩ := ih _ _ _ h
      refine ⟨k + 1, by omega, by omega, h2, h3, fun j hj => ?_⟩
      cases j with
      | zero => exact hc
      | succ j => exact h4 j (by omega)
    · rename_i hc
      injection h with h
      subst h
      exact ⟨0, by omega, rfl, rfl, by simpa using hc, fun j hj => absurd hj (by omega)⟩

/-- What the second angle loop has done when it stops. -/
theorem trim_max_spec (d : FVal) (M : ℚ) :
    ∀ (fuel : Nat) (a : FVal) (i : Int) (r : FVal × Int), trim_max d M fuel a i = some r →
      ∃ k : Nat, k < fuel ∧ r.2 = i - k ∧ r.1 = angle_max_after d k a ∧
        FVal.gt (FVal.fsub (angle_max_after d k a) d) (.fin M) = false ∧
        ∀ j : Nat, j < k → FVal.gt (FVal.fsub (angle_max_after d j a) d) (.fin M) = true := by
  intro fuel
  induction fuel with
  | zero => intro a i r h; simp [trim_max] at h
  | succ f ih =>
    intro a i r h
    simp only [trim_max] at h
    split at h
    · rename_i hc
      obtain ⟨k, h0, h1, h2, h3, h4⟩ := ih _ _ _ h
      refine ⟨k + 1, by omega, by rw [h1]; push_cast; ring, h2, h3, fun j hj => ?_⟩
      cases j with
      | zero => exact hc
      | succ j => exact h4 j (by omega)
    · rename_i hc
      injection h with h
      subst h
      exact ⟨0, by omega, by simp, rfl, by simpa using hc, fun j hj => absurd hj (by omega)⟩

/-- The first angle loop stops after `k` runs when the condition is true
before each of them and false after the last, given fuel for `k + 1` tests. -/
theorem trim_min_of_stop (d : FVal) (M : ℚ) :
    ∀ (k : Nat) (a : FVal) (i fuel : Nat), k < fuel →
      FVal.lt (FVal.fadd (angle_min_after d k a) d) (.fin M) = false →
      (∀ j : Nat, j < k → FVal.lt (FVal.fadd (angle_min_after d j a) d) (.fin M) = true) →
      trim_min d M fuel a i = some (angle_min_after d k a, i + k) := by
  intro k
  induction k with
  | zero =>
    intro a i fuel hf hstop _
    obtain ⟨f, rfl⟩ : ∃ f, fuel = f + 1 := ⟨fuel - 1, by omega⟩
    simp only [angle_min_after] at hstop
    simp only [trim_min, hstop, angle_min_after]
    simp
  | succ k ih =>
    intro a i fuel hf hstop hrun
    obtain ⟨f, rfl⟩ : ∃ f, fuel = f + 1 := ⟨fuel - 1, by omega⟩
    have h0 := hrun 0 (by omega)
    simp only [angle_min_after] at h0
    simp only [trim_min, h0, if_true]
    rw [ih (FVal.fadd a d) (i + 1) f (by omega) hstop (fun j hj => hrun (j + 1) (by omega))]
    simp only [angle_min_after]
    congr 2
    omega

/-- The second angle loop stops after `k` runs when the condition is true
before each of them and false after the last, given fuel for `k + 1` tests. -/
theorem trim_max_of_stop (d : FVal) (M : ℚ) :
    ∀ (k : Nat) (a : FVal) (i : Int) (fuel : Nat), k < fuel →
      FVal.gt (FVal.fsub (angle_max_after d k a) d) (.fin M) = false →
      (∀ j : Nat, j < k → FVal.gt (FVal.fsub (angle_max_after d j a) d) (.fin M) = true) →
      trim_max d M fuel a i = some (angle_max_after d k a, i - k) := by
  intro k
  induction k with
  | zero =>
    intro a i fuel hf hstop _
    obtain ⟨f, rfl⟩ : ∃ f, fuel = f + 1 := ⟨fuel - 1, by omega⟩
    simp only [angle_max_after] at hstop
    simp only [trim_max, hstop, angle_max_after]
    simp
  | succ k ih =>
    intro a i fuel hf hstop hrun
    obtain ⟨f, rfl⟩ : ∃ f, fuel = f + 1 := ⟨fuel - 1, by omega⟩
    have h0 := hrun 0 (by omega)
    simp only [angle_max_after] at h0
    simp only [trim_max, h0, if_true]
    rw [ih (FVal.fsub a d) (i - 1) f (by omega) hstop (fun j hj => hrun (j + 1) (by omega))]
    simp only [angle_max_after]
    congr 2
    push_cast
    ring

/-- The first angle loop runs out of every fuel exactly when its condition
stays true. -/
theorem trim_min_eq_none (d : FVal) (M : ℚ) :
    ∀ (fuel : Nat) (a : FVal) (i : Nat), trim_min d M fuel a i = none ↔
      ∀ j : Nat, j < fuel → FVal.lt (FVal.fadd (angle_min_after d j a) d) (.fin M) = true := by
  intro fuel
  induction fuel with
  | zero => intro a i; simp [trim_min]
  | succ f ih =>
    intro a i
    simp only [trim_min]
    split
    · rename_i hc
      rw [ih]
      constructor
      · intro h j hj
        cases j with
        | zero => exact hc
        | succ j => exact h j (by omega)
      · intro h j hj
        exact h (j + 1) (by omega)
    · rename_i hc
      constructor
      · intro h; cases h
      · intro h
        exact absurd (h 0 (by omega)) hc

/-- The second angle loop runs out of every fuel exactly when its condition
stays true. -/
theorem trim_max_eq_none (d : FVal) (M : ℚ) :
    ∀ (fuel : Nat) (a : FVal) (i : Int), trim_max d M fuel a i = none ↔
      ∀ j : Nat, j < fuel → FVal.gt (FVal.fsub (angle_max_after d j a) d) (.fin M) = true := by
  intro fuel
  induction fuel with
  | zero => intro a i; simp [trim_max]
  | succ f ih =>
    intro a i
    simp only [trim_max]
    split
    · rename_i hc
      rw [ih]
      constructor
      · intro h j hj
        cases j with
        | zero => exact hc
        | succ j => exact h j (by omega)
      · intro h j hj
        exact h (j + 1) (by omega)
    · rename_i hc
      constructor
      · intro h; cases h
      · intro h
        exact absurd (h 0 (by omega)) hc

/-- An angle that the addition of the step does not change stays as it is. -/
theorem angle_min_after_fixed (d a : FVal) (h : FVal.fadd a d = a) :
    ∀ k, angle_min_after d k a = a := by
  intro k
  induction k with
  | zero => rfl
  | succ k ih => simp only [angle_min_after, h, ih]

/-- When the addition of the step does not change `angle_min` and `angle_min`
is below `min_ang`, the first angle loop does not stop. -/
theorem trim_min_stuck (d a : FVal) (M : ℚ) (h : FVal.fadd a d = a)
    (hlt : FVal.lt a (.fin M) = true) (fuel i : Nat) : trim_min d M fuel a i = none := by
  rw [trim_min_eq_none]
  intro j _
  rw [angle_min_after_fixed d a h j, h]
  exact hlt

/-- The second angle loop only counts down. -/
theorem trim_max_le (d : FVal) (M : ℚ) (fuel : Nat) (a : FVal) (i : Int) (r : FVal × Int)
    (h : trim_max d M fuel a i = some r) : r.2 ≤ i := by
  obtain ⟨k, -, hk, -⟩ := trim_max_spec d M fuel a i r h
  omega

/-- The two angle loops of a successful call: the geometry they start from
and what they give. -/
theorem parse_datagram_window (self : SickTim5512050001Parser) (fuel : Nat)
    (datagram : List Char) (config : SickTimConfig) (now : ℚ) (stack : Nat → Nat)
    (msg : LaserScan) (m : LaserScan) (t : Trace)
    (h : parse_datagram self fuel datagram config now stack msg = .ExitSuccess m t) :
    ∃ rssi w g lo hi,
      check_telegram (tokenize datagram) stack = .ok t.number_of_data rssi w ∧
      decode_geometry self (tokenize datagram) t.number_of_data = .ok g ∧
      trim_min g.angle_increment config.min_ang fuel g.angle_min 0 = some lo ∧
      trim_max g.angle_increment config.max_ang fuel g.angle_max
        ((t.number_of_data : Int) - 1) = some hi ∧
      t.index_min = lo.2 ∧ t.index_max = hi.2 ∧
      m.angle_min = lo.1 ∧ m.angle_max = hi.1 ∧
      m.angle_increment = g.angle_increment ∧ m.time_increment = g.time_increment ∧
      0 ≤ hi.2 - lo.2 + 1 := by
  rw [parse_datagram_eq_ExitSuccess] at h
  obtain ⟨n, rssi, w, hn, hr⟩ := h
  obtain ⟨g, lo, hi, ranges, iw, hg, hlo, hhi, hsz, -, -, hm, ht⟩ :=
    read_scan_ok _ _ _ _ _ _ _ _ _ _ _ _ hr
  subst hm ht
  exact ⟨rssi, w, g, lo, hi, hn, hg, hlo, hhi, rfl, rfl, rfl, rfl, rfl, rfl, hsz⟩

/-- The counters of a successful call: at least 1 and at most 811 samples,
`index_max` at most `N - 1` and `index_min` at most `index_max + 1`. -/
theorem parse_datagram_indices (self : SickTim5512050001Parser) (fuel : Nat)
    (datagram : List Char) (config : SickTimConfig) (now : ℚ) (stack : Nat → Nat)
    (msg : LaserScan) (m : LaserScan) (t : Trace)
    (h : parse_datagram self fuel datagram config now stack msg = .ExitSuccess m t) :
    1 ≤ t.number_of_data ∧ t.number_of_data ≤ 811 ∧
      t.index_max ≤ (t.number_of_data : Int) - 1 ∧ (t.index_min : Int) ≤ t.index_max + 1 := by
  obtain ⟨rssi, w, g, lo, hi, hc, -, -, hhi, h1, h2, -, -, -, -, hsz⟩ :=
    parse_datagram_window _ _ _ _ _ _ _ _ _ h
  obtain ⟨-, -, -, hl⟩ := check_telegram_ok _ _ _ _ _ hc
  obtain ⟨-, -, -, hn1, hn2, -, -⟩ := check_lengths_ok _ _ _ _ _ hl
  have := trim_max_le _ _ _ _ _ _ hhi
  rw [h1, h2]
  exact ⟨hn1, hn2, this, by omega⟩

/-! ## The time stamp -/

/-- A positive value that rounding leaves as it is: an integer below `2 ^ p`
times the unit of its binade. -/
theorem round_raw_fixed (p : Nat) (emin : Int) (x : ℚ) (hx : 0 < x)
    (h : round_raw p emin x = x) :
    ∃ k : Int, 0 ≤ k ∧ k < 2 ^ p ∧
      x = (k : ℚ) * pow2 (max (ilog2 x) emin - ((p : Int) - 1)) := by
  unfold round_raw ulp at h
  have hu := pow2_pos (max (ilog2 x) emin - ((p : Int) - 1))
  refine ⟨round_half_even (x / pow2 (max (ilog2 x) emin - ((p : Int) - 1))), ?_, ?_, h.symm⟩
  · by_contra hneg
    have hk : (round_half_even (x / pow2 (max (ilog2 x) emin - ((p : Int) - 1))) : ℚ) < 0 := by
      exact_mod_cast not_le.1 hneg
    have := mul_neg_of_neg_of_pos hk hu
    linarith
  · obtain ⟨-, s2⟩ := ilog2_spec x hx.ne'
    rw [abs_of_pos hx] at s2
    have e1 : pow2 (ilog2 x + 1) = pow2 (ilog2 x - ((p : Int) - 1)) * pow2 (p : Int) := by
      rw [← pow2_add]
      congr 1
      ring
    have e2 : pow2 (ilog2 x - ((p : Int) - 1)) ≤ pow2 (max (ilog2 x) emin - ((p : Int) - 1)) :=
      (pow2_le_pow2 _ _).2 (by have := le_max_left (ilog2 x) emin; omega)
    have e3 : pow2 (p : Int) = ((2 ^ p : Int) : ℚ) := pow2_natCast p
    have hp0 : (0 : ℚ) < pow2 (p : Int) := pow2_pos _
    have hlt : (round_half_even (x / pow2 (max (ilog2 x) emin - ((p : Int) - 1))) : ℚ)
        * pow2 (max (ilog2 x) emin - ((p : Int) - 1))
        < pow2 (p : Int) * pow2 (max (ilog2 x) emin - ((p : Int) - 1)) := by
      rw [h]
      calc x < pow2 (ilog2 x - ((p : Int) - 1)) * pow2 (p : Int) := by rw [← e1]; exact s2
        _ ≤ pow2 (max (ilog2 x) emin - ((p : Int) - 1)) * pow2 (p : Int) :=
            mul_le_mul_of_nonneg_right e2 hp0.le
        _ = _ := mul_comm _ _
    have := lt_of_mul_lt_mul_right hlt hu.le
    rw [e3] at this
    exact_mod_cast this

/-- The fractional part of a value that the format holds is held by the format. -/
theorem round_raw_fract (p : Nat) (emin : Int) (x : ℚ) (h0 : 0 ≤ x)
    (h : round_raw p emin x = x) : round_raw p emin (x - ⌊x⌋) = x - ⌊x⌋ := by
  rcases eq_or_lt_of_le h0 with hz | hpos
  · rw [← hz]
    simp [round_raw_zero]
  obtain ⟨k, hk0, hk1, hx⟩ := round_raw_fixed p emin x hpos h
  generalize hE : max (ilog2 x) emin - ((p : Int) - 1) = E at hx
  have hEmin : emin - ((p : Int) - 1) ≤ E := by
    rw [← hE]
    have := le_max_right (ilog2 x) emin
    omega
  by_cases hEs : 0 ≤ E
  · -- the value is an integer
    obtain ⟨n, rfl⟩ := Int.eq_ofNat_of_zero_le hEs
    rw [pow2_natCast] at hx
    have hi : x = ((k * 2 ^ n : Int) : ℚ) := by rw [hx]; push_cast; ring
    rw [hi, Int.floor_intCast, sub_self, round_raw_zero]
  · obtain ⟨n, hn⟩ : ∃ n : Nat, E = -(n : Int) := ⟨(-E).toNat, by omega⟩
    obtain ⟨D, hDdef⟩ : ∃ D : Nat, D = 2 ^ n := ⟨_, rfl⟩
    have hDpos : 0 < D := by rw [hDdef]; positivity
    have hpw : pow2 E = 1 / (D : ℚ) := by
      rw [hn, pow2_eq, zpow_neg, zpow_natCast, hDdef]
      push_cast
      ring
    have hxd : x = (k : ℚ) / (D : ℚ) := by rw [hx, hpw]; ring
    have hfl : ⌊x⌋ = k / (D : Int) := by
      rw [hxd]
      exact Rat.floor_intCast_div_natCast k D
    have hD : (0 : Int) < (D : Int) := by exact_mod_cast hDpos
    have hDq : (0 : ℚ) < (D : ℚ) := by exact_mod_cast hDpos
    have hsplit := Int.emod_add_ediv k (D : Int)
    have hmod : x - ⌊x⌋ = ((k % (D : Int) : Int) : ℚ) * pow2 E := by
      rw [hfl, hpw]
      have hq : (k : ℚ) = ((k % (D : Int) : Int) : ℚ) + (D : ℚ) * ((k / (D : Int) : Int) : ℚ) := by
        exact_mod_cast hsplit.symm
      rw [hxd, mul_one_div, eq_div_iff hDq.ne', sub_mul, div_mul_cancel₀ _ hDq.ne']
      linarith
    rw [hmod]
    refine round_raw_int_mul_pow2 p emin _ E ?_ hEmin
    have hm0 := Int.emod_nonneg k hD.ne'
    have hdiv : 0 ≤ k / (D : Int) := Int.ediv_nonneg hk0 hD.le
    have hm1 : k % (D : Int) ≤ k := by nlinarith [mul_nonneg hD.le hdiv]
    rw [abs_of_nonneg hm0]
    omega

/-- A finite result of a conversion to `double` is a `double`. -/
theorem to_double_eq_fin (v : FVal) (q : ℚ) (h : FVal.to_double v = .fin q) :
    double_of q = q := by
  cases v with
  | fin a =>
    simp only [FVal.to_double, round_to] at h
    split at h
    · split at h <;> cases h
    · injection h with h
      rw [← h]
      exact round_raw_idem 53 (-1022) a (by norm_num)
  | pinf => cases h
  | ninf => cases h
  | nan => cases h

theorem double_of_intCast (z : Int) (h : |z| < 2 ^ 53) : double_of (z : ℚ) = z := by
  have := round_raw_int_mul_pow2 53 (-1022) z 0 h (by norm_num)
  have e : pow2 0 = 1 := by rw [pow2_eq]; norm_num
  rw [e, mul_one] at this
  exact this

/-- The stamp that is written for a `double` that is not negative: `sec` is
its floor when that is below `2 ^ 31` (otherwise the conversion gives
`-2 ^ 31`), `nanosec` the floor of the `double` product of the fractional part
and `1e9`, which is at most `10 ^ 9`. -/
theorem stamp_of_fin (q : ℚ) (h0 : 0 ≤ q) (hq : double_of q = q) :
    (stamp_of (.fin q)).sec = (if q < 2 ^ 31 then ⌊q⌋ else -2 ^ 31) ∧
    (stamp_of (.fin q)).nanosec = ⌊double_of ((q - ⌊q⌋) * 1000000000)⌋ ∧
    0 ≤ ⌊double_of ((q - ⌊q⌋) * 1000000000)⌋ ∧
    ⌊double_of ((q - ⌊q⌋) * 1000000000)⌋ ≤ 1000000000 := by
  have hfl0 : (0 : Int) ≤ ⌊q⌋ := Int.floor_nonneg.2 h0
  have hfr0 : 0 ≤ q - ⌊q⌋ := by linarith [Int.floor_le q]
  have hfr1 : q - ⌊q⌋ < 1 := by linarith [Int.lt_floor_add_one q]
  have hfr : double_of (q - ⌊q⌋) = q - ⌊q⌋ := round_raw_fract 53 (-1022) q h0 hq
  have hbig : (1000000000 : ℚ) ≤ pow2 1023 := by
    have : pow2 30 ≤ pow2 1023 := (pow2_le_pow2 _ _).2 (by norm_num)
    have c : pow2 30 = 1073741824 := by rw [pow2_eq]; norm_num
    rw [c] at this
    linarith
  have hp0 : 0 ≤ (q - ⌊q⌋) * 1000000000 := by positivity
  have hp1 : (q - ⌊q⌋) * 1000000000 ≤ 1000000000 := by linarith
  have hd0 : 0 ≤ double_of ((q - ⌊q⌋) * 1000000000) := double_of_nonneg _ hp0
  have hd1 : double_of ((q - ⌊q⌋) * 1000000000) ≤ 1000000000 := by
    have := double_of_mono _ _ hp1
    have e := double_of_intCast 1000000000 (by norm_num)
    push_cast at e
    rwa [e] at this
  have hf0 : (0 : Int) ≤ ⌊double_of ((q - ⌊q⌋) * 1000000000)⌋ := Int.floor_nonneg.2 hd0
  have hf1 : ⌊double_of ((q - ⌊q⌋) * 1000000000)⌋ ≤ 1000000000 := by
    have : ⌊double_of ((q - ⌊q⌋) * 1000000000)⌋ ≤ ⌊(1000000000 : ℚ)⌋ := Int.floor_le_floor hd1
    have e : ⌊(1000000000 : ℚ)⌋ = 1000000000 := by
      have := Int.floor_intCast (α := ℚ) 1000000000
      push_cast at this
      exact this
    omega
  refine ⟨?_, ?_, hf0, hf1⟩
  · simp only [stamp_of, FVal.floor, FVal.to_int32, FVal.trunc]
    have hc : ¬ ((⌊q⌋ : ℚ) < 0) := by
      have : (0 : ℚ) ≤ ⌊q⌋ := by exact_mod_cast hfl0
      linarith
    rw [if_neg hc, Int.floor_intCast]
    by_cases hlt : q < 2 ^ 31
    · have : ⌊q⌋ < 2 ^ 31 := by
        have := Int.floor_lt.2 (show q < ((2 ^ 31 : Int) : ℚ) by push_cast; exact hlt)
        exact this
      rw [if_pos hlt, if_pos ⟨by omega, this⟩]
    · have : ¬ (⌊q⌋ < 2 ^ 31) := by
        intro hfl
        have := Int.floor_lt.1 (show ⌊q⌋ < (2 ^ 31 : Int) from hfl)
        push_cast at this
        exact hlt this
      rw [if_neg hlt, if_neg (by omega)]
  · simp only [stamp_of, FVal.floor]
    rw [dsub_fin _ _ (by
      rw [abs_of_nonneg hfr0]
      linarith), hfr, dmul_fin _ _ (by
      rw [abs_of_nonneg hp0]
      linarith)]
    simp only [FVal.to_uint32, FVal.trunc]
    rw [if_neg (not_lt.2 hd0), if_pos ⟨by omega, by omega⟩]
    exact Int.emod_eq_of_lt hf0 (by omega)

theorem pow2_tiny_140 (k : Int) (hk : k ≤ -140) : pow2 k ≤ 1 / 2 ^ 140 := by
  have : pow2 k ≤ pow2 (-140) := (pow2_le_pow2 _ _).2 hk
  rw [pow2_eq (-140)] at this
  norm_num at this ⊢
  exact this

/-- A sample count or index of at most 811 is a `float`. -/
theorem to_float_natCast (n : Nat) (hn : n ≤ 811) :
    FVal.to_float (.fin (n : ℚ)) = .fin (n : ℚ) := by
  have h1 : float_of (n : ℚ) = n := by
    have := float_of_intCast (n : Int) (by
      rw [abs_of_nonneg (by positivity)]
      omega)
    exact_mod_cast this
  have h2 : |(n : ℚ)| ≤ pow2 127 := by
    have c : pow2 10 = 1024 := by rw [pow2_eq]; norm_num
    have := (pow2_le_big 10 (by norm_num)).1
    rw [c] at this
    have hq : (n : ℚ) ≤ 811 := by exact_mod_cast hn
    rw [abs_of_nonneg (by positivity)]
    linarith
  rw [to_float_fin _ h2, h1]

/-- The local `start_time_adjusted` for a finite time increment and a clock
reading and an offset of at most `2 ^ 62`: the value of the expression with
its roundings, and its distance from the value in exact arithmetic. -/
theorem start_time_value (now : ℚ) (n idx : Nat) (ti off : ℚ) (hn : n ≤ 811) (hidx : idx ≤ 811)
    (hti0 : 0 ≤ ti) (hti : ti ≤ 2 ^ 20) (hnow : |now| ≤ 2 ^ 62) (hoff : |off| ≤ 2 ^ 62) :
    start_time now n idx (.fin ti) off
      = .fin (double_of (double_of (double_of (now - float_of ((n : ℚ) * ti))
          + float_of ((idx : ℚ) * ti)) + off)) ∧
    |double_of (double_of (double_of (now - float_of ((n : ℚ) * ti))
          + float_of ((idx : ℚ) * ti)) + off)
        - (now - (n : ℚ) * ti + (idx : ℚ) * ti + off)|
      ≤ ((n : ℚ) + (idx : ℚ)) * ti / 2 ^ 24
        + 4 * (|now| + |off| + ((n : ℚ) + (idx : ℚ)) * ti) / 2 ^ 53 + 1 / 2 ^ 100 := by
  have e53 : pow2 (-53) = 1 / 2 ^ 53 := by rw [pow2_eq]; norm_num
  have e24 : pow2 (-24) = 1 / 2 ^ 24 := by rw [pow2_eq]; norm_num
  have c30 : pow2 30 = 2 ^ 30 := by rw [pow2_eq]; norm_num
  have c66 : pow2 66 = 2 ^ 66 := by rw [pow2_eq]; norm_num
  have eta := pow2_tiny_140 (-1075) (by norm_num)
  have eta' := pow2_tiny_140 (-150) (by norm_num)
  have eta0 := (pow2_pos (-1075)).le
  have eta0' := (pow2_pos (-150)).le
  have hnq : (n : ℚ) ≤ 811 := by exact_mod_cast hn
  have hiq : (idx : ℚ) ≤ 811 := by exact_mod_cast hidx
  have hn0 : (0 : ℚ) ≤ n := by positivity
  have hi0 : (0 : ℚ) ≤ idx := by positivity
  have hp1 : 0 ≤ (n : ℚ) * ti := mul_nonneg hn0 hti0
  have hp2 : 0 ≤ (idx : ℚ) * ti := mul_nonneg hi0 hti0
  have hp1le : (n : ℚ) * ti ≤ 2 ^ 30 := by
    have := mul_le_mul hnq hti hti0 (by norm_num : (0 : ℚ) ≤ 811)
    linarith
  have hp2le : (idx : ℚ) * ti ≤ 2 ^ 30 := by
    have := mul_le_mul hiq hti hti0 (by norm_num : (0 : ℚ) ≤ 811)
    linarith
  have a1 : |(n : ℚ) * ti| ≤ pow2 30 := by rw [abs_of_nonneg hp1, c30]; exact hp1le
  have a2 : |(idx : ℚ) * ti| ≤ pow2 30 := by rw [abs_of_nonneg hp2, c30]; exact hp2le
  have f1 := float_of_abs_le _ 30 (by norm_num) a1
  have f2 := float_of_abs_le _ 30 (by norm_num) a2
  have g1 := float_of_nonneg _ hp1
  have g2 := float_of_nonneg _ hp2
  rw [abs_of_nonneg g1, c30] at f1
  rw [abs_of_nonneg g2, c30] at f2
  have sn := abs_le.1 hnow
  have so := abs_le.1 hoff
  -- the three sums stay below `2 ^ 66`
  have b1 : |now - float_of ((n : ℚ) * ti)| ≤ pow2 66 := by
    rw [c66, abs_le]
    constructor <;> linarith
  have d1 := double_of_abs_le _ 66 (by norm_num) b1
  have sd1 := abs_le.1 (by rw [c66] at d1; exact d1)
  have b2 : |double_of (now - float_of ((n : ℚ) * ti)) + float_of ((idx : ℚ) * ti)|
      ≤ pow2 67 := by
    have c67 : pow2 67 = 2 ^ 67 := by rw [pow2_eq]; norm_num
    rw [c67, abs_le]
    constructor <;> linarith [sd1.1, sd1.2]
  have d2 := double_of_abs_le _ 67 (by norm_num) b2
  have c67 : pow2 67 = 2 ^ 67 := by rw [pow2_eq]; norm_num
  have sd2 := abs_le.1 (by rw [c67] at d2; exact d2)
  have b3 : |double_of (double_of (now - float_of ((n : ℚ) * ti)) + float_of ((idx : ℚ) * ti))
      + off| ≤ pow2 68 := by
    have c68 : pow2 68 = 2 ^ 68 := by rw [pow2_eq]; norm_num
    rw [c68, abs_le]
    constructor <;> linarith [sd2.1, sd2.2]
  constructor
  · simp only [start_time]
    rw [to_float_natCast n hn, to_float_natCast idx hidx,
      fmul_fin _ _ (le_trans a1 (pow2_le_big 30 (by norm_num)).1),
      fmul_fin _ _ (le_trans a2 (pow2_le_big 30 (by norm_num)).1),
      dsub_fin _ _ (le_trans b1 ((pow2_le_pow2 _ _).2 (by norm_num))),
      dadd_fin _ _ (le_trans b2 ((pow2_le_pow2 _ _).2 (by norm_num))),
      dadd_fin _ _ (le_trans b3 ((pow2_le_pow2 _ _).2 (by norm_num)))]
  · -- the rounding errors of the five operations
    have r1 := float_of_err ((n : ℚ) * ti)
    have r2 := float_of_err ((idx : ℚ) * ti)
    have r3 := double_of_err (now - float_of ((n : ℚ) * ti))
    have r4 := double_of_err
      (double_of (now - float_of ((n : ℚ) * ti)) + float_of ((idx : ℚ) * ti))
    have r5 := double_of_err
      (double_of (double_of (now - float_of ((n : ℚ) * ti)) + float_of ((idx : ℚ) * ti)) + off)
    rw [abs_of_nonneg hp1, e24] at r1
    rw [abs_of_nonneg hp2, e24] at r2
    rw [e53] at r3 r4 r5
    have s1 := abs_le.1 r1
    have s2 := abs_le.1 r2
    have hN := abs_nonneg now
    have hO := abs_nonneg off
    -- the sizes of the three sums
    have m1 : |now - float_of ((n : ℚ) * ti)| ≤ |now| + float_of ((n : ℚ) * ti) := by
      have := abs_sub now (float_of ((n : ℚ) * ti))
      rwa [abs_of_nonneg g1] at this
    have k1 : |double_of (now - float_of ((n : ℚ) * ti))|
        ≤ |now - float_of ((n : ℚ) * ti)|
          + (|now - float_of ((n : ℚ) * ti)| * (1 / 2 ^ 53) + pow2 (-1075)) := by
      have := abs_sub_abs_le_abs_sub (double_of (now - float_of ((n : ℚ) * ti)))
        (now - float_of ((n : ℚ) * ti))
      linarith
    have m2 : |double_of (now - float_of ((n : ℚ) * ti)) + float_of ((idx : ℚ) * ti)|
        ≤ |double_of (now - float_of ((n : ℚ) * ti))| + float_of ((idx : ℚ) * ti) := by
      have := abs_add (double_of (now - float_of ((n : ℚ) * ti))) (float_of ((idx : ℚ) * ti))
      rwa [abs_of_nonneg g2] at this
    have k2 : |double_of (double_of (now - float_of ((n : ℚ) * ti))
          + float_of ((idx : ℚ) * ti))|
        ≤ |double_of (now - float_of ((n : ℚ) * ti)) + float_of ((idx : ℚ) * ti)|
          + (|double_of (now - float_of ((n : ℚ) * ti)) + float_of ((idx : ℚ) * ti)|
            * (1 / 2 ^ 53) + pow2 (-1075)) := by
      have := abs_sub_abs_le_abs_sub
        (double_of (double_of (now - float_of ((n : ℚ) * ti)) + float_of ((idx : ℚ) * ti)))
        (double_of (now - float_of ((n : ℚ) * ti)) + float_of ((idx : ℚ) * ti))
      linarith
    have m3 := abs_add
      (double_of (double_of (now - float_of ((n : ℚ) * ti)) + float_of ((idx : ℚ) * ti))) off
    have key : double_of (double_of (double_of (now - float_of ((n : ℚ) * ti))
          + float_of ((idx : ℚ) * ti)) + off)
        - (now - (n : ℚ) * ti + (idx : ℚ) * ti + off)
        = (double_of (double_of (double_of (now - float_of ((n : ℚ) * ti))
            + float_of ((idx : ℚ) * ti)) + off)
            - (double_of (double_of (now - float_of ((n : ℚ) * ti))
              + float_of ((idx : ℚ) * ti)) + off))
          + ((double_of (double_of (now - float_of ((n : ℚ) * ti)) + float_of ((idx : ℚ) * ti))
              - (double_of (now - float_of ((n : ℚ) * ti)) + float_of ((idx : ℚ) * ti)))
            + ((double_of (now - float_of ((n : ℚ) * ti)) - (now - float_of ((n : ℚ) * ti)))
              + ((float_of ((idx : ℚ) * ti) - (idx : ℚ) * ti)
                - (float_of ((n : ℚ) * ti) - (n : ℚ) * ti)))) := by ring
    rw [key]
    refine le_trans (abs_add _ _) ?_
    refine le_trans (add_le_add_left (abs_add _ _) _) ?_
    refine le_trans (add_le_add_left (add_le_add_left (abs_add _ _) _) _) ?_
    refine le_trans (add_le_add_left (add_le_add_left (add_le_add_left (abs_sub _ _) _) _) _) ?_
    linarith

theorem check_rssi_warnings (fields : List Token) (stack : Nat → Nat) (n k : Nat) (rssi : Bool)
    (w : List Warning) (h : check_rssi fields stack n = .ok k rssi w) :
    ∀ x ∈ w, x = .rssiMarkerMismatch := by
  simp only [check_rssi] at h
  repeat' split at h
  all_goals first
    | (injection h with _ _ h3; subst h3; simp)
    | cases h

theorem check_telegram_warnings (fields : List Token) (stack : Nat → Nat) (n : Nat)
    (rssi : Bool) (w : List Warning) (h : check_telegram fields stack = .ok n rssi w) :
    ∀ x ∈ w, x = .rssiMarkerMismatch := by
  obtain ⟨-, -, -, hl⟩ := check_telegram_ok _ _ _ _ _ h
  obtain ⟨-, -, -, -, -, -, hr⟩ := check_lengths_ok _ _ _ _ _ hl
  exact check_rssi_warnings _ _ _ _ _ _ hr

theorem write_intensities_warnings (fields : List Token) (stack : Nat → Nat)
    (intensity rssi : Bool) (number_of_data n index_min : Nat) (old : List FVal)
    (iw : List FVal × List Warning)
    (h : write_intensities fields stack intensity rssi number_of_data n index_min old = .ok iw) :
    ∀ x ∈ iw.2, x = .intensityWithoutRssi := by
  simp only [write_intensities] at h
  repeat' split at h
  all_goals first
    | (injection h with h; subst h; simp)
    | cases h

theorem check_timing_warnings (a b c : FVal) :
    ∀ x ∈ check_timing a b c, x = .inconsistentTiming := by
  simp only [check_timing]
  split <;> simp

/-- What a successful call says about the time stamp. -/
theorem parse_datagram_stamp (self : SickTim5512050001Parser) (fuel : Nat)
    (datagram : List Char) (config : SickTimConfig) (now : ℚ) (stack : Nat → Nat)
    (msg : LaserScan) (m : LaserScan) (t : Trace)
    (h : parse_datagram self fuel datagram config now stack msg = .ExitSuccess m t) :
    t.start_time_adjusted
      = start_time now t.number_of_data t.index_min m.time_increment config.time_offset ∧
    m.header.stamp = (write_stamp t.start_time_adjusted msg.header.stamp).1 ∧
    (Warning.negativeTimestamp ∈ t.warnings ↔
      Warning.negativeTimestamp ∈ (write_stamp t.start_time_adjusted msg.header.stamp).2) := by
  rw [parse_datagram_eq_ExitSuccess] at h
  obtain ⟨n, rssi, w, hn, hr⟩ := h
  have hw := check_telegram_warnings _ _ _ _ _ hn
  obtain ⟨g, lo, hi, ranges, iw, hg, -, -, -, -, hiw, hm, ht⟩ :=
    read_scan_ok _ _ _ _ _ _ _ _ _ _ _ _ hr
  have hiw' := write_intensities_warnings _ _ _ _ _ _ _ _ _ hiw
  have hct := check_timing_warnings g.scan_time g.angle_increment g.time_increment
  subst hm ht
  refine ⟨rfl, rfl, ?_⟩
  simp only [List.mem_append]
  constructor
  · rintro (((h | h) | h) | h)
    · exact absurd (hw _ h) (by decide)
    · exact absurd (hiw' _ h) (by decide)
    · exact h
    · exact absurd (hct _ h) (by decide)
  · intro h
    exact Or.inl (Or.inr h)

/-- A successful call succeeds at every clock reading, with the same scan
apart from the time stamp. -/
theorem parse_datagram_other_clock (self : SickTim5512050001Parser) (fuel : Nat)
    (datagram : List Char) (config : SickTimConfig) (now : ℚ) (stack : Nat → Nat)
    (msg : LaserScan) (m : LaserScan) (t : Trace)
    (h : parse_datagram self fuel datagram config now stack msg = .ExitSuccess m t) (now2 : ℚ) :
    ∃ m2 t2, parse_datagram self fuel datagram config now2 stack msg = .ExitSuccess m2 t2 ∧
      { m2 with header := m.header } = m ∧ m2.header.frame_id = m.header.frame_id ∧
      t2.index_min = t.index_min ∧ t2.index_max = t.index_max := by
  rw [parse_datagram_eq_ExitSuccess] at h
  obtain ⟨n, rssi, w, hn, hr⟩ := h
  obtain ⟨g, lo, hi, ranges, iw, hg, hlo, hhi, hsz, hrs, hiw, hm, ht⟩ :=
    read_scan_ok _ _ _ _ _ _ _ _ _ _ _ _ hr
  have hr2 : ∃ r, read_scan self fuel (tokenize datagram) config now2 stack msg n rssi w = .ok r ∧
      { r.1 with header := m.header } = m ∧ r.1.header.frame_id = m.header.frame_id ∧
      r.2.index_min = t.index_min ∧ r.2.index_max = t.index_max := by
    simp only [read_scan, hg, hlo, hhi, hrs, hiw]
    rw [if_neg (by omega)]
    subst hm ht
    exact ⟨_, rfl, rfl, rfl, rfl, rfl⟩
  obtain ⟨r, hr2, h1, h2, h3, h4⟩ := hr2
  exact ⟨r.1, r.2, (parse_datagram_eq_ExitSuccess _ _ _ _ _ _ _ _ _).2 ⟨n, rssi, w, hn, hr2⟩,
    h1, h2, h3, h4⟩

theorem tokenize_five_sample_tokens :
    tokenize (telegram_of five_sample_tokens) = five_sample_tokens :=
  tokenize_telegram_of _ (by decide)

/-- C13, as stated, fails: in the example of the specification (clock
reading 1000, 5 samples, time increment 0.001 set by `set_time_increment`,
`index_min = 0`, time offset -0.001) the call succeeds with the time increment
`0x3a83126f`, the `float` nearest to 0.001, and with a start that is not
999.994, not the `double` nearest to 999.994, and not the value of `now - N *
time_increment + index_min * time_increment + time_offset` in exact
arithmetic for the time increment and the time offset that the code holds:
it is below 999.994 by more than `2 / 10 ^ 10`, and the stamp has 993999999
nanoseconds. -/
theorem start_time_is_rounded :
    (parse_datagram parser_with_time_increment 1 (telegram_of five_sample_tokens) sample_config
        1000 zero_stack empty_scan).trace.map
          (fun t => (t.number_of_data, t.index_min, t.start_time_adjusted))
      = some (5, 0, .fin (4398020122823377 / 4398046511104)) ∧
    (parse_datagram parser_with_time_increment 1 (telegram_of five_sample_tokens) sample_config
        1000 zero_stack empty_scan).scan.map (fun m => (m.time_increment, m.header.stamp))
      = some (.fin (8589935 / 8589934592), { sec := 999, nanosec := 993999999 }) ∧
    parser_with_time_increment.override_time_increment_ = float_of (double_of (1 / 1000)) ∧
    sample_config.time_offset = double_of (-1 / 1000) ∧
    (4398020122823377 / 4398046511104 : ℚ) ≠ 999994 / 1000 ∧
    (4398020122823377 / 4398046511104 : ℚ) ≠ double_of (999994 / 1000) ∧
    (4398020122823377 / 4398046511104 : ℚ)
      ≠ 1000 - 5 * (8589935 / 8589934592) + 0 * (8589935 / 8589934592)
        + sample_config.time_offset ∧
    (4398020122823377 / 4398046511104 : ℚ) + 2 / 10 ^ 10 < 999994 / 1000 := by
  rw [parse_datagram, tokenize_five_sample_tokens]
  exact ⟨by decide!, by decide!, rfl, rfl, by norm_num, by decide!, by decide!, by norm_num⟩

/-- C13, amended: after a successful call, with `N` the sample count and
`time_increment` the `float` output time increment, the local
`start_time_adjusted` is the `double` value of `now - N * time_increment +
index_min * time_increment + time_offset`, in which the two products are
rounded to `float` and the difference and each sum to `double`.  For a finite
time increment between 0 and `2 ^ 20` and a clock reading and a time offset of
at most `2 ^ 62` it is finite and within `(N + index_min) * time_increment /
2 ^ 24 + 4 * (|now| + |time_offset| + (N + index_min) * time_increment) /
2 ^ 53 + 1 / 2 ^ 100` of the value in exact arithmetic.  When the comparison
`start_time_adjusted >= 0.0` holds the stamp is written and no warning about
the time is issued: for a finite start `q`, `sec` is the floor of `q` if `q <
2 ^ 31` and `-2 ^ 31` otherwise, and `nanosec` is the floor of the `double`
product of the fractional part of `q` and `1e9`, between 0 and `10 ^ 9`.
When the comparison does not hold the stamp is left as it was and the warning
is issued.  The clock reading only decides the stamp: the call succeeds at
every clock reading with the same other fields.  For `now = 1000`, `N = 5`,
the `float` time increment nearest to 0.001, `index_min = 0` and the `double`
time offset nearest to -0.001 the start is `4398020122823377 / 2 ^ 42`, about
999.99399999976. -/
theorem start_time_reconstruction (self : SickTim5512050001Parser) (fuel : Nat)
    (datagram : List Char) (config : SickTimConfig) (now : ℚ) (stack : Nat → Nat)
    (msg : LaserScan) (m : LaserScan) (t : Trace)
    (h : parse_datagram self fuel datagram config now stack msg = .ExitSuccess m t) :
    t.start_time_adjusted
      = start_time now t.number_of_data t.index_min m.time_increment config.time_offset ∧
    (∀ ti, m.time_increment = .fin ti → 0 ≤ ti → ti ≤ 2 ^ 20 → |now| ≤ 2 ^ 62 →
      |config.time_offset| ≤ 2 ^ 62 →
      t.start_time_adjusted
        = .fin (double_of (double_of (double_of (now - float_of ((t.number_of_data : ℚ) * ti))
            + float_of ((t.index_min : ℚ) * ti)) + config.time_offset)) ∧
      |double_of (double_of (double_of (now - float_of ((t.number_of_data : ℚ) * ti))
            + float_of ((t.index_min : ℚ) * ti)) + config.time_offset)
          - (now - (t.number_of_data : ℚ) * ti + (t.index_min : ℚ) * ti + config.time_offset)|
        ≤ ((t.number_of_data : ℚ) + (t.index_min : ℚ)) * ti / 2 ^ 24
          + 4 * (|now| + |config.time_offset|
            + ((t.number_of_data : ℚ) + (t.index_min : ℚ)) * ti) / 2 ^ 53 + 1 / 2 ^ 100) ∧
    (FVal.ge t.start_time_adjusted (.fin 0) = true →
      m.header.stamp = stamp_of t.start_time_adjusted ∧
      Warning.negativeTimestamp ∉ t.warnings ∧
      ∀ q, t.start_time_adjusted = .fin q →
        0 ≤ q ∧ m.header.stamp.sec = (if q < 2 ^ 31 then ⌊q⌋ else -2 ^ 31) ∧
        m.header.stamp.nanosec = ⌊double_of ((q - ⌊q⌋) * 1000000000)⌋ ∧
        0 ≤ m.header.stamp.nanosec ∧ m.header.stamp.nanosec ≤ 1000000000) ∧
    (FVal.ge t.start_time_adjusted (.fin 0) = false →
      m.header.stamp = msg.header.stamp ∧ Warning.negativeTimestamp ∈ t.warnings) ∧
    (∀ now2, ∃ m2 t2,
      parse_datagram self fuel datagram config now2 stack msg = .ExitSuccess m2 t2 ∧
      { m2 with header := m.header } = m ∧ m2.header.frame_id = m.header.frame_id ∧
      t2.index_min = t.index_min ∧ t2.index_max = t.index_max) ∧
    start_time 1000 5 0 (.fin (float_of (double_of (1 / 1000)))) (double_of (-1 / 1000))
      = .fin (4398020122823377 / 4398046511104) := by
  obtain ⟨hst, hstamp, hwarn⟩ := parse_datagram_stamp _ _ _ _ _ _ _ _ _ h
  obtain ⟨-, hn2, himax, himin⟩ := parse_datagram_indices _ _ _ _ _ _ _ _ _ h
  refine ⟨hst, fun ti hti h0 h1 hnow hoff => ?_, fun hge => ?_, fun hge => ?_,
    parse_datagram_other_clock _ _ _ _ _ _ _ _ _ h, by decide!⟩
  · rw [hst, hti]
    exact start_time_value now _ _ ti config.time_offset hn2 (by omega) h0 h1 hnow hoff
  · simp only [write_stamp, hge, if_true] at hstamp hwarn
    refine ⟨hstamp, by rw [hwarn]; simp, fun q hq => ?_⟩
    have hq0 : 0 ≤ q := by
      rw [hq] at hge
      simpa [FVal.ge] using hge
    have hdq : double_of q = q := by
      rw [hst] at hq
      exact to_double_eq_fin _ _ hq
    obtain ⟨s1, s2, s3, s4⟩ := stamp_of_fin q hq0 hdq
    rw [hstamp, hq]
    exact ⟨hq0, s1, s2, by rw [s2]; exact s3, by rw [s2]; exact s4⟩
  · simp only [write_stamp, hge] at hstamp hwarn
    exact ⟨hstamp, by rw [hwarn]; simp⟩

/-- C13, at the sample telegram parsed at time 1000: the start is the
rounded value, within the bound of the value in exact arithmetic, and the
stamp is written. -/
theorem start_time_reconstruction_witness :
    parse_datagram SickTim5512050001Parser.new 1 (telegram_of sample_tokens) sample_config
      1000 zero_stack empty_scan = .ExitSuccess sample_scan sample_trace ∧
    sample_trace.start_time_adjusted
      = start_time 1000 sample_trace.number_of_data sample_trace.index_min
          sample_scan.time_increment sample_config.time_offset ∧
    (sample_trace.start_time_adjusted
        = .fin (double_of (double_of (double_of
            (1000 - float_of ((sample_trace.number_of_data : ℚ) * (12725829 / 68719476736)))
            + float_of ((sample_trace.index_min : ℚ) * (12725829 / 68719476736)))
            + sample_config.time_offset)) ∧
      |double_of (double_of (double_of
            (1000 - float_of ((sample_trace.number_of_data : ℚ) * (12725829 / 68719476736)))
            + float_of ((sample_trace.index_min : ℚ) * (12725829 / 68719476736)))
            + sample_config.time_offset)
          - (1000 - (sample_trace.number_of_data : ℚ) * (12725829 / 68719476736)
            + (sample_trace.index_min : ℚ) * (12725829 / 68719476736)
            + sample_config.time_offset)|
        ≤ ((sample_trace.number_of_data : ℚ) + (sample_trace.index_min : ℚ))
            * (12725829 / 68719476736) / 2 ^ 24
          + 4 * (|(1000 : ℚ)| + |sample_config.time_offset|
            + ((sample_trace.number_of_data : ℚ) + (sample_trace.index_min : ℚ))
              * (12725829 / 68719476736)) / 2 ^ 53 + 1 / 2 ^ 100) ∧
    (FVal.ge sample_trace.start_time_adjusted (.fin 0) = true →
      sample_scan.header.stamp = stamp_of sample_trace.start_time_adjusted ∧
      Warning.negativeTimestamp ∉ sample_trace.warnings ∧
      ∀ q, sample_trace.start_time_adjusted = .fin q →
        0 ≤ q ∧ sample_scan.header.stamp.sec = (if q < 2 ^ 31 then ⌊q⌋ else -2 ^ 31) ∧
        sample_scan.header.stamp.nanosec = ⌊double_of ((q - ⌊q⌋) * 1000000000)⌋ ∧
        0 ≤ sample_scan.header.stamp.nanosec ∧
        sample_scan.header.stamp.nanosec ≤ 1000000000) :=
  ⟨parse_sample_tokens,
    (start_time_reconstruction SickTim5512050001Parser.new 1 (telegram_of sample_tokens)
      sample_config 1000 zero_stack empty_scan sample_scan sample_trace parse_sample_tokens).1,
    (start_time_reconstruction SickTim5512050001Parser.new 1 (telegram_of sample_tokens)
      sample_config 1000 zero_stack empty_scan sample_scan sample_trace
      parse_sample_tokens).2.1 (12725829 / 68719476736) rfl (by norm_num) (by norm_num)
        (by norm_num) (by decide!),
    (start_time_reconstruction SickTim5512050001Parser.new 1 (telegram_of sample_tokens)
      sample_config 1000 zero_stack empty_scan sample_scan sample_trace
      parse_sample_tokens).2.2.1⟩

/-! ## Termination -/

theorem tokenize_zero_step_tokens :
    tokenize (telegram_of zero_step_tokens) = zero_step_tokens :=
  tokenize_telegram_of _ (by decide)

/-- C14, the code at the failing input: the sample telegram with the angular
step width "0" (so `angle_increment = 0`, `angle_min` about -2.356) parsed
with `min_ang = -2.33`.  The condition `angle_min + angle_increment < min_ang`
of the first angle loop holds and the body does not change it: the loop is
still running after any number of steps. -/
theorem zero_step_never_returns (fuel : Nat) :
    parse_datagram SickTim5512050001Parser.new fuel (telegram_of zero_step_tokens)
      narrow_config 1000 zero_stack empty_scan = .fault .outOfFuel := by
  have hc : check_telegram zero_step_tokens zero_stack = .ok 3 false [] := by decide
  have hg : decode_geometry SickTim5512050001Parser.new zero_step_tokens 3
      = .ok { scan_time := .fin (8947849 / 134217728),
              time_increment := .fin (12725829 / 68719476736),
              angle_min := .fin (-2470649 / 1048576),
              angle_increment := .fin 0,
              angle_max := .fin (-2470649 / 1048576) } := by decide!
  have ht := trim_min_stuck (.fin 0) (.fin (-2470649 / 1048576)) narrow_config.min_ang
    (by decide!) (by decide!) fuel 0
  rw [parse_datagram, tokenize_zero_step_tokens]
  simp only [parse_fields, hc, read_scan, hg, ht]

/-! ## Token indices -/

theorem tokenize_flag_without_block_tokens :
    tokenize (telegram_of flag_without_block_tokens) = flag_without_block_tokens :=
  tokenize_telegram_of _ (by decide)

/-! ## Rejection leaves the message alone -/

/-- C20: when `parse_datagram` returns an error, whichever of the six, the
scan message is the one the caller passed in: nothing has been written. -/
theorem rejection_is_atomic (self : SickTim5512050001Parser) (fuel : Nat)
    (datagram : List Char) (config : SickTimConfig) (now : ℚ) (stack : Nat → Nat)
    (msg : LaserScan) (r : Reject) (m : LaserScan)
    (h : parse_datagram self fuel datagram config now stack msg = .ExitError r m) :
    m = msg :=
  ((parse_datagram_eq_ExitError _ _ _ _ _ _ _ _ _).1 h).2

theorem parse_mismatch_tokens :
    parse_datagram SickTim5512050001Parser.new 1 (telegram_of mismatch_tokens)
      sample_config 1000 zero_stack sample_scan
        = .ExitError .RssiSampleCountMismatch sample_scan := by
  rw [parse_datagram_eq_ExitError, tokenize_mismatch_tokens]
  exact ⟨by decide, rfl⟩

/-- C20, at the telegram with mismatching RSSI sample count, called with the
message of an earlier scan: the message comes back unchanged. -/
theorem rejection_is_atomic_witness :
    parse_datagram SickTim5512050001Parser.new 1 (telegram_of mismatch_tokens)
      sample_config 1000 zero_stack sample_scan
        = .ExitError .RssiSampleCountMismatch sample_scan ∧
    sample_scan = sample_scan :=
  ⟨parse_mismatch_tokens,
    rejection_is_atomic SickTim5512050001Parser.new 1 (telegram_of mismatch_tokens)
      sample_config 1000 zero_stack sample_scan .RssiSampleCountMismatch sample_scan
      parse_mismatch_tokens⟩

/-! ## The angle window -/

theorem angle_min_after_succ (d : FVal) : ∀ (k : Nat) (a : FVal),
    angle_min_after d (k + 1) a = FVal.fadd (angle_min_after d k a) d := by
  intro k
  induction k with
  | zero => intro a; rfl
  | succ k ih =>
    intro a
    have := ih (FVal.fadd a d)
    simp only [angle_min_after] at this ⊢
    exact this

theorem angle_max_after_succ (d : FVal) : ∀ (k : Nat) (a : FVal),
    angle_max_after d (k + 1) a = FVal.fsub (angle_max_after d k a) d := by
  intro k
  induction k with
  | zero => intro a; rfl
  | succ k ih =>
    intro a
    have := ih (FVal.fsub a d)
    simp only [angle_max_after] at this ⊢
    exact this

/-- The angle of the first angle loop after `k` runs: a finite `float`
between the start and the larger of the start and `min_ang`, that differs from
the sum in exact arithmetic by at most one rounding error for each run. -/
theorem angle_min_after_drift (a d M : ℚ) (ha : |a| ≤ pow2 15) (hd0 : 0 ≤ d) (hd : d ≤ 1 / 4)
    (hfa : float_of a = a) (hM : |M| ≤ 2 ^ 100) :
    ∀ k : Nat,
      (∀ j : Nat, j < k →
        FVal.lt (FVal.fadd (angle_min_after (.fin d) j (.fin a)) (.fin d)) (.fin M) = true) →
      ∃ x : ℚ, angle_min_after (.fin d) k (.fin a) = .fin x ∧ float_of x = x ∧ a ≤ x ∧
        x ≤ max a M ∧
        |x - (a + (k : ℚ) * d)| ≤ (k : ℚ) * ((max |a| |M| + d) / 2 ^ 24 + 1 / 2 ^ 150) := by
  have c15 : pow2 15 = 32768 := by rw [pow2_eq]; norm_num
  have c101 : pow2 101 = 2 ^ 101 := by rw [pow2_eq]; norm_num
  have e24 : pow2 (-24) = 1 / 2 ^ 24 := by rw [pow2_eq]; norm_num
  have e150 : pow2 (-150) = 1 / 2 ^ 150 := by rw [pow2_eq]; norm_num
  rw [c15] at ha
  have sa := abs_le.1 ha
  have sM := abs_le.1 hM
  intro k
  induction k with
  | zero =>
    intro _
    exact ⟨a, rfl, hfa, le_rfl, le_max_left _ _, by simp⟩
  | succ k ih =>
    intro hrun
    obtain ⟨x, hx, hfx, hax, hxM, herr⟩ := ih (fun j hj => hrun j (by omega))
    have hc := hrun k (by omega)
    have hxle : x ≤ 2 ^ 100 := le_trans hxM (max_le (by linarith) sM.2)
    have hsum : |x + d| ≤ pow2 101 := by
      rw [c101, abs_le]
      constructor <;> linarith
    rw [hx, fadd_fin _ _ (le_trans hsum (pow2_le_big 101 (by norm_num)).1)] at hc
    have hlt : float_of (x + d) < M := by
      simpa [FVal.lt, FVal.gt] using hc
    have hge : x ≤ float_of (x + d) := by
      have := float_of_mono x (x + d) (by linarith)
      rwa [hfx] at this
    have hB1 : |a| ≤ max |a| |M| := le_max_left _ _
    have hB2 : |M| ≤ max |a| |M| := le_max_right _ _
    have hsize : |x + d| ≤ max |a| |M| + d := by
      rw [abs_le]
      constructor
      · have := neg_abs_le a
        linarith
      · have h1 : x ≤ max |a| |M| :=
          le_trans hxM (max_le (le_trans (le_abs_self a) hB1) (le_trans (le_abs_self M) hB2))
        linarith
    have r := float_of_err (x + d)
    rw [e24, e150] at r
    have hstep : |float_of (x + d) - (x + d)| ≤ (max |a| |M| + d) / 2 ^ 24 + 1 / 2 ^ 150 := by
      refine le_trans r ?_
      have := mul_le_mul_of_nonneg_right hsize (show (0 : ℚ) ≤ 1 / 2 ^ 24 by positivity)
      linarith
    refine ⟨float_of (x + d), ?_, float_of_float_of _, le_trans hax hge,
      le_trans hlt.le (le_max_right _ _), ?_⟩
    · rw [angle_min_after_succ, hx,
        fadd_fin _ _ (le_trans hsum (pow2_le_big 101 (by norm_num)).1)]
    · have key : float_of (x + d) - (a + ((k + 1 : Nat) : ℚ) * d)
          = (float_of (x + d) - (x + d)) + (x - (a + (k : ℚ) * d)) := by
        push_cast
        ring
      rw [key]
      refine le_trans (abs_add _ _) ?_
      push_cast
      linarith

/-- The angle of the second angle loop after `k` runs: a finite `float`
between the smaller of the start and `max_ang` and the start, that differs
from the difference in exact arithmetic by at most one rounding error for
each run. -/
theorem angle_max_after_drift (a d M : ℚ) (ha : |a| ≤ pow2 15) (hd0 : 0 ≤ d) (hd : d ≤ 1 / 4)
    (hfa : float_of a = a) (hM : |M| ≤ 2 ^ 100) :
    ∀ k : Nat,
      (∀ j : Nat, j < k →
        FVal.gt (FVal.fsub (angle_max_after (.fin d) j (.fin a)) (.fin d)) (.fin M) = true) →
      ∃ x : ℚ, angle_max_after (.fin d) k (.fin a) = .fin x ∧ float_of x = x ∧ x ≤ a ∧
        min a M ≤ x ∧
        |x - (a - (k : ℚ) * d)| ≤ (k : ℚ) * ((max |a| |M| + d) / 2 ^ 24 + 1 / 2 ^ 150) := by
  have c15 : pow2 15 = 32768 := by rw [pow2_eq]; norm_num
  have c101 : pow2 101 = 2 ^ 101 := by rw [pow2_eq]; norm_num
  have e24 : pow2 (-24) = 1 / 2 ^ 24 := by rw [pow2_eq]; norm_num
  have e150 : pow2 (-150) = 1 / 2 ^ 150 := by rw [pow2_eq]; norm_num
  rw [c15] at ha
  have sa := abs_le.1 ha
  have sM := abs_le.1 hM
  intro k
  induction k with
  | zero =>
    intro _
    exact ⟨a, rfl, hfa, le_rfl, min_le_left _ _, by simp⟩
  | succ k ih =>
    intro hrun
    obtain ⟨x, hx, hfx, hxa, hMx, herr⟩ := ih (fun j hj => hrun j (by omega))
    have hc := hrun k (by omega)
    have hxge : -2 ^ 100 ≤ x := le_trans (le_min (by linarith) sM.1) hMx
    have hsum : |x - d| ≤ pow2 101 := by
      rw [c101, abs_le]
      constructor <;> linarith
    rw [hx, fsub_fin _ _ (le_trans hsum (pow2_le_big 101 (by norm_num)).1)] at hc
    have hgt : M < float_of (x - d) := by
      simpa [FVal.gt] using hc
    have hle : float_of (x - d) ≤ x := by
      have := float_of_mono (x - d) x (by linarith)
      rwa [hfx] at this
    have hB1 : |a| ≤ max |a| |M| := le_max_left _ _
    have hB2 : |M| ≤ max |a| |M| := le_max_right _ _
    have hsize : |x - d| ≤ max |a| |M| + d := by
      rw [abs_le]
      constructor
      · have h1 : -(max |a| |M|) ≤ x := by
          refine le_trans ?_ hMx
          refine le_min ?_ ?_
          · have := neg_abs_le a
            linarith
          · have := neg_abs_le M
            linarith
        linarith
      · have := le_abs_self a
        linarith
    have r := float_of_err (x - d)
    rw [e24, e150] at r
    have hstep : |float_of (x - d) - (x - d)| ≤ (max |a| |M| + d) / 2 ^ 24 + 1 / 2 ^ 150 := by
      refine le_trans r ?_
      have := mul_le_mul_of_nonneg_right hsize (show (0 : ℚ) ≤ 1 / 2 ^ 24 by positivity)
      linarith
    refine ⟨float_of (x - d), ?_, float_of_float_of _, le_trans hle hxa,
      le_trans (min_le_right _ _) hgt.le, ?_⟩
    · rw [angle_max_after_succ, hx,
        fsub_fin _ _ (le_trans hsum (pow2_le_big 101 (by norm_num)).1)]
    · have key : float_of (x - d) - (a - ((k + 1 : Nat) : ℚ) * d)
          = (float_of (x - d) - (x - d)) + (x - (a - (k : ℚ) * d)) := by
        push_cast
        ring
      rw [key]
      refine le_trans (abs_add _ _) ?_
      push_cast
      linarith

/-- The three angles that a telegram that passes the checks decodes to are
finite `float` values in order, with a step between 0 and 1/4. -/
theorem decode_geometry_finite (self : SickTim5512050001Parser) (fields : List Token)
    (stack : Nat → Nat) (n : Nat) (rssi : Bool) (w : List Warning) (g : Geometry)
    (hval : check_telegram fields stack = .ok n rssi w)
    (hg : decode_geometry self fields n = .ok g) :
    (1 ≤ n ∧ n ≤ 811) ∧
    ∃ a0 d amax : ℚ, g.angle_min = .fin a0 ∧ g.angle_increment = .fin d ∧
      g.angle_max = .fin amax ∧ float_of a0 = a0 ∧ float_of amax = amax ∧
      |a0| ≤ pow2 14 ∧ 0 ≤ d ∧ d ≤ 1 / 4 ∧ |amax| ≤ pow2 15 ∧ a0 ≤ amax ∧
      |amax - (a0 + ((n : ℚ) - 1) * d)| ≤ (|a0| + 2 * ((n : ℚ) - 1) * d) / 2 ^ 24 + 1 / 2 ^ 39 := by
  obtain ⟨h32, -, -, hl⟩ := check_telegram_ok _ _ _ _ _ hval
  obtain ⟨f25, -, -, hn1, hn2, -, -⟩ := check_lengths_ok _ _ _ _ _ hl
  obtain ⟨g', f23, f24, hg', -, -, hmin, hinc, hmax⟩ :=
    decode_geometry_ok self fields n (by omega) ⟨hn1, hn2⟩
  rw [hg] at hg'
  injection hg' with hg'
  subst hg'
  have hw : (sscanf_hx f24).getD 65535 < 2 ^ 16 := by
    cases hx : sscanf_hx f24 with
    | none => simp
    | some v => simpa using sscanf_hx_lt _ _ hx
  have hs := toInt32_bounds ((sscanf_x f23).getD (2 ^ 32 - 1))
  obtain ⟨-, -, -, -, a5⟩ := angle_min_of_steps _ hs
  obtain ⟨-, -, -, b4, b5⟩ := angle_increment_of_steps _ hw
  obtain ⟨-, -, -, c4, c5⟩ :=
    angle_max_of_steps _ _ n ⟨hn1, hn2⟩ a5 b4 b5 (angle_min_of_float _)
  have c2 : pow2 (-2) = 1 / 4 := by rw [pow2_eq]; norm_num
  rw [abs_of_nonneg b5, c2] at b4
  exact ⟨⟨hn1, hn2⟩, _, _, _, hmin, hinc, hmax, angle_min_of_float _, angle_max_of_float _ _ _,
    a5, b5, b4, c4, c5,
    angle_max_of_err _ _ n ⟨hn1, hn2⟩ a5 (by rw [abs_of_nonneg b5, c2]; exact b4) b5
      (angle_min_of_float _)⟩

set_option maxRecDepth 100000 in
theorem tokenize_wide_tokens : tokenize (telegram_of wide_tokens) = wide_tokens :=
  tokenize_telegram_of _ (by decide)

theorem tokenize_stuck_tokens : tokenize (telegram_of stuck_tokens) = stuck_tokens :=
  tokenize_telegram_of _ (by decide)

set_option maxRecDepth 100000 in
/-- C18, as stated, fails.  The telegram with 271 samples, start angle -45
degrees and step 1 degree decodes to `a0 = -2470649 / 2 ^ 20` and
`d = 9370165 / 2 ^ 29`.  Parsed with `max_ang = 0` the second loop stops at
`index_max = 135` and `angle_max = 91 / 2 ^ 28`, although `k = 136` is at
most `N - 1` and has `a0 + (k - 1) * d ≤ max_ang`, for the decoded `float`
values as for the values of the formulas; and `angle_max` is not `a0 +
index_max * d`.  Parsed with `min_ang = 0` the first loop stops at
`index_min = 135` and `angle_min = -91 / 2 ^ 28`, which is not `a0 +
index_min * d`, and for the values of the formulas `k = 134` already has
`a0 + (k + 1) * d ≥ min_ang`.  And the telegram with start angle 7FFFFFFF and
step 1, which is positive, parsed with `min_ang = 4000`: the addition of the
step does not change `angle_min`, and the first loop does not end. -/
theorem trimming_is_not_exact :
    check_telegram (tokenize (telegram_of wide_tokens)) zero_stack = .ok 271 false [] ∧
    (decode_geometry SickTim5512050001Parser.new (tokenize (telegram_of wide_tokens))
        271).toOption.map (fun g => (g.angle_min, g.angle_increment, g.angle_max))
      = some (.fin (-2470649 / 1048576), .fin (9370165 / 536870912),
          .fin (2470649 / 1048576)) ∧
    ((parse_datagram SickTim5512050001Parser.new 200 (telegram_of wide_tokens) zero_max_config
        1000 zero_stack empty_scan).trace.map (fun t => (t.index_min, t.index_max))
      = some (0, 135) ∧
    (parse_datagram SickTim5512050001Parser.new 200 (telegram_of wide_tokens) zero_max_config
        1000 zero_stack empty_scan).scan.map (fun m => (m.angle_min, m.angle_max))
      = some (.fin (-2470649 / 1048576), .fin (91 / 268435456)) ∧
    zero_max_config.max_ang = 0 ∧
    (136 : Int) ≤ ((271 : Nat) : Int) - 1 ∧
    (-2470649 / 1048576 : ℚ) + (((136 : Int) : ℚ) - 1) * (9370165 / 536870912) ≤ 0 ∧
    ((((-450000 : Int) : ℚ) / 10000) * M_PI / 180 - M_PI / 2)
      + (((136 : Int) : ℚ) - 1) * ((((10000 : Nat) : ℚ) / 10000) * M_PI / 180) ≤ 0 ∧
    (91 / 268435456 : ℚ) ≠ -2470649 / 1048576 + ((135 : Int) : ℚ) * (9370165 / 536870912)) ∧
    ((parse_datagram SickTim5512050001Parser.new 200 (telegram_of wide_tokens) zero_min_config
        1000 zero_stack empty_scan).trace.map (fun t => (t.index_min, t.index_max))
      = some (135, 270) ∧
    (parse_datagram SickTim5512050001Parser.new 200 (telegram_of wide_tokens) zero_min_config
        1000 zero_stack empty_scan).scan.map (fun m => (m.angle_min, m.angle_max))
      = some (.fin (-91 / 268435456), .fin (2470649 / 1048576)) ∧
    zero_min_config.min_ang = 0 ∧
    (-91 / 268435456 : ℚ) ≠ -2470649 / 1048576 + ((135 : Nat) : ℚ) * (9370165 / 536870912) ∧
    (0 : ℚ) ≤ ((((-450000 : Int) : ℚ) / 10000) * M_PI / 180 - M_PI / 2)
      + (((134 : Nat) : ℚ) + 1) * ((((10000 : Nat) : ℚ) / 10000) * M_PI / 180)) ∧
    (check_telegram (tokenize (telegram_of stuck_tokens)) zero_stack = .ok 3 false [] ∧
    (decode_geometry SickTim5512050001Parser.new (tokenize (telegram_of stuck_tokens))
        3).toOption.map (fun g => (g.angle_min, g.angle_increment))
      = some (.fin (3836411 / 1024), .fin (7676039 / 4398046511104)) ∧
    (0 : ℚ) < 7676039 / 4398046511104 ∧
    FVal.fadd (.fin (3836411 / 1024)) (.fin (7676039 / 4398046511104))
      = .fin (3836411 / 1024) ∧
    ∀ fuel, parse_datagram SickTim5512050001Parser.new fuel (telegram_of stuck_tokens)
      far_min_config 1000 zero_stack empty_scan = .fault .outOfFuel) := by
  have hc : check_telegram stuck_tokens zero_stack = .ok 3 false [] := by decide
  have hg : decode_geometry SickTim5512050001Parser.new stuck_tokens 3
      = .ok { scan_time := .fin (8947849 / 134217728),
              time_increment := .fin (12725829 / 68719476736),
              angle_min := .fin (3836411 / 1024),
              angle_increment := .fin (7676039 / 4398046511104),
              angle_max := .fin (3836411 / 1024) } := by decide!
  have hfix : FVal.fadd (.fin (3836411 / 1024)) (.fin (7676039 / 4398046511104))
      = .fin (3836411 / 1024) := by decide!
  simp only [parse_datagram, tokenize_wide_tokens, tokenize_stuck_tokens]
  refine ⟨by decide, by decide!, ⟨by decide!, by decide!, rfl, by decide, by norm_num,
    by unfold M_PI; norm_num, by norm_num⟩,
    ⟨by decide!, by decide!, rfl, by norm_num, by unfold M_PI; norm_num⟩,
    hc, by rw [hg]; rfl, by norm_num, hfix, fun fuel => ?_⟩
  have ht := trim_min_stuck (.fin (7676039 / 4398046511104)) (.fin (3836411 / 1024))
    far_min_config.min_ang hfix (by decide!) fuel 0
  simp only [parse_fields, hc, read_scan, hg, ht]

/-- C18, amended: for a telegram that passes the checks, with `a0`, `d` and
`amax` the decoded `angle_min`, `angle_increment` and `angle_max` (finite
`float` values with `0 ≤ d`): the first angle loop stops, given enough fuel,
exactly when its condition `angle_min + d < min_ang`, with the sum rounded to
`float`, is false after some number of runs, and then `index_min` is the
least such number `k` and `angle_min` is `a0` after `k` additions of `d` in
`float`; the second loop likewise stops after the least number `k` of runs
for which `angle_max - d > max_ang` is false, with `index_max = N - 1 - k` and
`angle_max` equal to `amax` after `k` subtractions of `d` in `float`; a loop
whose condition stays true does not stop.  A successful call has these as
`index_min`, `index_max`, `angle_min` and `angle_max`.  The output angles
are near the exact lock-step values: for bounds of at most `2 ^ 100`,
`angle_min` differs from `a0 + index_min * d` by at most `index_min * ((max
|a0| |min_ang| + d) / 2 ^ 24 + 1 / 2 ^ 150)`, and `angle_max` differs from
`a0 + index_max * d` by at most `(N - 1 - index_max) * ((max |amax| |max_ang|
+ d) / 2 ^ 24 + 1 / 2 ^ 150) + (|a0| + 2 * (N - 1) * d) / 2 ^ 24 +
1 / 2 ^ 39`. -/
theorem trimming_lock_step (self : SickTim5512050001Parser) (datagram : List Char)
    (config : SickTimConfig) (stack : Nat → Nat) (n : Nat) (rssi : Bool) (w : List Warning)
    (g : Geometry)
    (hval : check_telegram (tokenize datagram) stack = .ok n rssi w)
    (hg : decode_geometry self (tokenize datagram) n = .ok g) :
    (∃ a0 d amax : ℚ, g.angle_min = .fin a0 ∧ g.angle_increment = .fin d ∧
      g.angle_max = .fin amax ∧ 0 ≤ d ∧ a0 ≤ amax) ∧
    (∀ (fuel : Nat) (lo : FVal × Nat),
      trim_min g.angle_increment config.min_ang fuel g.angle_min 0 = some lo ↔
        lo.2 < fuel ∧ lo.1 = angle_min_after g.angle_increment lo.2 g.angle_min ∧
        FVal.lt (FVal.fadd (angle_min_after g.angle_increment lo.2 g.angle_min)
          g.angle_increment) (.fin config.min_ang) = false ∧
        ∀ j : Nat, j < lo.2 →
          FVal.lt (FVal.fadd (angle_min_after g.angle_increment j g.angle_min)
            g.angle_increment) (.fin config.min_ang) = true) ∧
    (∀ (fuel : Nat) (hi : FVal × Int),
      trim_max g.angle_increment config.max_ang fuel g.angle_max ((n : Int) - 1) = some hi ↔
        ∃ k : Nat, k < fuel ∧ hi.2 = (n : Int) - 1 - k ∧
          hi.1 = angle_max_after g.angle_increment k g.angle_max ∧
          FVal.gt (FVal.fsub (angle_max_after g.angle_increment k g.angle_max)
            g.angle_increment) (.fin config.max_ang) = false ∧
          ∀ j : Nat, j < k →
            FVal.gt (FVal.fsub (angle_max_after g.angle_increment j g.angle_max)
              g.angle_increment) (.fin config.max_ang) = true) ∧
    (∀ fuel : Nat,
      (trim_min g.angle_increment config.min_ang fuel g.angle_min 0 = none ↔
        ∀ j : Nat, j < fuel →
          FVal.lt (FVal.fadd (angle_min_after g.angle_increment j g.angle_min)
            g.angle_increment) (.fin config.min_ang) = true) ∧
      (trim_max g.angle_increment config.max_ang fuel g.angle_max ((n : Int) - 1) = none ↔
        ∀ j : Nat, j < fuel →
          FVal.gt (FVal.fsub (angle_max_after g.angle_increment j g.angle_max)
            g.angle_increment) (.fin config.max_ang) = true)) ∧
    (∀ fuel now msg m t,
      parse_datagram self fuel datagram config now stack msg = .ExitSuccess m t →
      m.angle_increment = g.angle_increment ∧
      m.angle_min = angle_min_after g.angle_increment t.index_min g.angle_min ∧
      FVal.lt (FVal.fadd (angle_min_after g.angle_increment t.index_min g.angle_min)
        g.angle_increment) (.fin config.min_ang) = false ∧
      (∀ j : Nat, j < t.index_min →
        FVal.lt (FVal.fadd (angle_min_after g.angle_increment j g.angle_min)
          g.angle_increment) (.fin config.min_ang) = true) ∧
      (∃ k : Nat, t.index_max = (n : Int) - 1 - k ∧
        m.angle_max = angle_max_after g.angle_increment k g.angle_max ∧
        FVal.gt (FVal.fsub (angle_max_after g.angle_increment k g.angle_max)
          g.angle_increment) (.fin config.max_ang) = false ∧
        ∀ j : Nat, j < k →
          FVal.gt (FVal.fsub (angle_max_after g.angle_increment j g.angle_max)
            g.angle_increment) (.fin config.max_ang) = true) ∧
      (|config.min_ang| ≤ 2 ^ 100 →
        ∃ x a0 d : ℚ, m.angle_min = .fin x ∧ g.angle_min = .fin a0 ∧
          g.angle_increment = .fin d ∧
          |x - (a0 + (t.index_min : ℚ) * d)|
            ≤ (t.index_min : ℚ) * ((max |a0| |config.min_ang| + d) / 2 ^ 24 + 1 / 2 ^ 150)) ∧
      (|config.max_ang| ≤ 2 ^ 100 →
        ∃ y a0 d amax : ℚ, m.angle_max = .fin y ∧ g.angle_min = .fin a0 ∧
          g.angle_increment = .fin d ∧ g.angle_max = .fin amax ∧
          |y - (a0 + (t.index_max : ℚ) * d)|
            ≤ ((n : ℚ) - 1 - (t.index_max : ℚ))
                * ((max |amax| |config.max_ang| + d) / 2 ^ 24 + 1 / 2 ^ 150)
              + (|a0| + 2 * ((n : ℚ) - 1) * d) / 2 ^ 24 + 1 / 2 ^ 39)) := by
  obtain ⟨hn, a0, d, amax, hmin, hinc, hmax, hfa, hfm, ha, hd0, hd, hm, hle, herr⟩ :=
    decode_geometry_finite self _ stack n rssi w g hval hg
  have ha15 : |a0| ≤ pow2 15 := le_trans ha ((pow2_le_pow2 _ _).2 (by norm_num))
  refine ⟨⟨a0, d, amax, hmin, hinc, hmax, hd0, hle⟩, fun fuel lo => ⟨fun h => ?_, fun h => ?_⟩,
    fun fuel hi => ⟨fun h => ?_, fun h => ?_⟩,
    fun fuel => ⟨trim_min_eq_none _ _ _ _ _, trim_max_eq_none _ _ _ _ _⟩,
    fun fuel now msg m t h => ?_⟩
  · obtain ⟨k, h0, h1, h2, h3, h4⟩ := trim_min_spec _ _ _ _ _ _ h
    have hk : lo.2 = k := by omega
    rw [hk]
    exact ⟨h0, h2, h3, h4⟩
  · obtain ⟨h0, h1, h2, h3⟩ := h
    rw [trim_min_of_stop _ _ lo.2 _ 0 fuel h0 h2 h3]
    congr 1
    exact Prod.ext h1.symm (by simp)
  · obtain ⟨k, h0, h1, h2, h3, h4⟩ := trim_max_spec _ _ _ _ _ _ h
    exact ⟨k, h0, h1, h2, h3, h4⟩
  · obtain ⟨k, h0, h1, h2, h3, h4⟩ := h
    rw [trim_max_of_stop _ _ k _ _ fuel h0 h3 h4]
    congr 1
    exact Prod.ext h2.symm h1.symm
  · obtain ⟨rssi', w', g', lo, hi, hc, hg', hlo, hhi, h1, h2, h3, h4, h5, -, -⟩ :=
      parse_datagram_window _ _ _ _ _ _ _ _ _ h
    rw [hval] at hc
    injection hc with hc1 hc2 hc3
    rw [← hc1, hg] at hg'
    injection hg' with hg'
    subst hg'
    rw [← hc1] at hhi
    obtain ⟨k1, -, p1, p2, p3, p4⟩ := trim_min_spec _ _ _ _ _ _ hlo
    obtain ⟨k2, -, q1, q2, q3, q4⟩ := trim_max_spec _ _ _ _ _ _ hhi
    have hk1 : t.index_min = k1 := by omega
    rw [hk1]
    refine ⟨h5, by rw [h3, p2], p3, p4, ⟨k2, by rw [h2, q1], by rw [h4, q2], q3, q4⟩,
      fun hM => ?_, fun hM => ?_⟩
    · rw [hmin, hinc] at p4
      obtain ⟨x, hx, -, -, -, hxe⟩ :=
        angle_min_after_drift a0 d config.min_ang ha15 hd0 hd hfa hM k1 p4
      refine ⟨x, a0, d, ?_, hmin, hinc, hxe⟩
      rw [h3, p2, hmin, hinc, hx]
    · rw [hmax, hinc] at q4
      obtain ⟨y, hy, -, -, -, hye⟩ :=
        angle_max_after_drift amax d config.max_ang hm hd0 hd hfm hM k2 q4
      refine ⟨y, a0, d, amax, ?_, hmin, hinc, hmax, ?_⟩
      · rw [h4, q2, hmax, hinc, hy]
      · have hidx : (t.index_max : ℚ) = (n : ℚ) - 1 - (k2 : ℚ) := by
          rw [h2, q1]
          push_cast
          ring
        have key : y - (a0 + (t.index_max : ℚ) * d)
            = (y - (amax - (k2 : ℚ) * d)) + (amax - (a0 + ((n : ℚ) - 1) * d)) := by
          rw [hidx]
          ring
        have hk2 : (n : ℚ) - 1 - (t.index_max : ℚ) = (k2 : ℚ) := by rw [hidx]; ring
        rw [key, hk2]
        refine le_trans (abs_add _ _) ?_
        linarith

theorem check_telegram_sample_rssi_tokens :
    check_telegram (tokenize (telegram_of sample_rssi_tokens)) zero_stack = .ok 2 true [] := by
  rw [tokenize_sample_rssi_tokens]
  decide

theorem decode_geometry_sample_rssi_tokens :
    decode_geometry SickTim5512050001Parser.new (tokenize (telegram_of sample_rssi_tokens)) 2
      = .ok sample_rssi_geometry := by
  rw [tokenize_sample_rssi_tokens]
  decide!

/-- C18, at the sample telegram with RSSI block and the window of
`narrow_config`: the first loop stops after the least number of runs that
makes its condition false, and the successful call has `index_min = 1` and
the `angle_min` of the loop after one run. -/
theorem trimming_lock_step_witness :
    (check_telegram (tokenize (telegram_of sample_rssi_tokens)) zero_stack = .ok 2 true [] ∧
      decode_geometry SickTim5512050001Parser.new (tokenize (telegram_of sample_rssi_tokens)) 2
        = .ok sample_rssi_geometry) ∧
    (∃ a0 d amax : ℚ, sample_rssi_geometry.angle_min = .fin a0 ∧
      sample_rssi_geometry.angle_increment = .fin d ∧
      sample_rssi_geometry.angle_max = .fin amax ∧ 0 ≤ d ∧ a0 ≤ amax) ∧
    (∀ (fuel : Nat) (lo : FVal × Nat),
      trim_min sample_rssi_geometry.angle_increment narrow_config.min_ang fuel
          sample_rssi_geometry.angle_min 0 = some lo ↔
        lo.2 < fuel ∧
        lo.1 = angle_min_after sample_rssi_geometry.angle_increment lo.2
          sample_rssi_geometry.angle_min ∧
        FVal.lt (FVal.fadd (angle_min_after sample_rssi_geometry.angle_increment lo.2
          sample_rssi_geometry.angle_min) sample_rssi_geometry.angle_increment)
            (.fin narrow_config.min_ang) = false ∧
        ∀ j : Nat, j < lo.2 →
          FVal.lt (FVal.fadd (angle_min_after sample_rssi_geometry.angle_increment j
            sample_rssi_geometry.angle_min) sample_rssi_geometry.angle_increment)
              (.fin narrow_config.min_ang) = true) ∧
    (parse_datagram SickTim5512050001Parser.new 10 (telegram_of sample_rssi_tokens)
        narrow_config 1000 zero_stack empty_scan
        = .ExitSuccess narrow_rssi_scan narrow_rssi_trace ∧
      narrow_rssi_scan.angle_increment = sample_rssi_geometry.angle_increment ∧
      narrow_rssi_scan.angle_min
        = angle_min_after sample_rssi_geometry.angle_increment narrow_rssi_trace.index_min
          sample_rssi_geometry.angle_min) :=
  ⟨⟨check_telegram_sample_rssi_tokens, decode_geometry_sample_rssi_tokens⟩,
    (trimming_lock_step SickTim5512050001Parser.new (telegram_of sample_rssi_tokens)
      narrow_config zero_stack 2 true [] sample_rssi_geometry check_telegram_sample_rssi_tokens
      decode_geometry_sample_rssi_tokens).1,
    (trimming_lock_step SickTim5512050001Parser.new (telegram_of sample_rssi_tokens)
      narrow_config zero_stack 2 true [] sample_rssi_geometry check_telegram_sample_rssi_tokens
      decode_geometry_sample_rssi_tokens).2.1,
    parse_sample_rssi_tokens,
    ((trimming_lock_step SickTim5512050001Parser.new (telegram_of sample_rssi_tokens)
      narrow_config zero_stack 2 true [] sample_rssi_geometry check_telegram_sample_rssi_tokens
      decode_geometry_sample_rssi_tokens).2.2.2.2 10 1000 empty_scan narrow_rssi_scan
        narrow_rssi_trace parse_sample_rssi_tokens).1,
    ((trimming_lock_step SickTim5512050001Parser.new (telegram_of sample_rssi_tokens)
      narrow_config zero_stack 2 true [] sample_rssi_geometry check_telegram_sample_rssi_tokens
      decode_geometry_sample_rssi_tokens).2.2.2.2 10 1000 empty_scan narrow_rssi_scan
        narrow_rssi_trace parse_sample_rssi_tokens).2.1⟩

/-! ## Order of the output angles -/

theorem tokenize_crossing_tokens :
    tokenize (telegram_of crossing_tokens) = crossing_tokens :=
  tokenize_telegram_of _ (by decide)

/-- C15, as stated, fails.  The sample telegram with RSSI block parsed with
`min_ang = -2.31` succeeds with an empty window (`index_min = 2`,
`index_max = 1`, no ranges), and its `angle_min` is above its `angle_max`.
And the telegram with three samples, start angle 45 degrees and step 1
degree, parsed with `min_ang = -0.742`, succeeds with one range
(`index_min = index_max = 2`), `angle_min` the `float` `0xbf402037` and
`angle_max` the `float` `0xbf402038`, one unit below: `angle_min` is the
start after two additions of the step, `angle_max` the start plus twice the
step. -/
theorem empty_window_angles_cross :
    ((parse_datagram SickTim5512050001Parser.new 10 (telegram_of sample_rssi_tokens)
        empty_window_config 1000 zero_stack empty_scan).scan.map
      (fun m => (m.angle_min, m.angle_max, m.ranges))
      = some (.fin (-2434047 / 1048576), .fin (-613087 / 262144), []) ∧
    (parse_datagram SickTim5512050001Parser.new 10 (telegram_of sample_rssi_tokens)
        empty_window_config 1000 zero_stack empty_scan).trace.map
      (fun t => (t.index_min, t.index_max)) = some (2, 1) ∧
    (-613087 / 262144 : ℚ) < -2434047 / 1048576) ∧
    ((parse_datagram SickTim5512050001Parser.new 10 (telegram_of crossing_tokens)
        crossing_config 1000 zero_stack empty_scan).scan.map
      (fun m => (m.angle_min, m.angle_max, m.ranges))
      = some (.fin (-12591159 / 16777216), .fin (-1573895 / 2097152), [.fin 1]) ∧
    (parse_datagram SickTim5512050001Parser.new 10 (telegram_of crossing_tokens)
        crossing_config 1000 zero_stack empty_scan).trace.map
      (fun t => (t.index_min, t.index_max)) = some (2, 2) ∧
    (-1573895 / 2097152 : ℚ) < -12591159 / 16777216 ∧
    FVal.ge (.fin (-1573895 / 2097152)) (.fin (-12591159 / 16777216)) = false) := by
  simp only [parse_datagram, tokenize_sample_rssi_tokens, tokenize_crossing_tokens]
  exact ⟨⟨by decide!, by decide!, by norm_num⟩, by decide!, by decide!, by norm_num, by decide!⟩

/-- C15, amended: after a successful call, `index_max - index_min ≥ -1`, and
the comparison `angle_min <= angle_max` holds in two cases: when no sample is
trimmed (`index_min = 0` and `index_max = N - 1`), and when samples are
trimmed on both sides (`index_min > 0` and `index_max < N - 1`) and `min_ang
≤ max_ang`, where `angle_min < min_ang` and `max_ang < angle_max`.  In every
successful call with bounds of at most `2 ^ 100` the output angles are finite
and `angle_min - angle_max` is at most `(index_min - index_max) *
angle_increment` plus the rounding errors of the loops and of the decoded
`angle_max`: with a range in the output, `angle_min` exceeds `angle_max` by
no more than these. -/
theorem angle_min_le_angle_max (self : SickTim5512050001Parser) (fuel : Nat)
    (datagram : List Char) (config : SickTimConfig) (now : ℚ) (stack : Nat → Nat)
    (msg : LaserScan) (m : LaserScan) (t : Trace)
    (h : parse_datagram self fuel datagram config now stack msg = .ExitSuccess m t) :
    -1 ≤ t.index_max - (t.index_min : Int) ∧
    (t.index_min = 0 → t.index_max = (t.number_of_data : Int) - 1 →
      (∃ a b : ℚ, m.angle_min = .fin a ∧ m.angle_max = .fin b ∧ a ≤ b) ∧
      FVal.ge m.angle_max m.angle_min = true) ∧
    (0 < t.index_min → t.index_max < (t.number_of_data : Int) - 1 →
      config.min_ang ≤ config.max_ang →
      FVal.lt m.angle_min (.fin config.min_ang) = true ∧
      FVal.gt m.angle_max (.fin config.max_ang) = true ∧
      FVal.ge m.angle_max m.angle_min = true) ∧
    (|config.min_ang| ≤ 2 ^ 100 → |config.max_ang| ≤ 2 ^ 100 →
      ∃ g, decode_geometry self (tokenize datagram) t.number_of_data = .ok g ∧
      ∃ a0 amax a b d : ℚ, g.angle_min = .fin a0 ∧ g.angle_max = .fin amax ∧
        m.angle_min = .fin a ∧ m.angle_max = .fin b ∧ m.angle_increment = .fin d ∧ 0 ≤ d ∧
        a - b ≤ ((t.index_min : ℚ) - (t.index_max : ℚ)) * d
          + (t.index_min : ℚ) * ((max |a0| |config.min_ang| + d) / 2 ^ 24 + 1 / 2 ^ 150)
          + ((t.number_of_data : ℚ) - 1 - (t.index_max : ℚ))
              * ((max |amax| |config.max_ang| + d) / 2 ^ 24 + 1 / 2 ^ 150)
          + ((|a0| + 2 * ((t.number_of_data : ℚ) - 1) * d) / 2 ^ 24 + 1 / 2 ^ 39)) := by
  obtain ⟨rssi, w, g, lo, hi, hc, hg, hlo, hhi, h1, h2, h3, h4, h5, -, hsz⟩ :=
    parse_datagram_window _ _ _ _ _ _ _ _ _ h
  obtain ⟨hn, a0, d, amax, hmin, hinc, hmax, hfa, hfm, ha, hd0, hd, hm, hle, herr⟩ :=
    decode_geometry_finite self _ stack _ rssi w g hc hg
  have ha15 : |a0| ≤ pow2 15 := le_trans ha ((pow2_le_pow2 _ _).2 (by norm_num))
  obtain ⟨k1, -, p1, p2, p3, p4⟩ := trim_min_spec _ _ _ _ _ _ hlo
  obtain ⟨k2, -, q1, q2, q3, q4⟩ := trim_max_spec _ _ _ _ _ _ hhi
  have hk1 : t.index_min = k1 := by omega
  have hk2 : t.index_max = (t.number_of_data : Int) - 1 - k2 := by rw [h2, q1]
  refine ⟨by omega, fun hi0 hiN => ?_, fun hi0 hiN hw => ?_, fun hM1 hM2 => ?_⟩
  · have e1 : k1 = 0 := by omega
    have e2 : k2 = 0 := by omega
    subst e1 e2
    simp only [angle_min_after, angle_max_after] at p2 q2
    rw [h3, p2, hmin, h4, q2, hmax]
    exact ⟨⟨a0, amax, rfl, rfl, hle⟩, by simpa [FVal.ge] using hle⟩
  · obtain ⟨j1, rfl⟩ : ∃ j, k1 = j + 1 := ⟨k1 - 1, by omega⟩
    obtain ⟨j2, rfl⟩ : ∃ j, k2 = j + 1 := ⟨k2 - 1, by omega⟩
    have r1 := p4 j1 (by omega)
    have r2 := q4 j2 (by omega)
    rw [← angle_min_after_succ, ← p2, ← h3] at r1
    rw [← angle_max_after_succ, ← q2, ← h4] at r2
    refine ⟨r1, r2, ?_⟩
    revert r1 r2
    generalize m.angle_min = x
    generalize m.angle_max = y
    intro r1 r2
    cases x <;> cases y <;> simp [FVal.lt, FVal.gt, FVal.ge] at r1 r2 ⊢
    linarith
  · rw [hmin, hinc] at p4
    rw [hmax, hinc] at q4
    obtain ⟨x, hx, -, -, -, hxe⟩ :=
      angle_min_after_drift a0 d config.min_ang ha15 hd0 hd hfa hM1 k1 p4
    obtain ⟨y, hy, -, -, -, hye⟩ :=
      angle_max_after_drift amax d config.max_ang hm hd0 hd hfm hM2 k2 q4
    refine ⟨g, hg, a0, amax, x, y, d, hmin, hmax, ?_, ?_, by rw [h5, hinc], hd0, ?_⟩
    · rw [h3, p2, hmin, hinc, hx]
    · rw [h4, q2, hmax, hinc, hy]
    · have i1 : (t.index_min : ℚ) = (k1 : ℚ) := by rw [hk1]
      have i2 : (t.index_max : ℚ) = (t.number_of_data : ℚ) - 1 - (k2 : ℚ) := by
        rw [hk2]
        push_cast
        ring
      have i3 : (t.number_of_data : ℚ) - 1 - (t.index_max : ℚ) = (k2 : ℚ) := by rw [i2]; ring
      rw [i3, i1, i2]
      have s1 := (abs_le.1 hxe).2
      have s2 := (abs_le.1 hye).1
      have s3 := (abs_le.1 herr).1
      linarith

/-- C15, amended, at the sample telegram without RSSI block, where no sample
is trimmed. -/
theorem angle_min_le_angle_max_witness :
    parse_datagram SickTim5512050001Parser.new 1 (telegram_of sample_tokens) sample_config
      1000 zero_stack empty_scan = .ExitSuccess sample_scan sample_trace ∧
    -1 ≤ sample_trace.index_max - (sample_trace.index_min : Int) ∧
    (sample_trace.index_min = 0 →
      sample_trace.index_max = (sample_trace.number_of_data : Int) - 1 →
      (∃ a b : ℚ, sample_scan.angle_min = .fin a ∧ sample_scan.angle_max = .fin b ∧ a ≤ b) ∧
      FVal.ge sample_scan.angle_max sample_scan.angle_min = true) :=
  ⟨parse_sample_tokens,
    (angle_min_le_angle_max SickTim5512050001Parser.new 1 (telegram_of sample_tokens)
      sample_config 1000 zero_stack empty_scan sample_scan sample_trace parse_sample_tokens).1,
    (angle_min_le_angle_max SickTim5512050001Parser.new 1 (telegram_of sample_tokens)
      sample_config 1000 zero_stack empty_scan sample_scan sample_trace
      parse_sample_tokens).2.1⟩

/-! ## The tokenizer and splitting on spaces -/

theorem spec_split_on_space_nil : spec_split_on_space [] = [] := by
  simp [spec_split_on_space]

theorem spec_split_on_space_space (s : List Char) :
    spec_split_on_space (' ' :: s) = spec_split_on_space s := by
  simp [spec_split_on_space, List.splitOn, List.splitOnP_cons]

theorem spec_split_on_space_dropWhile (s : List Char) :
    spec_split_on_space (s.dropWhile (fun c => c == ' ')) = spec_split_on_space s := by
  induction s with
  | nil => rfl
  | cons c cs ih =>
    by_cases hc : c = ' '
    · subst hc
      rw [List.dropWhile_cons_of_pos (by simp), ih, spec_split_on_space_space]
    · rw [List.dropWhile_cons_of_neg (by simpa using hc)]

theorem spec_split_on_space_token (t r : List Char) (ht : t ≠ []) (hs : ∀ c ∈ t, c ≠ ' ') :
    spec_split_on_space t = [t] ∧
    spec_split_on_space (t ++ ' ' :: r) = t :: spec_split_on_space r := by
  have hp : ∀ x ∈ t, ¬ ((fun c => c == ' ') x) = true := fun x hx => by simpa using hs x hx
  constructor
  · simp only [spec_split_on_space, List.splitOn]
    rw [List.splitOnP_eq_single _ _ hp]
    cases t with
    | nil => exact absurd rfl ht
    | cons c cs => simp
  · simp only [spec_split_on_space, List.splitOn]
    rw [List.splitOnP_first _ _ hp ' ' (by simp)]
    cases t with
    | nil => exact absurd rfl ht
    | cons c cs => simp

theorem dropWhile_not_space (cs : List Char) :
    cs.dropWhile (fun d => d != ' ') = [] ∨
      ∃ r, cs.dropWhile (fun d => d != ' ') = ' ' :: r := by
  induction cs with
  | nil => exact Or.inl rfl
  | cons c cs ih =>
    by_cases hc : c = ' '
    · subst hc
      exact Or.inr ⟨cs, by rw [List.dropWhile_cons_of_neg (by simp)]⟩
    · rw [List.dropWhile_cons_of_pos (by simpa using hc)]
      exact ih

theorem dropWhile_space_head (s : List Char) (c : Char) (cs : List Char)
    (h : s.dropWhile (fun d => d == ' ') = c :: cs) : c ≠ ' ' := by
  induction s with
  | nil => simp at h
  | cons x xs ih =>
    by_cases hx : x = ' '
    · subst hx
      rw [List.dropWhile_cons_of_pos (by simp)] at h
      exact ih h
    · rw [List.dropWhile_cons_of_neg (by simpa using hx)] at h
      injection h with h1 _
      rw [← h1]
      exact hx

/-- The tokenizer loop gives the non-empty pieces between spaces, and each of
its tokens is non-empty and without space. -/
theorem tokenizeLoop_eq_spec :
    ∀ (n : Nat) (s : List Char), s.length ≤ n →
      tokenizeLoop s = spec_split_on_space s ∧
      ∀ t ∈ tokenizeLoop s, t ≠ [] ∧ ∀ c ∈ t, c ≠ ' ' := by
  intro n
  induction n with
  | zero =>
    intro s hs
    have : s = [] := List.length_eq_zero.1 (by omega)
    subst this
    rw [tokenizeLoop_eq]
    simp [strtok_r, spec_split_on_space_nil]
  | succ n ih =>
    intro s hs
    rw [tokenizeLoop_eq]
    cases hd : s.dropWhile (fun c => c == ' ') with
    | nil =>
      have h1 : strtok_r s = none := by simp only [strtok_r, hd]
      rw [h1, ← spec_split_on_space_dropWhile, hd]
      simp [spec_split_on_space_nil]
    | cons c cs =>
      have hc : c ≠ ' ' := dropWhile_space_head s c cs hd
      have h1 : strtok_r s = some (c :: cs.takeWhile (fun d => d != ' '),
          (cs.dropWhile (fun d => d != ' ')).drop 1) := by
        simp only [strtok_r, hd]
      have htok : ∀ x ∈ c :: cs.takeWhile (fun d => d != ' '), x ≠ ' ' := by
        intro x hx
        rcases List.mem_cons.1 hx with rfl | hx
        · exact hc
        · simpa using List.mem_takeWhile_imp hx
      have hlen : (c :: cs).length ≤ s.length := by
        rw [← hd]
        exact (List.dropWhile_suffix _).length_le
      have hdw : (cs.dropWhile (fun d => d != ' ')).length ≤ cs.length :=
        (List.dropWhile_suffix _).length_le
      have hsplit : c :: cs = (c :: cs.takeWhile (fun d => d != ' '))
          ++ cs.dropWhile (fun d => d != ' ') := by
        rw [List.cons_append, List.takeWhile_append_dropWhile]
      rw [h1, ← spec_split_on_space_dropWhile, hd, hsplit]
      simp only
      rcases dropWhile_not_space cs with h0 | ⟨r, hr⟩
      · rw [h0, List.append_nil, (spec_split_on_space_token _ [] (by simp) htok).1]
        have hnil : tokenizeLoop (List.drop 1 ([] : List Char)) = [] := by
          rw [List.drop_nil, tokenizeLoop_eq]
          simp [strtok_r]
        rw [hnil]
        refine ⟨rfl, fun t ht => ?_⟩
        rw [List.mem_singleton] at ht
        subst ht
        exact ⟨by simp, htok⟩
      · rw [hr, (spec_split_on_space_token _ r (by simp) htok).2]
        simp only [List.drop_succ_cons, List.drop_zero]
        have hrlen : r.length ≤ n := by
          rw [hr] at hdw
          simp only [List.length_cons] at hdw hlen
          omega
        obtain ⟨i1, i2⟩ := ih r hrlen
        refine ⟨by rw [i1], fun t ht => ?_⟩
        rcases List.mem_cons.1 ht with rfl | ht
        · exact ⟨by simp, htok⟩
        · exact i2 t ht

/-- C16: for a telegram text without NUL the tokenizer gives the text split on
the space character with the empty pieces dropped, in order; every token is
non-empty and without space (leading, trailing and repeated spaces give no
token); and tokenizing the single-space join of non-empty tokens without space
and NUL gives these tokens back. -/
theorem tokenizer_splits_on_spaces (s : List Char) (hnul : ∀ c ∈ s, c ≠ Char.ofNat 0) :
    tokenize s = spec_split_on_space s ∧
    (∀ t ∈ tokenize s, t ≠ [] ∧ ∀ c ∈ t, c ≠ ' ') ∧
    (∀ toks : List Token,
      (∀ t ∈ toks, t ≠ [] ∧ ∀ c ∈ t, c ≠ ' ' ∧ c ≠ Char.ofNat 0) →
      tokenize (telegram_of toks) = toks) := by
  have hs : tokenize s = tokenizeLoop s := by
    unfold tokenize
    rw [List.takeWhile_eq_self_iff.2 (fun c hc => by simpa using hnul c hc)]
  obtain ⟨h1, h2⟩ := tokenizeLoop_eq_spec s.length s le_rfl
  refine ⟨by rw [hs, h1], by rw [hs]; exact h2, fun toks h => ?_⟩
  exact tokenize_telegram_of toks (fun t ht => (is_token_iff t).2 (h t ht))

/-- C16, at a text with leading, repeated and trailing spaces. -/
theorem tokenizer_splits_on_spaces_witness :
    (∀ c ∈ [' ', 'a', ' ', ' ', 'b', 'c', ' '], c ≠ Char.ofNat 0) ∧
    tokenize [' ', 'a', ' ', ' ', 'b', 'c', ' ']
      = spec_split_on_space [' ', 'a', ' ', ' ', 'b', 'c', ' '] ∧
    spec_split_on_space [' ', 'a', ' ', ' ', 'b', 'c', ' '] = [['a'], ['b', 'c']] :=
  ⟨by decide,
    (tokenizer_splits_on_spaces [' ', 'a', ' ', ' ', 'b', 'c', ' '] (by decide)).1,
    by decide⟩

/-! ## The RSSI marker -/

theorem read_ranges_set (fields : List Token) (stack : Nat → Nat) (i : Nat) (tok : Token) :
    ∀ (n j : Nat), j + n + 26 ≤ i →
      read_ranges (fields.set i tok) stack n j = read_ranges fields stack n j := by
  intro n
  induction n with
  | zero => intro j _; rfl
  | succ n ih =>
    intro j h
    simp only [read_ranges, HEADER_FIELDS]
    rw [List.getElem?_set_ne (by omega), ih (j + 1) (by omega)]

theorem read_intensities_set (fields : List Token) (stack : Nat → Nat) (i : Nat) (tok : Token)
    (offset : Nat) (hi : i < offset) :
    ∀ (n j : Nat), read_intensities (fields.set i tok) stack offset n j
      = read_intensities fields stack offset n j := by
  intro n
  induction n with
  | zero => intro j; rfl
  | succ n ih =>
    intro j
    simp only [read_intensities]
    rw [List.getElem?_set_ne (by omega), ih (j + 1)]

theorem decode_geometry_set (self : SickTim5512050001Parser) (fields : List Token) (i : Nat)
    (tok : Token) (n : Nat) (hi : 25 ≤ i) :
    decode_geometry self (fields.set i tok) n = decode_geometry self fields n := by
  simp only [decode_geometry]
  rw [List.getElem?_set_ne (by omega), List.getElem?_set_ne (by omega),
    List.getElem?_set_ne (by omega), List.getElem?_set_ne (by omega)]

theorem check_rssi_set (fields : List Token) (stack : Nat → Nat) (n : Nat) (tok : Token) :
    (check_rssi (fields.set (26 + n + 1) tok) stack n).erase_warnings
      = (check_rssi fields stack n).erase_warnings := by
  simp only [check_rssi, HEADER_FIELDS, MIN_FOOTER_FIELDS, List.length_set]
  rw [List.getElem?_set_ne (by omega), List.getElem?_set_ne (by omega)]
  cases fields[26 + n]? with
  | none => rfl
  | some fr =>
    simp only
    by_cases hpos : (sscanf_d fr).getD (toInt32 (stack (26 + n))) > 0
    · simp only [if_pos hpos]
      cases fields[26 + n + 6]? with
      | none => rfl
      | some fn =>
        simp only
        by_cases hne : (sscanf_hx fn).getD 0 ≠ n
        · simp only [if_pos hne]
        · simp only [if_neg hne]
          by_cases hlt : fields.length < 26 + n + 1 + 6 + (sscanf_hx fn).getD 0 + 5
          · simp only [if_pos hlt]
          · simp only [if_neg hlt]
            have hlen : 26 + n + 1 < fields.length := by omega
            rw [List.getElem?_set_self hlen, List.getElem?_eq_getElem hlen]
            rfl
    · simp only [if_neg hpos]

theorem check_telegram_set (fields : List Token) (stack : Nat → Nat) (f25 : Token)
    (tok : Token) (h25 : fields[25]? = some f25) :
    (check_telegram (fields.set (26 + (sscanf_hx f25).getD 0 + 1) tok) stack).erase_warnings
      = (check_telegram fields stack).erase_warnings := by
  simp only [check_telegram, check_lengths, HEADER_FIELDS, MIN_FOOTER_FIELDS, List.length_set]
  rw [List.getElem?_set_ne (by omega), List.getElem?_set_ne (by omega),
    List.getElem?_set_ne (by omega), h25]
  split
  · rfl
  · cases fields[15]? with
    | none => rfl
    | some f15 =>
      simp only
      split
      · rfl
      · cases fields[20]? with
        | none => rfl
        | some f20 =>
          simp only
          split
          · rfl
          · split
            · rfl
            · split
              · rfl
              · exact check_rssi_set fields stack _ tok

theorem read_scan_set (self : SickTim5512050001Parser) (fuel : Nat) (fields : List Token)
    (config : SickTimConfig) (now : ℚ) (stack : Nat → Nat) (msg : LaserScan) (n : Nat)
    (rssi : Bool) (w1 w2 : List Warning) (tok : Token) :
    (match read_scan self fuel (fields.set (26 + n + 1) tok) config now stack msg n rssi w1 with
      | .error f => Outcome.fault f
      | .ok r => (Outcome.ExitSuccess r.1 r.2).erase_warnings)
    = (match read_scan self fuel fields config now stack msg n rssi w2 with
      | .error f => Outcome.fault f
      | .ok r => (Outcome.ExitSuccess r.1 r.2).erase_warnings) := by
  unfold read_scan
  rw [decode_geometry_set _ _ _ _ _ (by omega)]
  cases decode_geometry self fields n with
  | error f => rfl
  | ok g =>
    simp only
    cases trim_min g.angle_increment config.min_ang fuel g.angle_min 0 with
    | none => rfl
    | some lo =>
      simp only
      cases hhi : trim_max g.angle_increment config.max_ang fuel g.angle_max ((n : Int) - 1) with
      | none => rfl
      | some hi =>
        simp only
        have hle := trim_max_le _ _ _ _ _ _ hhi
        by_cases hsz : hi.2 - lo.2 + 1 < 0
        · simp only [if_pos hsz]
        · simp only [if_neg hsz]
          rw [read_ranges_set _ _ _ _ _ _ (by omega)]
          have hwi : write_intensities (fields.set (26 + n + 1) tok) stack config.intensity
                rssi n (hi.2 - lo.2 + 1).toNat lo.2 msg.intensities
              = write_intensities fields stack config.intensity rssi n
                (hi.2 - lo.2 + 1).toNat lo.2 msg.intensities := by
            simp only [write_intensities, HEADER_FIELDS]
            rw [read_intensities_set _ _ _ _ _ (by omega)]
          rw [hwi]
          cases read_ranges fields stack (hi.2 - lo.2 + 1).toNat lo.2 with
          | error f => rfl
          | ok ranges =>
            simp only
            cases write_intensities fields stack config.intensity rssi n
                (hi.2 - lo.2 + 1).toNat lo.2 msg.intensities with
            | error f => rfl
            | ok iw =>
              simp [Outcome.erase_warnings]

theorem Lengths.erase_warnings_eq_reject (x : Lengths) (r : Reject)
    (h : x.erase_warnings = (Lengths.reject r).erase_warnings) : x = .reject r := by
  cases x <;> simp [Lengths.erase_warnings] at h ⊢
  exact h

theorem Lengths.erase_warnings_eq_fault (x : Lengths) (f : Fault)
    (h : x.erase_warnings = (Lengths.fault f).erase_warnings) : x = .fault f := by
  cases x <;> simp [Lengths.erase_warnings] at h ⊢
  exact h

theorem Lengths.erase_warnings_eq_ok (x : Lengths) (n : Nat) (rssi : Bool) (w : List Warning)
    (h : x.erase_warnings = (Lengths.ok n rssi w).erase_warnings) :
    ∃ w1, x = .ok n rssi w1 := by
  cases x with
  | reject r => simp [Lengths.erase_warnings] at h
  | fault f => simp [Lengths.erase_warnings] at h
  | ok k r w1 =>
    simp only [Lengths.erase_warnings, Lengths.ok.injEq, and_true] at h
    exact ⟨w1, by rw [h.1, h.2]⟩

theorem parse_fields_set (self : SickTim5512050001Parser) (fuel : Nat) (fields : List Token)
    (config : SickTimConfig) (now : ℚ) (stack : Nat → Nat) (msg : LaserScan) (f25 tok : Token)
    (h25 : fields[25]? = some f25) :
    (parse_fields self fuel (fields.set (26 + (sscanf_hx f25).getD 0 + 1) tok) config now stack
        msg).erase_warnings
      = (parse_fields self fuel fields config now stack msg).erase_warnings := by
  have hc := check_telegram_set fields stack f25 tok h25
  unfold parse_fields
  cases h2 : check_telegram fields stack with
  | reject r =>
    rw [h2] at hc
    rw [Lengths.erase_warnings_eq_reject _ _ hc]
  | fault f =>
    rw [h2] at hc
    rw [Lengths.erase_warnings_eq_fault _ _ hc]
  | ok n rssi w2 =>
    rw [h2] at hc
    obtain ⟨w1, h1⟩ := Lengths.erase_warnings_eq_ok _ _ _ _ hc
    rw [h1]
    obtain ⟨-, -, -, hl⟩ := check_telegram_ok _ _ _ _ _ h2
    obtain ⟨g25, hg25, hn, -, -, -, -⟩ := check_lengths_ok _ _ _ _ _ hl
    rw [h25] at hg25
    injection hg25 with hg25
    subst hg25
    subst hn
    have h := read_scan_set self fuel fields config now stack msg ((sscanf_hx f25).getD 0) rssi
      w1 w2 tok
    simp only
    cases hT : read_scan self fuel (fields.set (26 + (sscanf_hx f25).getD 0 + 1) tok) config
        now stack msg ((sscanf_hx f25).getD 0) rssi w1 <;>
    cases hF : read_scan self fuel fields config now stack msg ((sscanf_hx f25).getD 0) rssi w2 <;>
    simp only [hT, hF] at h ⊢ <;>
    exact h

/-- C17: two telegrams that differ only in the token at index `26 + N + 1`
(the place of the marker "RSSI1") have, with the same parameters and clock,
the same result apart from the warnings: the same rejection or fault, or
success with the same scan message and the same locals. -/
theorem rssi_marker_is_ignored (self : SickTim5512050001Parser) (fuel : Nat)
    (datagram datagram2 : List Char) (config : SickTimConfig) (now : ℚ) (stack : Nat → Nat)
    (msg : LaserScan) (f25 tok : Token)
    (h25 : (tokenize datagram)[25]? = some f25)
    (hdiff : tokenize datagram2
      = (tokenize datagram).set (26 + (sscanf_hx f25).getD 0 + 1) tok) :
    (parse_datagram self fuel datagram2 config now stack msg).erase_warnings
      = (parse_datagram self fuel datagram config now stack msg).erase_warnings ∧
    (parse_datagram self fuel datagram2 config now stack msg).scan
      = (parse_datagram self fuel datagram config now stack msg).scan ∧
    (∀ r m, parse_datagram self fuel datagram2 config now stack msg = .ExitError r m ↔
      parse_datagram self fuel datagram config now stack msg = .ExitError r m) := by
  have key : (parse_datagram self fuel datagram2 config now stack msg).erase_warnings
      = (parse_datagram self fuel datagram config now stack msg).erase_warnings := by
    unfold parse_datagram
    rw [hdiff]
    exact parse_fields_set self fuel _ config now stack msg f25 tok h25
  refine ⟨key, ?_, fun r m => ?_⟩
  · rw [← Outcome.scan_erase_warnings, key, Outcome.scan_erase_warnings]
  · cases h1 : parse_datagram self fuel datagram2 config now stack msg <;>
    cases h2 : parse_datagram self fuel datagram config now stack msg <;>
    simp only [h1, h2, Outcome.erase_warnings] at key <;>
    first
      | (cases key; exact Iff.rfl)
      | cases key
      | simp

theorem tokenize_wrong_marker_tokens :
    tokenize (telegram_of wrong_marker_tokens) = wrong_marker_tokens :=
  tokenize_telegram_of _ (by decide)

/-- C17, at the sample telegram with RSSI block and the same telegram with
"XYZ" for "RSSI1": the same scan, and the warning about the marker. -/
theorem rssi_marker_is_ignored_witness :
    ((tokenize (telegram_of sample_rssi_tokens))[25]? = some ['2'] ∧
      tokenize (telegram_of wrong_marker_tokens)
        = (tokenize (telegram_of sample_rssi_tokens)).set
          (26 + (sscanf_hx ['2']).getD 0 + 1) ['X', 'Y', 'Z']) ∧
    (parse_datagram SickTim5512050001Parser.new 10 (telegram_of wrong_marker_tokens)
        narrow_config 1000 zero_stack empty_scan).scan
      = (parse_datagram SickTim5512050001Parser.new 10 (telegram_of sample_rssi_tokens)
        narrow_config 1000 zero_stack empty_scan).scan ∧
    (parse_datagram SickTim5512050001Parser.new 10 (telegram_of wrong_marker_tokens)
        narrow_config 1000 zero_stack empty_scan).trace.map (fun t => t.warnings)
      = some [.rssiMarkerMismatch] :=
  ⟨⟨by rw [tokenize_sample_rssi_tokens]; decide,
      by rw [tokenize_sample_rssi_tokens, tokenize_wrong_marker_tokens]; decide⟩,
    (rssi_marker_is_ignored SickTim5512050001Parser.new 10 (telegram_of sample_rssi_tokens)
      (telegram_of wrong_marker_tokens) narrow_config 1000 zero_stack empty_scan ['2']
      ['X', 'Y', 'Z']
      (by rw [tokenize_sample_rssi_tokens]; decide)
      (by rw [tokenize_sample_rssi_tokens, tokenize_wrong_marker_tokens]; decide)).2.1,
    by rw [parse_datagram, tokenize_wrong_marker_tokens]; decide!⟩

/-! ## Reads inside and outside the token sequence -/

theorem read_ranges_outOfBounds (fields : List Token) (stack : Nat → Nat) (i : Nat) :
    ∀ (n j : Nat), read_ranges fields stack n j = .error (.outOfBounds i) →
      fields.length ≤ i ∧ i < j + n + 26 := by
  intro n
  induction n with
  | zero => intro j h; simp [read_ranges] at h
  | succ n ih =>
    intro j h
    simp only [read_ranges, HEADER_FIELDS] at h
    split at h
    · rename_i hnone
      injection h with h
      injection h with h
      subst h
      exact ⟨List.getElem?_eq_none_iff.1 hnone, by omega⟩
    · split at h
      · rename_i f hf
        injection h with h
        subst h
        obtain ⟨h1, h2⟩ := ih (j + 1) hf
        exact ⟨h1, by omega⟩
      · cases h

theorem read_intensities_outOfBounds (fields : List Token) (stack : Nat → Nat)
    (offset i : Nat) :
    ∀ (n j : Nat), read_intensities fields stack offset n j = .error (.outOfBounds i) →
      fields.length ≤ i ∧ i < j + n + offset := by
  intro n
  induction n with
  | zero => intro j h; simp [read_intensities] at h
  | succ n ih =>
    intro j h
    simp only [read_intensities] at h
    split at h
    · rename_i hnone
      injection h with h
      injection h with h
      subst h
      exact ⟨List.getElem?_eq_none_iff.1 hnone, by omega⟩
    · split at h
      · rename_i f hf
        injection h with h
        subst h
        obtain ⟨h1, h2⟩ := ih (j + 1) hf
        exact ⟨h1, by omega⟩
      · cases h

/-- The loops over the samples and the geometry decoding read inside `fields`. -/
theorem read_scan_in_bounds (self : SickTim5512050001Parser) (fuel : Nat)
    (fields : List Token) (config : SickTimConfig) (now : ℚ) (stack : Nat → Nat)
    (msg : LaserScan) (n : Nat) (rssi : Bool) (w : List Warning) (i : Nat)
    (hn : 1 ≤ n ∧ n ≤ 811)
    (hlen : 26 + n + 6 ≤ fields.length) (hrssi : rssi = true → 2 * n + 38 ≤ fields.length) :
    read_scan self fuel fields config now stack msg n rssi w ≠ .error (.outOfBounds i) := by
  intro h
  obtain ⟨g, -, -, hg, -⟩ := decode_geometry_ok self fields n (by omega) hn
  unfold read_scan at h
  rw [hg] at h
  simp only at h
  cases hlo : trim_min g.angle_increment config.min_ang fuel g.angle_min 0 with
  | none => rw [hlo] at h; cases h
  | some lo =>
    rw [hlo] at h
    simp only at h
    cases hhi : trim_max g.angle_increment config.max_ang fuel g.angle_max ((n : Int) - 1) with
    | none => rw [hhi] at h; cases h
    | some hi =>
      rw [hhi] at h
      simp only at h
      have hle := trim_max_le _ _ _ _ _ _ hhi
      split at h
      · cases h
      · rename_i hsz
        cases hr : read_ranges fields stack (hi.2 - lo.2 + 1).toNat lo.2 with
        | error f =>
          rw [hr] at h
          simp only at h
          injection h with h
          subst h
          obtain ⟨h1, h2⟩ := read_ranges_outOfBounds _ _ _ _ _ hr
          omega
        | ok ranges =>
          rw [hr] at h
          simp only at h
          cases hw : write_intensities fields stack config.intensity rssi n
              (hi.2 - lo.2 + 1).toNat lo.2 msg.intensities with
          | error f =>
            rw [hw] at h
            simp only at h
            injection h with h
            subst h
            simp only [write_intensities, HEADER_FIELDS] at hw
            split at hw
            · split at hw
              · rename_i hr1
                split at hw
                · rename_i f hf
                  injection hw with hw
                  subst hw
                  obtain ⟨h1, h2⟩ := read_intensities_outOfBounds _ _ _ _ _ _ hf
                  have := hrssi hr1
                  omega
                · cases hw
              · cases hw
            · cases hw
          | ok iw =>
            rw [hw] at h
            cases h

/-- The only read of `check_telegram` outside `fields` is the one of the RSSI
sample count, for a telegram with exactly `26 + N + 6` tokens. -/
theorem check_telegram_outOfBounds (fields : List Token) (stack : Nat → Nat) (i : Nat)
    (h : check_telegram fields stack = .fault (.outOfBounds i)) :
    ∃ f25, fields[25]? = some f25 ∧ i = 26 + (sscanf_hx f25).getD 0 + 6 ∧
      fields.length = 26 + (sscanf_hx f25).getD 0 + 6 := by
  rcases check_telegram_cases fields stack with
    ⟨-, e⟩ | ⟨-, -, e⟩ | ⟨-, -, -, e⟩ | ⟨h32, -, -, e⟩
  · rw [e] at h; cases h
  · rw [e] at h; cases h
  · rw [e] at h; cases h
  · rw [e] at h
    have h25 : fields[25]? = some fields[25] := List.getElem?_eq_getElem (by omega)
    rw [check_lengths_eq _ _ _ h25] at h
    refine ⟨fields[25], h25, ?_⟩
    split at h
    · cases h
    · split at h
      · cases h
      · rename_i hN hcount
        simp only [check_rssi, HEADER_FIELDS, MIN_FOOTER_FIELDS] at h
        have hfr : fields[26 + (sscanf_hx fields[25]).getD 0]?
            = some fields[26 + (sscanf_hx fields[25]).getD 0] :=
          List.getElem?_eq_getElem (by omega)
        rw [hfr] at h
        simp only at h
        split at h
        · split at h
          · rename_i hnone
            injection h with h
            injection h with h
            have := List.getElem?_eq_none_iff.1 hnone
            exact ⟨h.symm, by omega⟩
          · split at h
            · cases h
            · split at h
              · cases h
              · rename_i hne hlt
                simp only [ne_eq, Decidable.not_not] at hne
                rw [hne] at hlt
                have hm : fields[26 + (sscanf_hx fields[25]).getD 0 + 1]?
                    = some fields[26 + (sscanf_hx fields[25]).getD 0 + 1] :=
                  List.getElem?_eq_getElem (by omega)
                rw [hm] at h
                cases h
        · cases h

/-- C19, the code at the failing input: the sample telegram with the RSSI flag
"1" and no RSSI block, 35 tokens.  It passes header validation and the
first length check (`35 = 26 + 3 + 1 + 5`), the flag is positive, and the RSSI
sample count is read from `fields[26 + 3 + 6]`, index 35 of 35 tokens, before
the length check for the RSSI layout.  It is the only such read: whenever a
call reads outside `fields`, it is this read, in a telegram of exactly
`26 + N + 6` tokens. -/
theorem rssi_count_read_out_of_bounds (fuel : Nat) :
    ((tokenize (telegram_of flag_without_block_tokens)).length = 35 ∧
      parse_datagram SickTim5512050001Parser.new fuel (telegram_of flag_without_block_tokens)
        sample_config 1000 zero_stack empty_scan = .fault (.outOfBounds 35)) ∧
    (∀ (self : SickTim5512050001Parser) (fuel2 : Nat) (datagram : List Char)
      (config : SickTimConfig) (now : ℚ) (stack : Nat → Nat) (msg : LaserScan) (i : Nat),
      parse_datagram self fuel2 datagram config now stack msg = .fault (.outOfBounds i) →
      ∃ f25, (tokenize datagram)[25]? = some f25 ∧ i = 26 + (sscanf_hx f25).getD 0 + 6 ∧
        (tokenize datagram).length = 26 + (sscanf_hx f25).getD 0 + 6) := by
  constructor
  · have hc : check_telegram flag_without_block_tokens zero_stack
        = .fault (.outOfBounds 35) := by decide
    rw [parse_datagram, tokenize_flag_without_block_tokens]
    refine ⟨by decide, ?_⟩
    simp only [parse_fields, hc]
  · intro self fuel2 datagram config now stack msg i h
    unfold parse_datagram parse_fields at h
    cases hc : check_telegram (tokenize datagram) stack with
    | reject r => rw [hc] at h; cases h
    | fault f =>
      rw [hc] at h
      simp only at h
      injection h with h
      subst h
      exact check_telegram_outOfBounds _ _ _ hc
    | ok n rssi w =>
      rw [hc] at h
      simp only at h
      obtain ⟨-, -, -, hl⟩ := check_telegram_ok _ _ _ _ _ hc
      obtain ⟨-, -, -, hn1, hn2, hcount, hr⟩ := check_lengths_ok _ _ _ _ _ hl
      have hin := read_scan_in_bounds self fuel2 (tokenize datagram) config now stack msg n
        rssi w i ⟨hn1, hn2⟩ hcount
        (fun hrssi => by subst hrssi; exact check_rssi_ok_true _ _ _ _ _ hr)
      cases hrs : read_scan self fuel2 (tokenize datagram) config now stack msg n rssi w with
      | error f =>
        rw [hrs] at h
        simp only at h
        injection h with h
        subst h
        exact absurd hrs hin
      | ok r => rw [hrs] at h; cases h

end sick_tim
